import Mathlib

/-!
# Tokay: the request/response bridge of `vfd.gaol`

A shallow embedding of `tokay/tokay.go` and `tokay/lib/chcom/chcom.go`.

* Go strings are Lean `String`s (sequences of Unicode scalar values).
* What the program imports from outside the repository (the `jsontools`
  package and the Unicode tables behind `fmt`'s `%q`) is a parameter,
  `Externals`.
* Channels are explicit: a goroutine's loop body is a function from the
  value it received (and the results of the system calls it makes) to the
  values it sends and its next state.
-/

namespace Tokay

/-! ## What is imported from outside the repository -/

/-- The operations of `github.com/att/gopkgs/jsontools` that tokay calls on a
`*Jtree` (type `J`), and the Unicode table that `strconv.IsPrint` consults for
runes above U+00FF. -/
structure Externals (J : Type) where
  /-- `jsontools.Json2tree`: `none` when it returns an error. -/
  Json2tree : String → Option J
  /-- `(*Jtree).Get_string`: `none` is the nil pointer. -/
  Get_string : J → String → Option String
  /-- `(*Jtree).Get_subtree`: `none` when the second result is false. -/
  Get_subtree : J → String → Option J
  /-- `(*Jtree).Frock`: the tree as JSON text. -/
  Frock : J → String
  /-- `strconv.IsPrint` on runes above U+00FF. -/
  isPrintHi : Char → Bool

/-! ## `fmt.Sprintf` with `%q` -/

/-- The table `lowerhex` of `strconv`: the hexadecimal digit of `n % 16`. -/
def lowerhex (n : Nat) : Char :=
  if n % 16 < 10 then Char.ofNat (48 + n % 16) else Char.ofNat (87 + n % 16)

/-- `strconv.IsPrint`: exact on Latin-1, the table above it. -/
def IsPrint (hi : Char → Bool) (r : Char) : Bool :=
  if r.toNat ≤ 0xFF then
    if 0x20 ≤ r.toNat ∧ r.toNat ≤ 0x7E then true
    else if 0xA1 ≤ r.toNat then r.toNat != 0xAD
    else false
  else hi r

/-- `strconv.appendEscapedRune` with quote `"`, neither ASCII-only nor
graphic-only: the characters that `%q` writes for one rune. -/
def appendEscapedRune (hi : Char → Bool) (r : Char) : List Char :=
  if r = '"' ∨ r = '\\' then ['\\', r]
  else if IsPrint hi r then [r]
  else if r.toNat = 7 then ['\\', 'a']
  else if r.toNat = 8 then ['\\', 'b']
  else if r.toNat = 12 then ['\\', 'f']
  else if r.toNat = 10 then ['\\', 'n']
  else if r.toNat = 13 then ['\\', 'r']
  else if r.toNat = 9 then ['\\', 't']
  else if r.toNat = 11 then ['\\', 'v']
  else if r.toNat < 0x20 ∨ r.toNat = 0x7f then
    ['\\', 'x', lowerhex (r.toNat / 16), lowerhex r.toNat]
  else if r.toNat < 0x10000 then
    ['\\', 'u', lowerhex (r.toNat / 4096), lowerhex (r.toNat / 256),
      lowerhex (r.toNat / 16), lowerhex r.toNat]
  else
    ['\\', 'U', lowerhex (r.toNat / 268435456), lowerhex (r.toNat / 16777216),
      lowerhex (r.toNat / 1048576), lowerhex (r.toNat / 65536),
      lowerhex (r.toNat / 4096), lowerhex (r.toNat / 256),
      lowerhex (r.toNat / 16), lowerhex r.toNat]

/-- The characters between the quotes of `strconv.Quote`. -/
def quoteBody (hi : Char → Bool) : List Char → List Char
  | [] => []
  | r :: rs => appendEscapedRune hi r ++ quoteBody hi rs

/-- The verb `%q` applied to a string: `strconv.Quote`. Strings are sequences
of Unicode scalar values here, so the `\x` escapes that Go writes for bytes
that are not UTF-8 do not arise. -/
def goQuote (hi : Char → Bool) (s : String) : String :=
  ⟨'"' :: (quoteBody hi s.data ++ ['"'])⟩

/-! ## `chcom`: what travels on the channels -/

/-- `chcom.Request`. A channel is named by a number. -/
structure Request (J : Type) where
  Rid : String
  Exch_key : String
  Msg_key : String
  Source : String
  Jtree : J
  Resp_ch : Nat
  Single_use : Bool

/-- `chcom.Response`, the block the serialiser queues with the responder. -/
structure Response (J : Type) where
  Rid : String
  Exch_key : String
  Msg_key : String
  Tstamp : Int
  Wait : Bool
  Req : Request J
  Rdata : String

/-- `rabbit_hole.Mq_msg`, as far as tokay fills it. -/
structure Mq_msg where
  Data : String
  Key : String
deriving DecidableEq

/-- The fields of `context` that the goroutines read. -/
structure context where
  sid : String
  resp_fifo : String
  cdir : String
  /-- Whether `resp_ch` is not nil. -/
  resp_ch : Bool
  /-- The channel the rmq writer listens to. -/
  rmqw_ch : Nat
  /-- The flag `FL_forreal`. -/
  forreal : Bool

/-! ## Utility functions -/

/-- `build_response`. -/
def build_response {J : Type} (X : Externals J) (sender state msg msg_key : String)
    (data : Option J) : String :=
  let state := if state = "" then "OK" else state
  match data with
  | some d =>
    "\x7b \"sender\": " ++ goQuote X.isPrintHi sender ++ ", \"state\": " ++
      goQuote X.isPrintHi state ++ ", \"msg\": " ++ goQuote X.isPrintHi msg ++
      ", \"msg_key\": " ++ goQuote X.isPrintHi msg_key ++ ", \"data\": " ++
      X.Frock d ++ " \x7d"
  | none =>
    "\x7b \"sender\": " ++ goQuote X.isPrintHi sender ++ ", \"state\": " ++
      goQuote X.isPrintHi state ++ ", \"msg\": " ++ goQuote X.isPrintHi msg ++
      ", \"msg_key\": " ++ goQuote X.isPrintHi msg_key ++ " \x7d"

/-- `mk_vfd_request`. Every caller passes the address of the request's `Rid`
as `key`, so `key` is a string here. -/
def mk_vfd_request (hi : Char → Bool) (action : String) (fname data : Option String)
    (fifo key : String) : String :=
  let s := "\x7b "
  let s := s ++ ("\"action\": " ++ goQuote hi action ++ ",")
  let s := s ++ "\"params\": \x7b"
  let s := match fname with
    | some f => s ++ (" \"filename\": " ++ goQuote hi f ++ ",")
    | none => s
  let s := match data with
    | some d => s ++ (" \"resource\": " ++ goQuote hi d ++ ",")
    | none => s
  let s := s ++ (" \"r_fifo\": " ++ goQuote hi fifo ++ ",")
  let s := s ++ (" \"vfd_rid\": " ++ goQuote hi key)
  let s := s ++ "\x7d"
  s ++ "\x7d\n\n"

/-! ## The serialiser -/

/-- What a `Write` on an open file returned: all bytes written and no error,
or `n` bytes written and an error. -/
inductive IoResult where
  | ok
  | failed (n : Nat) (err : String)

/-- The results of the system calls that one iteration of the serialiser
may make. -/
structure SysCalls where
  /-- The error of `os.Create` in `stash_vf_cfg`, if any. -/
  create : Option String
  /-- The result of `f.Write` in `stash_vf_cfg`. -/
  file_write : IoResult
  /-- The result of `fifo.Write` on the request pipe. -/
  fifo_write : IoResult

/-- `stash_vf_cfg`: the filename or the error, and the files it left behind
(name and content). -/
def stash_vf_cfg (ctx : context) (sys : SysCalls) (id config : String) :
    Except String String × List (String × String) :=
  let fname := ctx.cdir ++ "/" ++ id ++ ".json"
  match sys.create with
  | some err => (Except.error err, [])
  | none =>
    if config = "" then (Except.ok fname, [(fname, "")])
    else
      match sys.file_write with
      | IoResult.ok => (Except.ok fname, [(fname, config)])
      | IoResult.failed n err => (Except.error err, [(fname, ⟨config.data.take n⟩)])

/-- What the `switch *action` of the serialiser leaves behind. -/
structure Switched where
  fifo_buffer : String
  reason : String
  /-- The value of `resp.Rdata` after the switch. -/
  Rdata : String
  files : List (String × String)

/-- The `switch *action` of the serialiser; `rdata` is `resp.Rdata` before it. -/
def serialiser_switch {J : Type} (X : Externals J) (ctx : context) (version : String)
    (sys : SysCalls) (req : Request J) (action : String) (target : Option String)
    (rdata : String) : Switched :=
  let hi := X.isPrintHi
  if action = "response" then ⟨"", "", rdata, []⟩
  else if action = "ping" ∨ action = "dump" then
    ⟨mk_vfd_request hi action none none ctx.resp_fifo req.Rid, "", rdata, []⟩
  else if action = "Ping" then
    ⟨"", "", "\x7b \"sender\": " ++ goQuote hi ctx.sid ++ ", \"state\": \"OK\", \"msg_key\": \"" ++
      req.Msg_key ++ "\", \"msg\": [ \"Pong: " ++ version ++ "\" ] \x7d", []⟩
  else if action = "add" then
    match target with
    | some t =>
      match X.Get_subtree req.Jtree "req_data" with
      | some data =>
        let vfconfig_str := X.Frock data
        match stash_vf_cfg ctx sys t vfconfig_str with
        | (Except.ok fname, files) =>
          ⟨mk_vfd_request hi "add" (some fname) none ctx.resp_fifo req.Rid, "", rdata, files⟩
        | (Except.error err, files) =>
          ⟨"", "unable to update config: %s" ++ err, rdata, files⟩
      | none => ⟨"", "no req_data field in request", rdata, []⟩
    | none => ⟨"", "no target field in request", rdata, []⟩
  else if action = "del" ∨ action = "delete" then
    match target with
    | some t =>
      let fname := t ++ ".json"
      if fname ≠ "" then
        ⟨mk_vfd_request hi "delete" (some fname) none ctx.resp_fifo req.Rid, "", rdata, []⟩
      else ⟨"", "unable to update config: %s%!s(<nil>)", rdata, []⟩
    | none => ⟨"", "no target field in request", rdata, []⟩
  else if action = "mirror" then
    match X.Get_string req.Jtree "req_data" with
    | some data =>
      ⟨mk_vfd_request hi action none (some data) ctx.resp_fifo req.Rid, "", rdata, []⟩
    | none => ⟨"", "pf/vf/direction/target data missing, or was not a string", rdata, []⟩
  else if action = "show" then
    ⟨mk_vfd_request hi action none target ctx.resp_fifo req.Rid, "", rdata, []⟩
  else ⟨"", "unknown action: " ++ action, rdata, []⟩

/-- What one iteration of the serialiser's loop did. -/
structure SerialOut (J : Type) where
  /-- The bytes that reached the request pipe. -/
  fifo : String
  /-- The files written, name and content. -/
  files : List (String × String)
  /-- The blocks sent on `ctx.resp_ch`, the responder's queue. -/
  resp_ch : List (Response J)

/-- One iteration of the loop of `serialiser`, for the request `req` taken
from `ctx.synch_ch`. -/
def serialiser {J : Type} (X : Externals J) (ctx : context) (version : String)
    (sys : SysCalls) (req : Request J) : SerialOut J :=
  let resp : Response J :=
    { Rid := req.Rid, Exch_key := req.Exch_key, Msg_key := req.Msg_key, Tstamp := 0,
      Wait := false, Req := req, Rdata := "" }
  if X.Get_string req.Jtree "sender" = some ctx.sid then ⟨"", [], []⟩
  else
    let action := X.Get_string req.Jtree "action"
    let target := X.Get_string req.Jtree "target"
    let resp := { resp with
      Rdata := build_response X ctx.sid "ERROR" "request timeout" resp.Msg_key none }
    match action with
    | none => ⟨"", [], []⟩
    | some action =>
      let sw := serialiser_switch X ctx version sys req action target resp.Rdata
      let resp := { resp with Rdata := sw.Rdata }
      let (resp, fifo) : Response J × String :=
        if sw.fifo_buffer ≠ "" then
          match sys.fifo_write with
          | IoResult.ok => ({ resp with Wait := true }, sw.fifo_buffer)
          | IoResult.failed nw err =>
            ({ resp with
                Rdata := build_response X ctx.sid "ERROR" ("unable to send req: " ++ err)
                  req.Msg_key none },
              ⟨sw.fifo_buffer.data.take nw⟩)
        else
          ({ resp with
              Rdata := build_response X ctx.sid "ERROR" ("request dropped: " ++ sw.reason)
                req.Msg_key none },
            "")
      ⟨fifo, sw.files, if ctx.resp_ch then [resp] else []⟩

/-! ## The responder -/

/-- A Go map with string keys, as an association list without order. -/
abbrev GoMap (V : Type) := List (String × V)

/-- `m[k]`, `none` when the key is absent. -/
def GoMap.get {V : Type} (m : GoMap V) (k : String) : Option V :=
  List.lookup k m

/-- `delete( m, k )`. -/
def GoMap.delete {V : Type} (m : GoMap V) (k : String) : GoMap V :=
  m.filter (fun e => e.1 ≠ k)

/-- `m[k] = v`. -/
def GoMap.set {V : Type} (m : GoMap V) (k : String) (v : V) : GoMap V :=
  (k, v) :: GoMap.delete m k

/-- The two maps of the responder. -/
structure RespState (J : Type) where
  pending_resp : GoMap (Response J)
  unmatched : GoMap String

/-- What the `select` of the responder received. -/
inductive Event (J : Type) where
  /-- A tickle on `tch`; `now` is `time.Now().Unix()`. -/
  | tickle (now : Int)
  /-- A `[]byte` on `ctx.resp_ch`. -/
  | blob (msg : String)
  /-- A `*chcom.Response` on `ctx.resp_ch`; `now` is `time.Now().Unix()`. -/
  | response (now : Int) (msg : Response J)
  /-- Anything else on `ctx.resp_ch`. -/
  | other

/-- What one iteration of the responder's loop sent. -/
structure RespOut where
  /-- The messages sent to broker writers: the channel and the message. -/
  sent : List (Nat × Mq_msg)
  /-- The blobs sent back on `ctx.resp_ch`. -/
  requeued : List String

/-- The timeout envelope of the tickle case, for one pending block. -/
def timeout_rdata (hi : Char → Bool) (sid : String) (msg_key : String) : String :=
  "\x7b \"sender\": " ++ goQuote hi sid ++ ", \"state\": \"ERROR\", \"msg_key\": " ++
    goQuote hi msg_key ++ ", \"msg\": \"timeout: no response from VFd\" \x7d"

/-- The `range` over `pending_resp` of the tickle case: `todo` is what the
iteration has yet to visit, `cur` the map as it is now. An entry deleted
before it is reached is not visited. The order of a Go range over a map is
not specified; here it is the order of the list. -/
def sweep {J : Type} (hi : Char → Bool) (sid : String) (now : Int) :
    List (String × Response J) → GoMap (Response J) → List (Nat × Mq_msg) →
    GoMap (Response J) × List (Nat × Mq_msg)
  | [], cur, sent => (cur, sent)
  | (k, r) :: todo, cur, sent =>
    if (GoMap.get cur k).isSome ∧ r.Tstamp < now then
      sweep hi sid now todo (GoMap.delete cur r.Rid)
        (sent ++ [(r.Req.Resp_ch, ⟨timeout_rdata hi sid r.Msg_key, r.Exch_key⟩)])
    else sweep hi sid now todo cur sent

/-- One iteration of the loop of `responder`. An error is a run-time panic,
which ends the process. -/
def responder {J : Type} (X : Externals J) (ctx : context) (st : RespState J) :
    Event J → Except String (RespState J × RespOut)
  | Event.tickle now =>
    let (pending, sent) := sweep X.isPrintHi ctx.sid now st.pending_resp st.pending_resp []
    Except.ok ({ st with pending_resp := pending }, ⟨sent, []⟩)
  | Event.blob msg =>
    match X.Json2tree msg with
    | none => Except.ok (st, ⟨[], []⟩)
    | some jtree =>
      match X.Get_string jtree "vfd_rid", X.Get_string jtree "action" with
      | some vfd_rid, some action =>
        if action = "response" then
          match GoMap.get st.pending_resp vfd_rid with
          | some resp =>
            match X.Get_string jtree "state" with
            | none => Except.error "invalid memory address or nil pointer dereference"
            | some state =>
              let rbuf := match X.Get_string jtree "msg" with
                | none => build_response X ctx.sid state "" resp.Msg_key (some jtree)
                | some m => build_response X ctx.sid state m resp.Msg_key (some jtree)
              Except.ok
                ({ st with pending_resp := GoMap.delete st.pending_resp vfd_rid },
                  ⟨[(resp.Req.Resp_ch, ⟨rbuf, resp.Exch_key⟩)], []⟩)
          | none =>
            Except.ok ({ st with unmatched := GoMap.set st.unmatched vfd_rid msg }, ⟨[], []⟩)
        else Except.ok (st, ⟨[], []⟩)
      | _, _ => Except.ok (st, ⟨[], []⟩)
  | Event.response now msg =>
    let (unmatched, requeued) : GoMap String × List String :=
      match GoMap.get st.unmatched msg.Rid with
      | some b => (GoMap.delete st.unmatched msg.Rid, [b])
      | none => (st.unmatched, [])
    if msg.Wait then
      Except.ok
        ({ pending_resp := GoMap.set st.pending_resp msg.Rid { msg with Tstamp := now + 15 },
           unmatched := unmatched },
          ⟨[], requeued⟩)
    else
      Except.ok
        ({ st with unmatched := unmatched },
          ⟨[(msg.Req.Resp_ch, ⟨msg.Rdata, msg.Exch_key⟩)], requeued⟩)
  | Event.other => Except.ok (st, ⟨[], []⟩)

/-- The responder run from state `st` over the events it receives, in order:
the last state and every broker message sent, or the panic. -/
def responder_run {J : Type} (X : Externals J) (ctx : context) :
    RespState J → List (Event J) → Except String (RespState J × List (Nat × Mq_msg))
  | st, [] => Except.ok (st, [])
  | st, e :: es =>
    match responder X ctx st e with
    | Except.error p => Except.error p
    | Except.ok (st1, out) =>
      match responder_run X ctx st1 es with
      | Except.error p => Except.error p
      | Except.ok (st2, sent) => Except.ok (st2, out.sent ++ sent)

/-- The maps as `responder` makes them before its loop. -/
def RespState.init (J : Type) : RespState J := ⟨[], []⟩

/-! ## JSON texts (RFC 8259)

The specification speaks of strings that are JSON objects with given fields.
The reading of a text as a JSON value is defined here from RFC 8259, not from
the program. -/

/-- A JSON value. A number keeps its lexeme. -/
inductive Json where
  | null
  | bool (b : Bool)
  | num (lexeme : String)
  | str (s : String)
  | arr (items : List Json)
  | obj (members : List (String × Json))

/-- The whitespace of RFC 8259: space, tab, line feed, carriage return. -/
def isWs (c : Char) : Bool :=
  c = ' ' || c = '\t' || c = '\n' || c = '\r'

/-- Drop leading whitespace. -/
def skipWs : List Char → List Char
  | [] => []
  | c :: cs => if isWs c then skipWs cs else c :: cs

/-- The value of a hexadecimal digit. -/
def hexVal (c : Char) : Option Nat :=
  if 48 ≤ c.toNat ∧ c.toNat ≤ 57 then some (c.toNat - 48)
  else if 97 ≤ c.toNat ∧ c.toNat ≤ 102 then some (c.toNat - 87)
  else if 65 ≤ c.toNat ∧ c.toNat ≤ 70 then some (c.toNat - 55)
  else none

/-- The number written by four hexadecimal digits. -/
def hex4 (a b c d : Char) : Option Nat :=
  match hexVal a, hexVal b, hexVal c, hexVal d with
  | some w, some x, some y, some z => some (w * 4096 + x * 256 + y * 16 + z)
  | _, _, _, _ => none

/-- The character that a two-character escape of RFC 8259 stands for. -/
def unescape (e : Char) : Option Char :=
  if e = '"' then some '"'
  else if e = '\\' then some '\\'
  else if e = '/' then some '/'
  else if e = 'b' then some (Char.ofNat 8)
  else if e = 'f' then some (Char.ofNat 12)
  else if e = 'n' then some '\n'
  else if e = 'r' then some '\r'
  else if e = 't' then some '\t'
  else none

/-- Read one escape of a JSON string, the backslash already taken: the
character it stands for and what follows. An escape `\u` that names a high
surrogate must be followed by one that names a low surrogate. -/
def readEscape : List Char → Option (Char × List Char)
  | [] => none
  | e :: rest =>
    if e = 'u' then
      match rest with
      | a :: b :: c :: d :: rest3 =>
        match hex4 a b c d with
        | none => none
        | some hi =>
          if hi < 0xD800 ∨ 0xDFFF < hi then some (Char.ofNat hi, rest3)
          else if hi < 0xDC00 then
            match rest3 with
            | '\\' :: 'u' :: a2 :: b2 :: c2 :: d2 :: rest4 =>
              match hex4 a2 b2 c2 d2 with
              | none => none
              | some lo =>
                if 0xDC00 ≤ lo ∧ lo ≤ 0xDFFF then
                  some (Char.ofNat (0x10000 + (hi - 0xD800) * 1024 + (lo - 0xDC00)), rest4)
                else none
            | _ => none
          else none
      | _ => none
    else
      match unescape e with
      | none => none
      | some ch => some (ch, rest)

/-- Read the rest of a JSON string, the opening quote already taken: the
string's characters and what follows the closing quote. The first argument
bounds the number of characters read. -/
def parseStringAux : Nat → List Char → Option (List Char × List Char)
  | 0, _ => none
  | _ + 1, [] => none
  | n + 1, c :: rest =>
    if c = '"' then some ([], rest)
    else if c = '\\' then
      match readEscape rest with
      | none => none
      | some (ch, rest2) => (parseStringAux n rest2).map (fun p => (ch :: p.1, p.2))
    else if c.toNat < 0x20 then none
    else (parseStringAux n rest).map (fun p => (c :: p.1, p.2))

/-- Read the rest of a JSON string, the opening quote already taken. -/
def parseString (cs : List Char) : Option (List Char × List Char) :=
  parseStringAux (cs.length + 1) cs

/-- Split off the leading decimal digits. -/
def takeDigits : List Char → List Char × List Char
  | [] => ([], [])
  | c :: cs =>
    if c.isDigit then ((takeDigits cs).1.cons c, (takeDigits cs).2) else ([], c :: cs)

/-- Read a JSON number: its lexeme and what follows. -/
def parseNumber (cs : List Char) : Option (List Char × List Char) :=
  let (sign, cs1) := match cs with
    | '-' :: r => (['-'], r)
    | _ => ([], cs)
  let (ip, cs2) := takeDigits cs1
  if ip = [] ∨ (ip.head? = some '0' ∧ ip.length ≠ 1) then none
  else
    let frac : Option (List Char × List Char) := match cs2 with
      | '.' :: r =>
        let (fp, r2) := takeDigits r
        if fp = [] then none else some ('.' :: fp, r2)
      | _ => some ([], cs2)
    match frac with
    | none => none
    | some (fp, cs3) =>
      let ex : Option (List Char × List Char) := match cs3 with
        | e :: r =>
          if e = 'e' ∨ e = 'E' then
            let (sg, r1) := match r with
              | s :: r0 => if s = '+' ∨ s = '-' then ([s], r0) else ([], r)
              | [] => ([], r)
            let (ep, r2) := takeDigits r1
            if ep = [] then none else some (e :: (sg ++ ep), r2)
          else some ([], cs3)
        | [] => some ([], cs3)
      match ex with
      | none => none
      | some (ep, cs4) => some (sign ++ ip ++ fp ++ ep, cs4)

mutual
/-- Read one JSON value and what follows it; the first argument bounds the
number of nested reads. -/
def parseValue : Nat → List Char → Option (Json × List Char)
  | 0, _ => none
  | fuel + 1, cs =>
    match skipWs cs with
    | [] => none
    | c :: rest =>
      if c = '"' then (parseString rest).map (fun p => (Json.str ⟨p.1⟩, p.2))
      else if c = '\x7b' then
        match skipWs rest with
        | [] => none
        | c2 :: rest2 =>
          if c2 = '\x7d' then some (Json.obj [], rest2)
          else (parseMembers fuel (c2 :: rest2)).map (fun p => (Json.obj p.1, p.2))
      else if c = '[' then
        match skipWs rest with
        | [] => none
        | c2 :: rest2 =>
          if c2 = ']' then some (Json.arr [], rest2)
          else (parseElements fuel (c2 :: rest2)).map (fun p => (Json.arr p.1, p.2))
      else if c = 't' then
        match rest with
        | 'r' :: 'u' :: 'e' :: r => some (Json.bool true, r)
        | _ => none
      else if c = 'f' then
        match rest with
        | 'a' :: 'l' :: 's' :: 'e' :: r => some (Json.bool false, r)
        | _ => none
      else if c = 'n' then
        match rest with
        | 'u' :: 'l' :: 'l' :: r => some (Json.null, r)
        | _ => none
      else (parseNumber (c :: rest)).map (fun p => (Json.num ⟨p.1⟩, p.2))
/-- Read the members of an object up to and including its closing brace. -/
def parseMembers : Nat → List Char → Option (List (String × Json) × List Char)
  | 0, _ => none
  | fuel + 1, cs =>
    match skipWs cs with
    | [] => none
    | c :: rest =>
      if c = '"' then
        match parseString rest with
        | none => none
        | some (k, r1) =>
          match skipWs r1 with
          | [] => none
          | c1 :: r2 =>
            if c1 = ':' then
              match parseValue fuel r2 with
              | none => none
              | some (v, r3) =>
                match skipWs r3 with
                | [] => none
                | c3 :: r4 =>
                  if c3 = ',' then
                    (parseMembers fuel r4).map (fun p => ((⟨k⟩, v) :: p.1, p.2))
                  else if c3 = '\x7d' then some ([(⟨k⟩, v)], r4)
                  else none
            else none
      else none
/-- Read the elements of an array up to and including its closing bracket. -/
def parseElements : Nat → List Char → Option (List Json × List Char)
  | 0, _ => none
  | fuel + 1, cs =>
    match parseValue fuel cs with
    | none => none
    | some (v, r3) =>
      match skipWs r3 with
      | [] => none
      | c3 :: r4 =>
        if c3 = ',' then (parseElements fuel r4).map (fun p => (v :: p.1, p.2))
        else if c3 = ']' then some ([v], r4)
        else none
end

/-- The JSON value that a text is, if it is one: a single value with nothing
but whitespace around it. -/
def parseJson (s : String) : Option Json :=
  match parseValue (s.length + 1) s.data with
  | none => none
  | some (v, rest) => if skipWs rest = [] then some v else none

/-- The members of a JSON object, in the order written. -/
def Json.members? : Json → Option (List (String × Json))
  | Json.obj ms => some ms
  | _ => none

/-- The names of the members of a JSON object, in the order written. -/
def Json.keys (j : Json) : List String :=
  match j with
  | Json.obj ms => ms.map Prod.fst
  | _ => []

/-- The member `k` of a JSON object. -/
def Json.get? (j : Json) (k : String) : Option Json :=
  match j with
  | Json.obj ms => ms.lookup k
  | _ => none

/-- The string that a JSON value is, if it is one. -/
def Json.str? : Json → Option String
  | Json.str s => some s
  | _ => none

/-- The string member `k` of a JSON object. -/
def Json.getStr? (j : Json) (k : String) : Option String :=
  (j.get? k).bind Json.str?

/-- A text is a JSON object. -/
def isJsonObject (s : String) : Bool :=
  match parseJson s with
  | some (Json.obj _) => true
  | _ => false

/-! ## A concrete instance of what is imported

JSON trees are JSON objects as read above; used where a statement is
evaluated at a concrete request. -/

mutual
/-- A JSON value written out as text. -/
def render : Json → List Char
  | Json.null => "null".data
  | Json.bool b => if b then "true".data else "false".data
  | Json.num l => l.data
  | Json.str s => (goQuote (fun _ => true) s).data
  | Json.arr xs => '[' :: renderItems xs
  | Json.obj ms => '\x7b' :: renderMembers ms
/-- The elements of an array and its closing bracket. -/
def renderItems : List Json → List Char
  | [] => [']']
  | [x] => render x ++ [']']
  | x :: y :: xs => render x ++ ',' :: renderItems (y :: xs)
/-- The members of an object and its closing brace. -/
def renderMembers : List (String × Json) → List Char
  | [] => ['\x7d']
  | [(k, v)] => (goQuote (fun _ => true) k).data ++ ':' :: render v ++ ['\x7d']
  | (k, v) :: y :: xs =>
    (goQuote (fun _ => true) k).data ++ ':' :: render v ++ ',' :: renderMembers (y :: xs)
end

/-- An instance of `Externals` on JSON objects, a stand-in for `jsontools`
and for the table of `strconv.IsPrint`, used only where a statement is
evaluated at a concrete request; the statements about every request hold for
every `Externals`. It takes every rune above U+00FF as printable, which the
table of `strconv` does not: the concrete requests here have no such rune. -/
def jsonExternals : Externals Json where
  Json2tree := fun s =>
    match parseJson s with
    | some (Json.obj ms) => some (Json.obj ms)
    | _ => none
  Get_string := fun j k => j.getStr? k
  Get_subtree := fun j k =>
    match j.get? k with
    | some (Json.obj ms) => some (Json.obj ms)
    | _ => none
  Frock := fun j => ⟨render j⟩
  isPrintHi := fun _ => true

/-- A context for examples. -/
def exampleCtx : context :=
  { sid := "host_4242", resp_fifo := "/var/lib/vfd/fifos/tokay.fifo",
    cdir := "/var/lib/vfd/config", resp_ch := true, rmqw_ch := 7, forreal := true }

/-- System calls that all succeed. -/
def sysOk : SysCalls := ⟨none, IoResult.ok, IoResult.ok⟩

/-- The request a collector makes of a body, for examples. -/
def exampleReq (rid exch_key msg_key : String) (body : List (String × Json)) : Request Json :=
  { Rid := rid, Exch_key := exch_key, Msg_key := msg_key, Source := "tokay_req",
    Jtree := Json.obj body, Resp_ch := 7, Single_use := false }

/-- The `Ping` request of scenario 2. -/
def pingReq : Request Json :=
  exampleReq "r-2" "K2" "u2" [("action", Json.str "Ping"), ("exch_key", Json.str "K2"),
    ("msg_key", Json.str "u2")]

/-- The `ping` request of scenario 4. -/
def pingVfdReq : Request Json :=
  exampleReq "r-4" "K4" "u4" [("action", Json.str "ping"), ("exch_key", Json.str "K4"),
    ("msg_key", Json.str "u4")]

/-- The block that the serialiser queues for `pingVfdReq` when the write to
the request pipe succeeds. -/
def pingVfdBlock : Response Json :=
  { Rid := "r-4", Exch_key := "K4", Msg_key := "u4", Tstamp := 0, Wait := true,
    Req := pingVfdReq,
    Rdata := build_response jsonExternals "host_4242" "ERROR" "request timeout" "u4" none }

/-- The block that the serialiser queues for `pingReq`. -/
def pingBlock : Response Json :=
  { Rid := "r-2", Exch_key := "K2", Msg_key := "u2", Tstamp := 0, Wait := false,
    Req := pingReq,
    Rdata := build_response jsonExternals "host_4242" "ERROR" "request dropped: " "u2" none }

/-- A run of events for examples: a blob that comes before its block, a block
that waits, a blob that matches it, a block that does not wait, a tickle. -/
def exampleEvents : List (Event Json) :=
  [Event.blob "\x7b\"action\":\"response\",\"vfd_rid\":\"r-9\",\"state\":\"OK\"\x7d",
    Event.response 100 pingVfdBlock,
    Event.blob "\x7b\"action\":\"response\",\"vfd_rid\":\"r-4\",\"state\":\"OK\"\x7d",
    Event.response 101 pingBlock,
    Event.tickle 120]

/-- A blob with action "response" and a `vfd_rid` but no `state`. -/
def blobWithoutState : String :=
  "\x7b\"action\":\"response\",\"vfd_rid\":\"r-4\"\x7d"

/-- A request with an unknown action whose `msg_key` is the one character
U+0007, as a client writes it with the JSON text "\u0007". -/
def bellKeyReq : Request Json :=
  exampleReq "r-5" "K5" "\x07" [("action", Json.str "flerb"), ("msg_key", Json.str "\x07")]

/-- A `show` request whose `target` is the one character U+0007. -/
def bellShowReq : Request Json :=
  exampleReq "r-9" "K9" "u9" [("action", Json.str "show"), ("target", Json.str "\x07")]

/-- The block `r` accounts for the broker message `m`: `m` is sent on one of
the responder's three paths for `r`, namely the immediate reply of a block
that does not wait, the timeout of a pending block, or the reply built from a
blob whose `vfd_rid` is the block's rid. -/
def SentFor {J : Type} (X : Externals J) (ctx : context) (r : Response J) (m : Mq_msg) :
    Prop :=
  (r.Wait = false ∧ m.Data = r.Rdata) ∨
  (r.Wait = true ∧ m.Data = timeout_rdata X.isPrintHi ctx.sid r.Msg_key) ∨
  (r.Wait = true ∧ ∃ jtree state msg, X.Get_string jtree "vfd_rid" = some r.Rid ∧
    m.Data = build_response X ctx.sid state msg r.Msg_key (some jtree))

/-! ## Strings that `%q` writes as JSON reads them -/

/-- `%q` writes the rune with an escape that JSON has too, or as itself. -/
def quotesAsJson (hi : Char → Bool) (c : Char) : Bool :=
  match appendEscapedRune hi c with
  | '\\' :: e :: _ => e ≠ 'a' && e ≠ 'v' && e ≠ 'x' && e ≠ 'U'
  | _ => true

/-- Every rune of the string is one that `%q` writes as JSON reads it. -/
def jsonQuotable (hi : Char → Bool) (s : String) : Prop :=
  ∀ c ∈ s.data, quotesAsJson hi c = true

/-- The text ` "k": ` followed by `%q` of `v`, as `mk_vfd_request` and
`build_response` write a field. -/
def memberText (hi : Char → Bool) (k v : List Char) : List Char :=
  ' ' :: '"' :: (k ++ '"' :: ':' :: ' ' :: '"' :: (quoteBody hi v ++ ['"']))

/-- The members of the `params` object as the specification describes them:
`filename` and `resource` when given, `r_fifo` and `vfd_rid` always. -/
def expectedParams (fname data : Option String) (fifo key : String) : List (String × Json) :=
  (match fname with
    | some f => [("filename", Json.str f)]
    | none => []) ++
  (match data with
    | some d => [("resource", Json.str d)]
    | none => []) ++
  [("r_fifo", Json.str fifo), ("vfd_rid", Json.str key)]

/-- The text of the parameters that `mk_vfd_request` writes between the
braces of `params`. -/
def paramsText (hi : Char → Bool) (fname data : Option String) (fifo key : String) :
    List Char :=
  (match fname with
    | some f => memberText hi "filename".data f.data ++ [',']
    | none => []) ++
  ((match data with
    | some d => memberText hi "resource".data d.data ++ [',']
    | none => []) ++
  (memberText hi "r_fifo".data fifo.data ++ ',' :: memberText hi "vfd_rid".data key.data))

/-- The text that `mk_vfd_request` writes before the two newlines. -/
def requestText (hi : Char → Bool) (action : String) (fname data : Option String)
    (fifo key : String) : List Char :=
  '\x7b' :: (memberText hi "action".data action.data ++ ',' :: '"' :: ("params".data ++
    '"' :: ':' :: ' ' :: '\x7b' :: (paramsText hi fname data fifo key ++ ['\x7d', '\x7d'])))

/-! ## The collector -/

/-- `amqp.Delivery`, as far as the collector reads it. -/
structure Delivery where
  Body : String
  RoutingKey : String
  CorrelationId : String

/-- One iteration of the loop of `collector` for the delivery `msg` taken
from the reader of the exchange `ch_name`: the requests sent on
`ctx.synch_ch`. `rid` is the string of `uuid.NewRandom()`. -/
def collector {J : Type} (X : Externals J) (ctx : context) (ch_name : String) (rid : String)
    (msg : Delivery) : List (Request J) :=
  match X.Json2tree msg.Body with
  | some jt =>
    if ctx.forreal then
      let exch_key := X.Get_string jt "exch_key"
      let msg_key := match X.Get_string jt "msg_key" with
        | none => "none-given"
        | some m => m
      let exch_key := match exch_key with
        | none => msg.CorrelationId
        | some k => k
      [{ Resp_ch := ctx.rmqw_ch, Source := ch_name, Exch_key := exch_key, Msg_key := msg_key,
         Rid := rid, Single_use := false, Jtree := jt }]
    else []
  | none => []

/-! ## The response reader -/

/-- What `br.ReadString( '\n' )` returned: the record with no error, or what
was read and an error (end of file among them). -/
inductive ReadResult where
  | ok (rec : String)
  | err (rec : String)

/-- The two loops of `resp_reader`, given what the calls of `ReadString`
return, in order: the blobs sent on `ctx.resp_ch`. `jblob` is the blob
gathered so far; the outer loop starts each blob with the empty string. The
variable `rerr` that the inner loop tests is the one declared before the
loops, which nothing assigns (the `:=` in the loop declares another), so the
test always holds. When the results run out the reader is waiting in
`ReadString`. -/
def resp_reader : List ReadResult → String → List String
  | [], _ => []
  | ReadResult.err _ :: rest, jblob => jblob :: resp_reader rest ""
  | ReadResult.ok rec :: rest, jblob =>
    if rec = "@eom@\n" then jblob :: resp_reader rest ""
    else resp_reader rest (if 0 < rec.length then jblob ++ (rec ++ "\n") else jblob)

/-- The lines of a text: what stands before each newline, and what follows
the last one if anything does. -/
def linesOf : List Char → List (List Char)
  | [] => []
  | c :: cs =>
    if c = '\n' then [] :: linesOf cs
    else
      match linesOf cs with
      | [] => [[c]]
      | l :: ls => (c :: l) :: ls

/-! ## Statements about the serialiser -/

/-- The iteration wrote nothing to the request pipe and queued one block,
which does not wait and carries the ERROR envelope with the message "request
dropped: " followed by `reason`. -/
def DroppedWith {J : Type} (X : Externals J) (ctx : context) (req : Request J)
    (out : SerialOut J) (reason : String) : Prop :=
  out.fifo = "" ∧
  ∃ r, out.resp_ch = [r] ∧ r.Wait = false ∧
    r.Rdata = build_response X ctx.sid "ERROR" ("request dropped: " ++ reason) req.Msg_key none

/-- The text `sub` occurs in the text `s`. -/
def occursIn (sub s : String) : Bool :=
  s.data.tails.any (fun t => sub.data.isPrefixOf t)

/-- A delivery whose body gives a `msg_key` and no `exch_key`. -/
def exampleDelivery : Delivery :=
  { Body := "\x7b\"action\":\"ping\",\"msg_key\":\"u17\"\x7d", RoutingKey := "tokay_req",
    CorrelationId := "corr-17" }

/-- A `mirror` request without `req_data`. -/
def mirrorReq : Request Json :=
  exampleReq "r-18" "K18" "u18" [("action", Json.str "mirror")]

/-- The `add` request of scenario 1. -/
def addReq : Request Json :=
  exampleReq "r-1" "K1" "u1" [("action", Json.str "add"), ("exch_key", Json.str "K1"),
    ("msg_key", Json.str "u1"), ("target", Json.str "vfA"),
    ("req_data", Json.obj [("x", Json.num "1")])]

/-- A request whose action is "response". -/
def responseReq : Request Json :=
  exampleReq "r-20" "K20" "u20" [("action", Json.str "response"), ("vfd_rid", Json.str "r-0")]

/-! ## Statements about the responder -/

/-- The map holds each block under its own rid, and no key twice. -/
def KeyedByRid {J : Type} (m : GoMap (Response J)) : Prop :=
  (m.map Prod.fst).Nodup ∧ ∀ e ∈ m, e.1 = e.2.Rid

/-- The broker message of the tickle case for the pending block `r`. -/
def timeout_msg {J : Type} (hi : Char → Bool) (sid : String) (r : Response J) : Nat × Mq_msg :=
  (r.Req.Resp_ch, ⟨timeout_rdata hi sid r.Msg_key, r.Exch_key⟩)

/-- The responder's state after the block of `pingVfdReq` was handled at time
100: the block waits until 115. -/
def waitingState : RespState Json :=
  ⟨[("r-4", { pingVfdBlock with Tstamp := 115 })], []⟩

/-- The event is no blob with `vfd_rid` equal to `rid`, no block for `rid`,
and no tickle later than `deadline`. -/
def Before {J : Type} (X : Externals J) (rid : String) (deadline : Int) : Event J → Prop
  | Event.tickle now => now ≤ deadline
  | Event.blob msg => ∀ jt, X.Json2tree msg = some jt → X.Get_string jt "vfd_rid" ≠ some rid
  | Event.response _ m => m.Rid ≠ rid
  | Event.other => True

/-- The event is no block for `rid`. -/
def NoBlockFor {J : Type} (rid : String) : Event J → Prop
  | Event.response _ m => m.Rid ≠ rid
  | _ => True

/-- The state with nothing pending under `rid`. -/
def RespState.without {J : Type} (st : RespState J) (rid : String) : RespState J :=
  { st with pending_resp := GoMap.delete st.pending_resp rid }

/-- A blob for the rid of `pingVfdReq` whose `state` is the empty string. -/
def blobEmptyState : String :=
  "\x7b\"action\":\"response\",\"vfd_rid\":\"r-4\",\"state\":\"\"\x7d"

/-- A blob for the rid of `pingVfdReq` with state "OK". -/
def blobOk : String :=
  "\x7b\"action\":\"response\",\"vfd_rid\":\"r-4\",\"state\":\"OK\"\x7d"

/-- A blob with action "response" for the rid r-9, which no request has. -/
def blobWithoutState9 : String :=
  "\x7b\"action\":\"response\",\"vfd_rid\":\"r-9\"\x7d"

/-! ## The collectors and the serialiser, run together

`main` starts one `serialiser` and, for each exchange, one `collector`. The
collectors reach the serialiser only through the channel `ctx.synch_ch`; the
request pipe is the file `fifo` that `serialiser` opens for itself, so the
calls of `fifo.Write` in its loop are the only writes, one for each
iteration that has a fifo buffer, and the iterations of the one goroutine
follow each other. A run is a sequence of turns: in each, one goroutine goes
through its loop once. -/

/-- A `collector` goroutine: the name of its exchange and the deliveries
that wait in its channel `rh_ch`, oldest first, each with the uuid that
`uuid.NewRandom()` will give to its request. -/
structure CollectorState where
  ch_name : String
  rh_ch : List (String × Delivery)

/-- The goroutines that feed the request pipe, the channel between them and
the pipe. -/
structure Bridge (J : Type) where
  collectors : List CollectorState
  /-- The channel `ctx.synch_ch`: the requests sent and not yet received,
  oldest first. -/
  synch_ch : List (Request J)
  /-- The bytes written to the request pipe `ctx.req_fifo` so far. -/
  req_fifo : String

/-- The capacity that `main` gives to `ctx.synch_ch`. -/
def synch_ch_cap : Nat := 2048

/-- Whose turn it is: the collector with this number, or the serialiser,
with the results of the system calls it makes in this iteration. -/
inductive Turn where
  | collect (i : Nat)
  | serialise (sys : SysCalls)

/-- The collector with number `i` takes its next delivery from `rh_ch` and
goes through its loop once: the requests it sends on `ctx.synch_ch` and the
collectors afterwards; `none` when there is no such collector or it has no
delivery waiting. -/
def collector_turn {J : Type} (X : Externals J) (ctx : context) :
    Nat → List CollectorState → Option (List (Request J) × List CollectorState)
  | _, [] => none
  | 0, c :: cs =>
    match c.rh_ch with
    | [] => none
    | d :: more => some (collector X ctx c.ch_name d.1 d.2, { c with rh_ch := more } :: cs)
  | i + 1, c :: cs =>
    match collector_turn X ctx i cs with
    | some (out, cs2) => some (out, c :: cs2)
    | none => none

/-- One turn. A collector whose request finds the channel full waits in the
send, and the serialiser waits in the receive while the channel is empty: a
turn that cannot be taken leaves everything as it is. The block that the
serialiser sends on `ctx.resp_ch` goes to the responder and has no part
here. -/
def Bridge.turn {J : Type} (X : Externals J) (ctx : context) (version : String)
    (b : Bridge J) : Turn → Bridge J
  | Turn.collect i =>
    match collector_turn X ctx i b.collectors with
    | some (out, cs) =>
      if b.synch_ch.length + out.length ≤ synch_ch_cap then
        { b with collectors := cs, synch_ch := b.synch_ch ++ out }
      else b
    | none => b
  | Turn.serialise sys =>
    match b.synch_ch with
    | [] => b
    | req :: more =>
      { b with synch_ch := more,
               req_fifo := b.req_fifo ++ (serialiser X ctx version sys req).fifo }

/-- A run of the goroutines: the turns taken one after the other. -/
def Bridge.run {J : Type} (X : Externals J) (ctx : context) (version : String) :
    Bridge J → List Turn → Bridge J
  | b, [] => b
  | b, t :: ts => Bridge.run X ctx version (Bridge.turn X ctx version b t) ts

/-- The goroutines as `main` starts them: nothing in the channel, nothing
written to the pipe. -/
def Bridge.start (J : Type) (collectors : List CollectorState) : Bridge J :=
  ⟨collectors, [], ""⟩

/-- Every delivery has been collected and every request received by the
serialiser. -/
def Bridge.idle {J : Type} (b : Bridge J) : Bool :=
  b.synch_ch.isEmpty && b.collectors.all (fun c => c.rh_ch.isEmpty)

/-- The requests that the collectors send for the deliveries that wait in
their channels. -/
def waiting {J : Type} (X : Externals J) (ctx : context) (cs : List CollectorState) :
    List (Request J) :=
  cs.flatMap (fun c => c.rh_ch.flatMap (fun d => collector X ctx c.ch_name d.1 d.2))

/-- The value of `fifo_buffer` when the iteration of the serialiser for
`req` comes to the write step, the payload for VFd; empty when the
iteration ends before. -/
def fifo_buffer {J : Type} (X : Externals J) (ctx : context) (version : String)
    (sys : SysCalls) (req : Request J) : String :=
  if X.Get_string req.Jtree "sender" = some ctx.sid then ""
  else
    match X.Get_string req.Jtree "action" with
    | none => ""
    | some action =>
      (serialiser_switch X ctx version sys req action (X.Get_string req.Jtree "target")
        (build_response X ctx.sid "ERROR" "request timeout" req.Msg_key none)).fifo_buffer

/-- The write to the request pipe, if the turn makes one, returns no
error. -/
def Turn.write_ok : Turn → Bool
  | Turn.collect _ => true
  | Turn.serialise sys =>
    match sys.fifo_write with
    | IoResult.ok => true
    | IoResult.failed _ _ => false

/-- Two exchanges: a ping waits on the first, a show and a local Ping on the
second. -/
def exampleCollectors : List CollectorState :=
  [⟨"tokay_req", [("r-1", ⟨"\x7b\"action\":\"ping\",\"msg_key\":\"u1\"\x7d", "tokay_req", "c-1"⟩)]⟩,
   ⟨"tokay_adm", [("r-2", ⟨"\x7b\"action\":\"show\",\"target\":\"all\"\x7d", "tokay_adm", "c-2"⟩),
                  ("r-3", ⟨"\x7b\"action\":\"Ping\"\x7d", "tokay_adm", "c-3"⟩)]⟩]

/-- A run in which the second collector is first, and the serialiser takes
its turns in between. -/
def exampleTurns : List Turn :=
  [Turn.collect 1, Turn.collect 0, Turn.serialise sysOk, Turn.collect 1,
   Turn.serialise sysOk, Turn.collect 0, Turn.serialise sysOk]

/-! # Theorems -/

/-! ## The serialiser: what one iteration queues -/

/-- C1 (the code does otherwise): for every request whose action is "Ping"
and whose sender is not the bridge's own id, one serialiser iteration writes
nothing to the request pipe and queues one block with `Wait` false, but the
block's `Rdata` is not the Pong envelope: the test of the empty fifo buffer
after the switch overwrites it with the ERROR envelope whose message is
"request dropped: ". -/
theorem ping_rdata_is_request_dropped {J : Type} (X : Externals J) (ctx : context)
    (version : String) (sys : SysCalls) (req : Request J)
    (hs : X.Get_string req.Jtree "sender" ≠ some ctx.sid)
    (ha : X.Get_string req.Jtree "action" = some "Ping")
    (hq : ctx.resp_ch = true) :
    (serialiser X ctx version sys req).fifo = "" ∧
    ∃ r, (serialiser X ctx version sys req).resp_ch = [r] ∧ r.Wait = false ∧
      r.Rdata = build_response X ctx.sid "ERROR" "request dropped: " req.Msg_key none := by
  simp [serialiser, hs, ha, hq, serialiser_switch]

/-- C1, at the request of scenario 2: the reply queued for the Ping has state
"ERROR" and no "Pong" in it. -/
theorem ping_rdata_is_request_dropped_witness :
    jsonExternals.Get_string pingReq.Jtree "sender" ≠ some exampleCtx.sid ∧
    jsonExternals.Get_string pingReq.Jtree "action" = some "Ping" ∧
    (serialiser jsonExternals exampleCtx "tokay v1.0/18420" sysOk pingReq).fifo = "" ∧
    (serialiser jsonExternals exampleCtx "tokay v1.0/18420" sysOk pingReq).resp_ch.map
        (fun r => (r.Wait, r.Rdata)) =
      [(false, "\x7b \"sender\": \"host_4242\", \"state\": \"ERROR\", " ++
        "\"msg\": \"request dropped: \", \"msg_key\": \"u2\" \x7d")] ∧
    (serialiser jsonExternals exampleCtx "tokay v1.0/18420" sysOk pingReq).resp_ch.map
        (fun r => (parseJson r.Rdata).bind (fun j => j.getStr? "state")) = [some "ERROR"] := by
  have h := ping_rdata_is_request_dropped jsonExternals exampleCtx "tokay v1.0/18420" sysOk
    pingReq (by decide) (by decide) rfl
  obtain ⟨h1, r, h2, h3, h4⟩ := h
  refine ⟨by decide, by decide, h1, ?_, ?_⟩
  · rw [h2]; simp [h3, h4]; decide
  · rw [h2]; simp [h4]; decide

/-- C6: with a responder queue configured, one serialiser iteration queues
exactly one block (for the request it took), unless the body's `sender` is the
bridge's own id or the body has no `action` string; in those two cases it
queues nothing and writes nothing to the request pipe. -/
theorem serialiser_queues_one_unless_dropped {J : Type} (X : Externals J) (ctx : context)
    (version : String) (sys : SysCalls) (req : Request J) (hq : ctx.resp_ch = true) :
    ((X.Get_string req.Jtree "sender" = some ctx.sid ∨
        X.Get_string req.Jtree "action" = none) →
      (serialiser X ctx version sys req).resp_ch = [] ∧
      (serialiser X ctx version sys req).fifo = "") ∧
    (¬ (X.Get_string req.Jtree "sender" = some ctx.sid ∨
        X.Get_string req.Jtree "action" = none) →
      ∃ r, (serialiser X ctx version sys req).resp_ch = [r] ∧ r.Req = req ∧
        r.Rid = req.Rid) := by
  constructor
  · rintro (h | h)
    · simp [serialiser, h]
    · by_cases hs : X.Get_string req.Jtree "sender" = some ctx.sid
      · simp [serialiser, hs]
      · simp [serialiser, hs, h]
  · intro h
    have hs : X.Get_string req.Jtree "sender" ≠ some ctx.sid := fun e => h (Or.inl e)
    cases ha : X.Get_string req.Jtree "action" with
    | none => exact absurd (Or.inr ha) h
    | some a =>
      simp only [serialiser, hs, ha, hq, if_false, if_true]
      split_ifs <;> cases sys.fifo_write <;> simp

/-- C6, with a `show` request (one block) and hypotheses discharged. -/
theorem serialiser_queues_one_unless_dropped_witness :
    exampleCtx.resp_ch = true ∧
    ∃ r, (serialiser jsonExternals exampleCtx "tokay v1.0/18420" sysOk
        (exampleReq "r-6" "K6" "u6" [("action", Json.str "show")])).resp_ch = [r] ∧
      r.Req = exampleReq "r-6" "K6" "u6" [("action", Json.str "show")] ∧ r.Rid = "r-6" :=
  ⟨rfl, (serialiser_queues_one_unless_dropped jsonExternals exampleCtx "tokay v1.0/18420" sysOk
    (exampleReq "r-6" "K6" "u6" [("action", Json.str "show")]) rfl).2 (by decide)⟩

/-- C7: for every request whose action `x` is none of ping, dump, Ping, add,
del, delete, mirror, show, response, the serialiser writes nothing to the
request pipe and queues one block with `Wait` false whose `Rdata` is the ERROR
envelope with message "request dropped: unknown action: " followed by `x`. -/
theorem unknown_action_is_dropped {J : Type} (X : Externals J) (ctx : context)
    (version : String) (sys : SysCalls) (req : Request J) (x : String)
    (hs : X.Get_string req.Jtree "sender" ≠ some ctx.sid)
    (ha : X.Get_string req.Jtree "action" = some x)
    (hx : x ∉ ["ping", "dump", "Ping", "add", "del", "delete", "mirror", "show", "response"])
    (hq : ctx.resp_ch = true) :
    (serialiser X ctx version sys req).fifo = "" ∧
    ∃ r, (serialiser X ctx version sys req).resp_ch = [r] ∧ r.Wait = false ∧
      r.Rdata = build_response X ctx.sid "ERROR"
        ("request dropped: unknown action: " ++ x) req.Msg_key none := by
  simp only [List.mem_cons, List.mem_singleton, List.not_mem_nil, or_false, not_or] at hx
  obtain ⟨h1, h2, h3, h4, h5, h6, h7, h8, h9⟩ := hx
  have e : "request dropped: " ++ ("unknown action: " ++ x) =
      "request dropped: unknown action: " ++ x := by
    rw [← String.append_assoc]; rfl
  simp [serialiser, hs, ha, hq, serialiser_switch, h1, h2, h3, h4, h5, h6, h7, h8, h9, e]

/-- C7, at the request of scenario 3 (action "flerb"): the envelope read as
JSON has state "ERROR" and the message of the claim. -/
theorem unknown_action_is_dropped_witness :
    (serialiser jsonExternals exampleCtx "tokay v1.0/18420" sysOk
        (exampleReq "r-3" "K3" "u3" [("action", Json.str "flerb")])).fifo = "" ∧
    (∃ r, (serialiser jsonExternals exampleCtx "tokay v1.0/18420" sysOk
        (exampleReq "r-3" "K3" "u3" [("action", Json.str "flerb")])).resp_ch = [r] ∧
      r.Wait = false ∧
      r.Rdata = build_response jsonExternals exampleCtx.sid "ERROR"
        ("request dropped: unknown action: " ++ "flerb") "u3" none) ∧
    (parseJson (build_response jsonExternals exampleCtx.sid "ERROR"
        ("request dropped: unknown action: " ++ "flerb") "u3" none)).bind
      (fun j => j.getStr? "msg") = some "request dropped: unknown action: flerb" :=
  ⟨(unknown_action_is_dropped jsonExternals exampleCtx "tokay v1.0/18420" sysOk
      (exampleReq "r-3" "K3" "u3" [("action", Json.str "flerb")]) "flerb"
      (by decide) (by decide) (by decide) rfl).1,
    (unknown_action_is_dropped jsonExternals exampleCtx "tokay v1.0/18420" sysOk
      (exampleReq "r-3" "K3" "u3" [("action", Json.str "flerb")]) "flerb"
      (by decide) (by decide) (by decide) rfl).2,
    by decide⟩

/-- C8: for every request that yields a block, the block's `Wait` is true if
and only if the switch built a non-empty fifo buffer and its write to the
request pipe succeeded (and then the whole buffer is what reached the pipe);
when the write fails, `Wait` is false and `Rdata` is the ERROR envelope whose
message is "unable to send req: " followed by the text of the error. -/
theorem wait_iff_write_succeeded {J : Type} (X : Externals J) (ctx : context)
    (version : String) (sys : SysCalls) (req : Request J) (r : Response J)
    (hr : r ∈ (serialiser X ctx version sys req).resp_ch) :
    ∃ action, X.Get_string req.Jtree "action" = some action ∧
      ∃ fifo_buffer, fifo_buffer = (serialiser_switch X ctx version sys req action
          (X.Get_string req.Jtree "target")
          (build_response X ctx.sid "ERROR" "request timeout" req.Msg_key none)).fifo_buffer ∧
      (r.Wait = true ↔ fifo_buffer ≠ "" ∧ sys.fifo_write = IoResult.ok) ∧
      (r.Wait = true → (serialiser X ctx version sys req).fifo = fifo_buffer) ∧
      (∀ nw err, fifo_buffer ≠ "" → sys.fifo_write = IoResult.failed nw err →
        r.Wait = false ∧
        r.Rdata = build_response X ctx.sid "ERROR" ("unable to send req: " ++ err)
          req.Msg_key none) := by
  by_cases hs : X.Get_string req.Jtree "sender" = some ctx.sid
  · simp [serialiser, hs] at hr
  cases ha : X.Get_string req.Jtree "action" with
  | none => simp [serialiser, hs, ha] at hr
  | some a =>
    refine ⟨a, rfl, _, rfl, ?_⟩
    simp only [serialiser, hs, ha, if_false] at hr ⊢
    split_ifs at hr ⊢ with h1 h2 <;> cases hw : sys.fifo_write <;>
      simp_all

/-- C8, with a `ping` request whose write fails with "broken pipe". -/
theorem wait_iff_write_succeeded_witness :
    ∃ r, r ∈ (serialiser jsonExternals exampleCtx "tokay v1.0/18420"
        ⟨none, IoResult.ok, IoResult.failed 0 "broken pipe"⟩
        (exampleReq "r-8" "K8" "u8" [("action", Json.str "ping")])).resp_ch ∧
      r.Wait = false ∧
      r.Rdata = build_response jsonExternals exampleCtx.sid "ERROR"
        ("unable to send req: " ++ "broken pipe") "u8" none := by
  refine ⟨_, List.mem_singleton.mpr rfl, ?_⟩
  obtain ⟨a, ha, fb, hfb, -, -, h⟩ := wait_iff_write_succeeded jsonExternals exampleCtx
    "tokay v1.0/18420" ⟨none, IoResult.ok, IoResult.failed 0 "broken pipe"⟩
    (exampleReq "r-8" "K8" "u8" [("action", Json.str "ping")]) _ (List.mem_singleton.mpr rfl)
  have ha2 : a = "ping" := by
    have : jsonExternals.Get_string (exampleReq "r-8" "K8" "u8"
      [("action", Json.str "ping")]).Jtree "action" = some "ping" := by decide
    rw [this] at ha; exact (Option.some.inj ha).symm
  subst ha2
  exact h 0 "broken pipe" (by rw [hfb]; decide) rfl

/-! ## Go maps -/

theorem GoMap.get_delete_self {V : Type} (m : GoMap V) (k : String) :
    GoMap.get (GoMap.delete m k) k = none := by
  induction m with
  | nil => rfl
  | cons e es ih =>
    by_cases h : e.1 = k
    · simpa [GoMap.delete, GoMap.get, List.filter_cons, h] using ih
    · have h2 : (k == e.1) = false := by simpa using fun e2 => h e2.symm
      obtain ⟨a, b⟩ := e
      simpa [GoMap.delete, GoMap.get, List.filter_cons, h, List.lookup_cons, h2] using ih

theorem GoMap.get_delete_of_ne {V : Type} (m : GoMap V) (k k2 : String) (hne : k2 ≠ k) :
    GoMap.get (GoMap.delete m k) k2 = GoMap.get m k2 := by
  induction m with
  | nil => rfl
  | cons e es ih =>
    obtain ⟨a, b⟩ := e
    by_cases h : a = k
    · subst h
      have h2 : (k2 == a) = false := by simpa using hne
      simpa [GoMap.delete, GoMap.get, List.filter_cons, List.lookup_cons, h2] using ih
    · by_cases h3 : k2 = a
      · simp [GoMap.delete, GoMap.get, List.filter_cons, h, List.lookup_cons, h3]
      · have h2 : (k2 == a) = false := by simpa using h3
        simpa [GoMap.delete, GoMap.get, List.filter_cons, h, List.lookup_cons, h2] using ih

theorem GoMap.get_set_self {V : Type} (m : GoMap V) (k : String) (v : V) :
    GoMap.get (GoMap.set m k v) k = some v := by
  simp [GoMap.set, GoMap.get, List.lookup_cons]

theorem GoMap.get_set_of_ne {V : Type} (m : GoMap V) (k k2 : String) (v : V) (hne : k2 ≠ k) :
    GoMap.get (GoMap.set m k v) k2 = GoMap.get m k2 := by
  have h2 : (k2 == k) = false := by simpa using hne
  have := GoMap.get_delete_of_ne m k k2 hne
  simpa [GoMap.set, GoMap.get, List.lookup_cons, h2] using this

theorem GoMap.isSome_of_delete {V : Type} (m : GoMap V) (k k2 : String)
    (h : (GoMap.get (GoMap.delete m k) k2).isSome = true) : (GoMap.get m k2).isSome = true := by
  by_cases hk : k2 = k
  · subst hk; rw [GoMap.get_delete_self] at h; simp at h
  · rwa [GoMap.get_delete_of_ne m k k2 hk] at h

theorem GoMap.mem_of_get {V : Type} (m : GoMap V) (k : String) (v : V)
    (h : GoMap.get m k = some v) : (k, v) ∈ m := by
  induction m with
  | nil => simp [GoMap.get] at h
  | cons e es ih =>
    obtain ⟨a, b⟩ := e
    by_cases h3 : k = a
    · subst h3
      simp [GoMap.get, List.lookup_cons] at h
      simp [h]
    · have h2 : (k == a) = false := by simpa using h3
      simp only [GoMap.get, List.lookup_cons, h2] at h
      exact List.mem_cons_of_mem _ (ih h)

theorem GoMap.mem_of_mem_delete {V : Type} (m : GoMap V) (k : String) (e : String × V)
    (h : e ∈ GoMap.delete m k) : e ∈ m :=
  (List.mem_filter.mp h).1

/-! ## The responder: its two maps -/

theorem sweep_keys {J : Type} (hi : Char → Bool) (sid : String) (now : Int)
    (todo : List (String × Response J)) :
    ∀ (cur : GoMap (Response J)) (sent : List (Nat × Mq_msg)) (k : String),
      (GoMap.get (sweep hi sid now todo cur sent).1 k).isSome = true →
      (GoMap.get cur k).isSome = true := by
  induction todo with
  | nil => intro cur sent k h; simpa [sweep] using h
  | cons e todo ih =>
    intro cur sent k h
    obtain ⟨k1, r⟩ := e
    simp only [sweep] at h
    split_ifs at h with hc
    · exact GoMap.isSome_of_delete _ _ _ (ih _ _ _ h)
    · exact ih _ _ _ h

theorem responder_keeps_maps_apart {J : Type} (X : Externals J) (ctx : context)
    (st st1 : RespState J) (e : Event J) (out : RespOut)
    (inv : ∀ rid, ¬ ((GoMap.get st.pending_resp rid).isSome = true ∧
      (GoMap.get st.unmatched rid).isSome = true))
    (h : responder X ctx st e = Except.ok (st1, out)) :
    ∀ rid, ¬ ((GoMap.get st1.pending_resp rid).isSome = true ∧
      (GoMap.get st1.unmatched rid).isSome = true) := by
  intro rid ⟨hp, hu⟩
  cases e with
  | tickle now =>
    simp only [responder] at h
    injection h with h; injection h with h1 h2
    subst h1
    exact inv rid ⟨sweep_keys _ _ _ _ _ _ _ hp, hu⟩
  | blob msg =>
    simp only [responder] at h
    split at h
    · injection h with h; injection h with h1 h2; subst h1; exact inv rid ⟨hp, hu⟩
    · split at h
      · split_ifs at h with hact
        · split at h
          · split at h
            · exact Except.noConfusion h
            · injection h with h; injection h with h1 h2; subst h1
              exact inv rid ⟨GoMap.isSome_of_delete _ _ _ hp, hu⟩
          · rename_i vfd_rid action hv ha x hnone
            injection h with h; injection h with h1 h2; subst h1
            by_cases hk : rid = vfd_rid
            · subst hk; simp only at hp; rw [hnone] at hp; simp at hp
            · simp only at hp hu
              rw [GoMap.get_set_of_ne _ _ _ _ hk] at hu
              exact inv rid ⟨hp, hu⟩
        · injection h with h; injection h with h1 h2; subst h1; exact inv rid ⟨hp, hu⟩
      · injection h with h; injection h with h1 h2; subst h1; exact inv rid ⟨hp, hu⟩
  | response now msg =>
    simp only [responder] at h
    have hun : ∀ k, (GoMap.get (match GoMap.get st.unmatched msg.Rid with
        | some b => (GoMap.delete st.unmatched msg.Rid, [b])
        | none => (st.unmatched, ([] : List String))).1 k).isSome = true →
        (GoMap.get st.unmatched k).isSome = true ∧ k ≠ msg.Rid := by
      intro k hk
      split at hk
      · refine ⟨GoMap.isSome_of_delete _ _ _ hk, ?_⟩
        rintro rfl
        rw [GoMap.get_delete_self] at hk; simp at hk
      · rename_i hnone
        refine ⟨hk, ?_⟩
        rintro rfl
        simp only at hk; rw [hnone] at hk; simp at hk
    split_ifs at h with hw
    · injection h with h; injection h with h1 h2; subst h1
      simp only at hp hu
      obtain ⟨hu1, hne⟩ := hun rid hu
      rw [GoMap.get_set_of_ne _ _ _ _ hne] at hp
      exact inv rid ⟨hp, hu1⟩
    · injection h with h; injection h with h1 h2; subst h1
      simp only at hp hu
      exact inv rid ⟨hp, (hun rid hu).1⟩
  | other =>
    simp only [responder] at h
    injection h with h; injection h with h1 h2; subst h1; exact inv rid ⟨hp, hu⟩

/-- C3: in every state that the responder reaches from its two empty maps by
any sequence of events (blocks from the serialiser, blobs, tickles), no rid is
a key of both `pending_resp` and `unmatched`. -/
theorem pending_and_unmatched_never_share_a_rid {J : Type} (X : Externals J) (ctx : context)
    (events : List (Event J)) (st : RespState J) (sent : List (Nat × Mq_msg))
    (h : responder_run X ctx (RespState.init J) events = Except.ok (st, sent)) :
    ∀ rid, ¬ ((GoMap.get st.pending_resp rid).isSome = true ∧
      (GoMap.get st.unmatched rid).isSome = true) := by
  have gen : ∀ (es : List (Event J)) (s0 s1 : RespState J) (out : List (Nat × Mq_msg)),
      (∀ rid, ¬ ((GoMap.get s0.pending_resp rid).isSome = true ∧
        (GoMap.get s0.unmatched rid).isSome = true)) →
      responder_run X ctx s0 es = Except.ok (s1, out) →
      ∀ rid, ¬ ((GoMap.get s1.pending_resp rid).isSome = true ∧
        (GoMap.get s1.unmatched rid).isSome = true) := by
    intro es
    induction es with
    | nil =>
      intro s0 s1 out inv hrun
      simp only [responder_run] at hrun
      injection hrun with hrun; injection hrun with h1 h2; subst h1; exact inv
    | cons e es ih =>
      intro s0 s1 out inv hrun
      simp only [responder_run] at hrun
      split at hrun
      · exact Except.noConfusion hrun
      · rename_i st1 o1 hstep
        split at hrun
        · exact Except.noConfusion hrun
        · rename_i st2 sent2 hrest
          injection hrun with hrun; injection hrun with h1 h2; subst h1
          exact ih st1 st2 sent2 (responder_keeps_maps_apart X ctx s0 st1 e o1 inv hstep) hrest
  exact gen events _ st sent (by intro rid ⟨hp, _⟩; simp [RespState.init, GoMap.get] at hp) h

/-! ## The responder: where replies go -/

theorem serialiser_block_fields {J : Type} (X : Externals J) (ctx : context)
    (version : String) (sys : SysCalls) (req : Request J) (r : Response J)
    (hr : r ∈ (serialiser X ctx version sys req).resp_ch) :
    r.Req = req ∧ r.Exch_key = req.Exch_key ∧ r.Msg_key = req.Msg_key ∧ r.Rid = req.Rid := by
  by_cases hs : X.Get_string req.Jtree "sender" = some ctx.sid
  · simp [serialiser, hs] at hr
  cases ha : X.Get_string req.Jtree "action" with
  | none => simp [serialiser, hs, ha] at hr
  | some a =>
    simp only [serialiser, hs, ha, if_false] at hr
    split_ifs at hr <;> cases hw : sys.fifo_write <;> simp_all

theorem sweep_sent {J : Type} (X : Externals J) (ctx : context) (now : Int)
    (P : Response J → Prop) (todo : List (String × Response J)) :
    ∀ (cur : GoMap (Response J)) (sent : List (Nat × Mq_msg)),
      (∀ e ∈ todo, P e.2 ∧ e.2.Wait = true) →
      (∀ e ∈ cur, P e.2 ∧ e.2.Wait = true ∧ e.1 = e.2.Rid) →
      (∀ cm ∈ sent, ∃ r, P r ∧ cm.1 = r.Req.Resp_ch ∧ cm.2.Key = r.Exch_key ∧
        SentFor X ctx r cm.2) →
      (∀ e ∈ (sweep X.isPrintHi ctx.sid now todo cur sent).1,
        P e.2 ∧ e.2.Wait = true ∧ e.1 = e.2.Rid) ∧
      (∀ cm ∈ (sweep X.isPrintHi ctx.sid now todo cur sent).2,
        ∃ r, P r ∧ cm.1 = r.Req.Resp_ch ∧ cm.2.Key = r.Exch_key ∧ SentFor X ctx r cm.2) := by
  induction todo with
  | nil => intro cur sent _ hc hs; exact ⟨by simpa [sweep] using hc, by simpa [sweep] using hs⟩
  | cons e todo ih =>
    intro cur sent ht hc hs
    obtain ⟨k, r⟩ := e
    have hr := ht (k, r) (List.mem_cons_self _ _)
    have ht2 : ∀ e ∈ todo, P e.2 ∧ e.2.Wait = true := fun e he =>
      ht e (List.mem_cons_of_mem _ he)
    simp only [sweep]
    split_ifs with hcond
    · apply ih
      · exact ht2
      · intro e he; exact hc e (GoMap.mem_of_mem_delete _ _ _ he)
      · intro cm hcm
        rcases List.mem_append.mp hcm with h | h
        · exact hs cm h
        · rw [List.mem_singleton] at h
          subst h
          exact ⟨r, hr.1, rfl, rfl, Or.inr (Or.inl ⟨hr.2, rfl⟩)⟩
    · exact ih cur sent ht2 hc hs

theorem responder_sent {J : Type} (X : Externals J) (ctx : context) (P : Response J → Prop)
    (hP : ∀ r t, P r → P { r with Tstamp := t })
    (st st1 : RespState J) (e : Event J) (out : RespOut)
    (inv : ∀ e ∈ st.pending_resp, P e.2 ∧ e.2.Wait = true ∧ e.1 = e.2.Rid)
    (he : ∀ now r, e = Event.response now r → P r)
    (h : responder X ctx st e = Except.ok (st1, out)) :
    (∀ e ∈ st1.pending_resp, P e.2 ∧ e.2.Wait = true ∧ e.1 = e.2.Rid) ∧
    (∀ cm ∈ out.sent, ∃ r, P r ∧ cm.1 = r.Req.Resp_ch ∧ cm.2.Key = r.Exch_key ∧
      SentFor X ctx r cm.2) := by
  cases e with
  | tickle now =>
    simp only [responder] at h
    injection h with h; injection h with h1 h2
    subst h1; subst h2
    exact sweep_sent X ctx now P st.pending_resp st.pending_resp []
      (fun e he => ⟨(inv e he).1, (inv e he).2.1⟩) inv (by simp)
  | blob msg =>
    simp only [responder] at h
    split at h
    · injection h with h; injection h with h1 h2; subst h1; subst h2; exact ⟨inv, by simp⟩
    · split at h
      · split_ifs at h with hact
        · split at h
          · split at h
            · exact Except.noConfusion h
            · rename_i jtree hj x1 x2 vfd_rid action hv ha x3 resp hresp x4 state hstate
              injection h with h; injection h with h1 h2; subst h1; subst h2
              have hmem := inv _ (GoMap.mem_of_get _ _ _ hresp)
              refine ⟨fun e he => inv e (GoMap.mem_of_mem_delete _ _ _ he), ?_⟩
              intro cm hcm
              simp only [List.mem_singleton] at hcm
              subst hcm
              refine ⟨resp, hmem.1, rfl, rfl, Or.inr (Or.inr ⟨hmem.2.1, jtree, state, ?_⟩)⟩
              simp only at hmem
              cases hm : X.Get_string jtree "msg" with
              | none => exact ⟨"", by rw [← hmem.2.2]; exact hv, rfl⟩
              | some m => exact ⟨m, by rw [← hmem.2.2]; exact hv, rfl⟩
          · injection h with h; injection h with h1 h2; subst h1; subst h2
            exact ⟨inv, by simp⟩
        · injection h with h; injection h with h1 h2; subst h1; subst h2; exact ⟨inv, by simp⟩
      · injection h with h; injection h with h1 h2; subst h1; subst h2; exact ⟨inv, by simp⟩
  | response now msg =>
    simp only [responder] at h
    have hmsg := he now msg rfl
    split_ifs at h with hw
    · injection h with h; injection h with h1 h2; subst h1; subst h2
      refine ⟨?_, by simp⟩
      intro e he2
      simp only [GoMap.set, List.mem_cons] at he2
      rcases he2 with rfl | he2
      · exact ⟨hP _ _ hmsg, hw, rfl⟩
      · exact inv e (GoMap.mem_of_mem_delete _ _ _ he2)
    · injection h with h; injection h with h1 h2; subst h1; subst h2
      refine ⟨inv, ?_⟩
      intro cm hcm
      simp only [List.mem_singleton] at hcm
      subst hcm
      exact ⟨msg, hmsg, rfl, rfl, Or.inl ⟨by simpa using hw, rfl⟩⟩
  | other =>
    simp only [responder] at h
    injection h with h; injection h with h1 h2; subst h1; subst h2; exact ⟨inv, by simp⟩

theorem responder_run_sent {J : Type} (X : Externals J) (ctx : context) (P : Response J → Prop)
    (hP : ∀ r t, P r → P { r with Tstamp := t }) (es : List (Event J)) :
    ∀ (st st1 : RespState J) (sent : List (Nat × Mq_msg)),
      (∀ e ∈ st.pending_resp, P e.2 ∧ e.2.Wait = true ∧ e.1 = e.2.Rid) →
      (∀ now r, Event.response now r ∈ es → P r) →
      responder_run X ctx st es = Except.ok (st1, sent) →
      ∀ cm ∈ sent, ∃ r, P r ∧ cm.1 = r.Req.Resp_ch ∧ cm.2.Key = r.Exch_key ∧
        SentFor X ctx r cm.2 := by
  induction es with
  | nil =>
    intro st st1 sent _ _ hrun
    simp only [responder_run] at hrun
    injection hrun with hrun; injection hrun with h1 h2; subst h2; simp
  | cons e es ih =>
    intro st st1 sent inv hes hrun
    simp only [responder_run] at hrun
    split at hrun
    · exact Except.noConfusion hrun
    · rename_i s1 o1 hstep
      split at hrun
      · exact Except.noConfusion hrun
      · rename_i s2 sent2 hrest
        injection hrun with hrun; injection hrun with h1 h2; subst h2
        have hs := responder_sent X ctx P hP st s1 e o1 inv
          (fun now r heq => hes now r (by rw [heq]; exact List.mem_cons_self _ _)) hstep
        intro cm hcm
        rcases List.mem_append.mp hcm with hc | hc
        · exact hs.2 cm hc
        · exact ih s1 s2 sent2 hs.1
            (fun now r hm => hes now r (List.mem_cons_of_mem _ hm)) hrest cm hc

/-- C4: when the blocks the responder receives are those the serialiser
queues, every broker message the responder sends is accounted for by one of
those blocks on one of the three emission paths (`SentFor`), and it is sent on
the reply channel of that block's Request with that Request's `Exch_key` as
routing key. -/
theorem replies_use_the_requests_channel_and_key {J : Type} (X : Externals J)
    (ctx : context) (events : List (Event J)) (st : RespState J)
    (sent : List (Nat × Mq_msg))
    (hser : ∀ now r, Event.response now r ∈ events →
      ∃ c version sys req, r ∈ (serialiser X c version sys req).resp_ch)
    (hrun : responder_run X ctx (RespState.init J) events = Except.ok (st, sent)) :
    ∀ ch m, (ch, m) ∈ sent →
      ∃ now r, Event.response now r ∈ events ∧ ch = r.Req.Resp_ch ∧
        m.Key = r.Req.Exch_key ∧ SentFor X ctx r m := by
  intro ch m hm
  have key := responder_run_sent X ctx
    (fun r' => ∃ now r, Event.response now r ∈ events ∧ r' = { r with Tstamp := r'.Tstamp })
    (by
      rintro r' t ⟨now, r, hmem, heq⟩
      refine ⟨now, r, hmem, ?_⟩
      rw [heq])
    events (RespState.init J) st sent
    (by intro e he; simp [RespState.init] at he)
    (fun now r hmem => ⟨now, r, hmem, rfl⟩) hrun (ch, m) hm
  obtain ⟨r', ⟨now, r, hmem, heq⟩, hch, hkey, hfor⟩ := key
  obtain ⟨c, v, sys, req, hr⟩ := hser now r hmem
  obtain ⟨h1, h2, -, -⟩ := serialiser_block_fields X c v sys req r hr
  have e1 : r'.Req = r.Req := by rw [heq]
  have e2 : r'.Exch_key = r.Exch_key := by rw [heq]
  simp only at hch hkey hfor
  refine ⟨now, r, hmem, ?_, ?_, ?_⟩
  · rw [hch, e1]
  · rw [hkey, e2, h2, h1]
  · rw [heq] at hfor; exact hfor

/-- C3, on a run with a blob that comes before its block, a block that waits,
a matching blob, an immediate reply and a tickle. -/
theorem pending_and_unmatched_never_share_a_rid_witness :
    ∃ st sent, responder_run jsonExternals exampleCtx (RespState.init Json) exampleEvents =
        Except.ok (st, sent) ∧
      ∀ rid, ¬ ((GoMap.get st.pending_resp rid).isSome = true ∧
        (GoMap.get st.unmatched rid).isSome = true) :=
  ⟨_, _, rfl, pending_and_unmatched_never_share_a_rid jsonExternals exampleCtx exampleEvents
    _ _ rfl⟩

/-- C4, on the same run: its blocks are what the serialiser queues for
`pingVfdReq` and `pingReq`, and both replies go out on channel 7 with the
keys K4 and K2 of those requests. -/
theorem replies_use_the_requests_channel_and_key_witness :
    (∀ now r, Event.response now r ∈ exampleEvents →
      ∃ c version sys req, r ∈ (serialiser jsonExternals c version sys req).resp_ch) ∧
    ∃ st sent, responder_run jsonExternals exampleCtx (RespState.init Json) exampleEvents =
        Except.ok (st, sent) ∧
      sent.map (fun cm => (cm.1, cm.2.Key)) = [(7, "K4"), (7, "K2")] ∧
      ∀ ch m, (ch, m) ∈ sent →
        ∃ now r, Event.response now r ∈ exampleEvents ∧ ch = r.Req.Resp_ch ∧
          m.Key = r.Req.Exch_key ∧ SentFor jsonExternals exampleCtx r m := by
  have hser : ∀ now r, Event.response now r ∈ exampleEvents →
      ∃ c version sys req, r ∈ (serialiser jsonExternals c version sys req).resp_ch := by
    intro now r h
    simp [exampleEvents] at h
    rcases h with ⟨-, h⟩ | ⟨-, h⟩
    · refine ⟨exampleCtx, "tokay v1.0/18420", sysOk, pingVfdReq, ?_⟩
      rw [h, show (serialiser jsonExternals exampleCtx "tokay v1.0/18420" sysOk
        pingVfdReq).resp_ch = [pingVfdBlock] from rfl]
      exact List.mem_singleton.mpr rfl
    · refine ⟨exampleCtx, "tokay v1.0/18420", sysOk, pingReq, ?_⟩
      rw [h, show (serialiser jsonExternals exampleCtx "tokay v1.0/18420" sysOk
        pingReq).resp_ch = [pingBlock] from rfl]
      exact List.mem_singleton.mpr rfl
  exact ⟨hser, _, _, rfl, by decide,
    replies_use_the_requests_channel_and_key jsonExternals exampleCtx exampleEvents _ _ hser rfl⟩

/-- C2 (the code does otherwise): for a blob that `Json2tree` reads, with
action "response", a `vfd_rid` that is a key of `pending_resp` and no `state`
string, the responder sends nothing and removes nothing: it dereferences the
nil pointer that `Get_string( "state" )` returned, and panics. -/
theorem response_without_state_panics {J : Type} (X : Externals J) (ctx : context)
    (st : RespState J) (msg : String) (jtree : J) (vfd_rid : String) (resp : Response J)
    (hj : X.Json2tree msg = some jtree)
    (ha : X.Get_string jtree "action" = some "response")
    (hv : X.Get_string jtree "vfd_rid" = some vfd_rid)
    (hp : GoMap.get st.pending_resp vfd_rid = some resp)
    (hs : X.Get_string jtree "state" = none) :
    responder X ctx st (Event.blob msg) =
      Except.error "invalid memory address or nil pointer dereference" := by
  simp [responder, hj, ha, hv, hp, hs]

/-- C2, with the block of `pingVfdReq` pending and a blob for its rid that
has no `state`. -/
theorem response_without_state_panics_witness :
    jsonExternals.Json2tree blobWithoutState =
      some (Json.obj [("action", Json.str "response"), ("vfd_rid", Json.str "r-4")]) ∧
    responder jsonExternals exampleCtx ⟨[("r-4", pingVfdBlock)], []⟩
        (Event.blob blobWithoutState) =
      Except.error "invalid memory address or nil pointer dereference" :=
  ⟨rfl, response_without_state_panics jsonExternals exampleCtx ⟨[("r-4", pingVfdBlock)], []⟩
    blobWithoutState (Json.obj [("action", Json.str "response"), ("vfd_rid", Json.str "r-4")])
    "r-4" pingVfdBlock rfl rfl rfl rfl rfl⟩

/-! ## Envelopes and requests as JSON texts -/

theorem build_response_empty_state {J : Type} (X : Externals J)
    (sender msg msg_key : String) (data : Option J) :
    build_response X sender "" msg msg_key data =
      build_response X sender "OK" msg msg_key data := by
  simp [build_response]

/-- C5 (the code does otherwise): for the request `bellKeyReq`, whose
`msg_key` is the character U+0007, the envelope that the serialiser builds and
the timeout envelope of the responder both write the key as the Go escape
`\a`, which JSON does not have: neither text is a JSON object, so neither has
a `msg_key` field equal to the request's. -/
theorem bell_msg_key_envelopes_are_not_json :
    (serialiser jsonExternals exampleCtx "tokay v1.0/18420" sysOk bellKeyReq).resp_ch.map
        (fun r => (r.Rdata, isJsonObject r.Rdata)) =
      [("\x7b \"sender\": \"host_4242\", \"state\": \"ERROR\", " ++
          "\"msg\": \"request dropped: unknown action: flerb\", \"msg_key\": \"\\a\" \x7d",
        false)] ∧
    timeout_rdata jsonExternals.isPrintHi exampleCtx.sid bellKeyReq.Msg_key =
      "\x7b \"sender\": \"host_4242\", \"state\": \"ERROR\", \"msg_key\": \"\\a\", " ++
        "\"msg\": \"timeout: no response from VFd\" \x7d" ∧
    isJsonObject (timeout_rdata jsonExternals.isPrintHi exampleCtx.sid bellKeyReq.Msg_key) =
      false := by
  refine ⟨by decide, by decide, by decide⟩

/-- C9 (the code does otherwise): for the request `bellShowReq`, whose
`target` is the character U+0007, the serialiser writes to the request pipe
the result of `mk_vfd_request`, which ends in two newlines but before them is
not a JSON object: the resource is written with the Go escape `\a`. -/
theorem bell_resource_request_is_not_json :
    (serialiser jsonExternals exampleCtx "tokay v1.0/18420" sysOk bellShowReq).fifo =
      mk_vfd_request jsonExternals.isPrintHi "show" none (some "\x07")
        "/var/lib/vfd/fifos/tokay.fifo" "r-9" ∧
    mk_vfd_request jsonExternals.isPrintHi "show" none (some "\x07")
        "/var/lib/vfd/fifos/tokay.fifo" "r-9" =
      "\x7b \"action\": \"show\",\"params\": \x7b \"resource\": \"\\a\", " ++
        "\"r_fifo\": \"/var/lib/vfd/fifos/tokay.fifo\", \"vfd_rid\": \"r-9\"\x7d\x7d" ++ "\n\n" ∧
    isJsonObject ("\x7b \"action\": \"show\",\"params\": \x7b \"resource\": \"\\a\", " ++
      "\"r_fifo\": \"/var/lib/vfd/fifos/tokay.fifo\", \"vfd_rid\": \"r-9\"\x7d\x7d") = false := by
  refine ⟨by decide, by decide, by decide⟩

/-- C10 (the code does otherwise): `build_response` with the message U+0007
and no data returns a text that is not a JSON object; the message is written
with the Go escape `\a`. -/
theorem bell_msg_response_is_not_json :
    build_response jsonExternals "host_4242" "ERROR" "\x07" "u1" none =
      "\x7b \"sender\": \"host_4242\", \"state\": \"ERROR\", \"msg\": \"\\a\", " ++
        "\"msg_key\": \"u1\" \x7d" ∧
    isJsonObject (build_response jsonExternals "host_4242" "ERROR" "\x07" "u1" none) = false := by
  refine ⟨by decide, by decide⟩

/-! ## `%q` and JSON strings -/

theorem hexVal_lowerhex (n : Nat) : hexVal (lowerhex n) = some (n % 16) := by
  have h : ∀ m, m < 16 → hexVal (lowerhex m) = some m := by decide
  have h2 := h (n % 16) (Nat.mod_lt _ (by norm_num))
  simpa [lowerhex, Nat.mod_mod] using h2

theorem hex4_lowerhex (v : Nat) (hv : v < 65536) :
    hex4 (lowerhex (v / 4096)) (lowerhex (v / 256)) (lowerhex (v / 16)) (lowerhex v) =
      some v := by
  simp only [hex4, hexVal_lowerhex]
  congr 1
  omega

theorem IsPrint_ge (hi : Char → Bool) (c : Char) (h : IsPrint hi c = true) :
    ¬ c.toNat < 0x20 := by
  unfold IsPrint at h
  split_ifs at h <;> omega

theorem char_eq_of_toNat (c : Char) (n : Nat) (h : c.toNat = n) : c = Char.ofNat n := by
  rw [← h, Char.ofNat_toNat]

theorem char_not_surrogate (c : Char) : c.toNat < 0xD800 ∨ 0xDFFF < c.toNat := by
  have := c.valid
  simp only [UInt32.isValidChar, Nat.isValidChar] at this
  have e : c.toNat = c.val.toNat := rfl
  omega

theorem parseStringAux_two (n : Nat) (e ch : Char) (rest : List Char)
    (he : e ≠ 'u') (hu : unescape e = some ch) :
    parseStringAux (n + 1) ('\\' :: e :: rest) =
      (parseStringAux n rest).map (fun p => (ch :: p.1, p.2)) := by
  rw [parseStringAux]
  simp [readEscape, he, hu]

theorem parseStringAux_plain (n : Nat) (c : Char) (rest : List Char)
    (hq : c ≠ '"') (hb : c ≠ '\\') (hc : ¬ c.toNat < 0x20) :
    parseStringAux (n + 1) (c :: rest) =
      (parseStringAux n rest).map (fun p => (c :: p.1, p.2)) := by
  rw [parseStringAux]
  simp [hq, hb, hc]

theorem parseStringAux_u (n : Nat) (c : Char) (rest : List Char) (hv : c.toNat < 65536) :
    parseStringAux (n + 1) ('\\' :: 'u' :: lowerhex (c.toNat / 4096) ::
        lowerhex (c.toNat / 256) :: lowerhex (c.toNat / 16) :: lowerhex c.toNat :: rest) =
      (parseStringAux n rest).map (fun p => (c :: p.1, p.2)) := by
  rw [parseStringAux]
  have hs := char_not_surrogate c
  simp [readEscape, hex4_lowerhex c.toNat hv, hs, Char.ofNat_toNat]

theorem parseStringAux_escaped (hi : Char → Bool) (c : Char) (hc : quotesAsJson hi c = true)
    (n : Nat) (rest : List Char) :
    parseStringAux (n + 1) (appendEscapedRune hi c ++ rest) =
      (parseStringAux n rest).map (fun p => (c :: p.1, p.2)) := by
  by_cases h1 : c = '"' ∨ c = '\\'
  · simp only [appendEscapedRune, if_pos h1, List.cons_append, List.nil_append]
    rcases h1 with rfl | rfl
    · exact parseStringAux_two n _ _ rest (by decide) (by decide)
    · exact parseStringAux_two n _ _ rest (by decide) (by decide)
  by_cases h2 : IsPrint hi c = true
  · simp only [appendEscapedRune, if_neg h1, if_pos h2, List.cons_append, List.nil_append]
    exact parseStringAux_plain n c rest (fun e => h1 (Or.inl e)) (fun e => h1 (Or.inr e))
      (IsPrint_ge hi c h2)
  by_cases h3 : c.toNat = 7
  · simp [quotesAsJson, appendEscapedRune, h1, h2, h3] at hc
  by_cases h4 : c.toNat = 8
  · simp only [appendEscapedRune, if_neg h1, if_neg h2, if_neg h3, if_pos h4, List.cons_append,
      List.nil_append]
    have := char_eq_of_toNat c 8 h4
    subst this
    exact parseStringAux_two n _ _ rest (by decide) (by decide)
  by_cases h5 : c.toNat = 12
  · simp only [appendEscapedRune, if_neg h1, if_neg h2, if_neg h3, if_neg h4, if_pos h5,
      List.cons_append, List.nil_append]
    have := char_eq_of_toNat c 12 h5
    subst this
    exact parseStringAux_two n _ _ rest (by decide) (by decide)
  by_cases h6 : c.toNat = 10
  · simp only [appendEscapedRune, if_neg h1, if_neg h2, if_neg h3, if_neg h4, if_neg h5,
      if_pos h6, List.cons_append, List.nil_append]
    have := char_eq_of_toNat c 10 h6
    subst this
    exact parseStringAux_two n _ _ rest (by decide) (by decide)
  by_cases h7 : c.toNat = 13
  · simp only [appendEscapedRune, if_neg h1, if_neg h2, if_neg h3, if_neg h4, if_neg h5,
      if_neg h6, if_pos h7, List.cons_append, List.nil_append]
    have := char_eq_of_toNat c 13 h7
    subst this
    exact parseStringAux_two n _ _ rest (by decide) (by decide)
  by_cases h8 : c.toNat = 9
  · simp only [appendEscapedRune, if_neg h1, if_neg h2, if_neg h3, if_neg h4, if_neg h5,
      if_neg h6, if_neg h7, if_pos h8, List.cons_append, List.nil_append]
    have := char_eq_of_toNat c 9 h8
    subst this
    exact parseStringAux_two n _ _ rest (by decide) (by decide)
  by_cases h9 : c.toNat = 11
  · simp [quotesAsJson, appendEscapedRune, h1, h2, h3, h4, h5, h6, h7, h8, h9] at hc
  by_cases h10 : c.toNat < 0x20 ∨ c.toNat = 0x7f
  · simp [quotesAsJson, appendEscapedRune, h1, h2, h3, h4, h5, h6, h7, h8, h9, h10] at hc
  by_cases h11 : c.toNat < 0x10000
  · simp only [appendEscapedRune, if_neg h1, if_neg h2, if_neg h3, if_neg h4, if_neg h5,
      if_neg h6, if_neg h7, if_neg h8, if_neg h9, if_neg h10, if_pos h11, List.cons_append,
      List.nil_append]
    exact parseStringAux_u n c rest h11
  · simp [quotesAsJson, appendEscapedRune, h1, h2, h3, h4, h5, h6, h7, h8, h9, h10, h11] at hc

theorem one_le_length_ite {p : Prop} [Decidable p] {a b : List Char} (ha : 1 ≤ a.length)
    (hb : 1 ≤ b.length) : 1 ≤ (if p then a else b).length := by
  split <;> assumption

theorem length_appendEscapedRune (hi : Char → Bool) (c : Char) :
    1 ≤ (appendEscapedRune hi c).length := by
  unfold appendEscapedRune
  repeat' apply one_le_length_ite
  all_goals simp

theorem length_quoteBody (hi : Char → Bool) (s : List Char) :
    s.length ≤ (quoteBody hi s).length := by
  induction s with
  | nil => simp [quoteBody]
  | cons c s ih =>
    have := length_appendEscapedRune hi c
    simp only [quoteBody, List.length_append, List.length_cons]
    omega

theorem parseStringAux_quoteBody (hi : Char → Bool) (s : List Char)
    (hs : ∀ c ∈ s, quotesAsJson hi c = true) :
    ∀ (n : Nat) (rest : List Char), s.length < n →
      parseStringAux n (quoteBody hi s ++ '"' :: rest) = some (s, rest) := by
  induction s with
  | nil =>
    intro n rest hn
    obtain ⟨m, rfl⟩ : ∃ m, n = m + 1 := ⟨n - 1, by simp at hn; omega⟩
    simp [quoteBody, parseStringAux]
  | cons c s ih =>
    intro n rest hn
    obtain ⟨m, rfl⟩ : ∃ m, n = m + 1 := ⟨n - 1, by simp at hn; omega⟩
    simp only [quoteBody, List.append_assoc]
    rw [parseStringAux_escaped hi c (hs c (List.mem_cons_self _ _)),
      ih (fun d hd => hs d (List.mem_cons_of_mem _ hd)) m rest (by simp at hn; omega)]
    rfl

theorem parseString_quoteBody (hi : Char → Bool) (s : List Char)
    (hs : ∀ c ∈ s, quotesAsJson hi c = true) (rest : List Char) :
    parseString (quoteBody hi s ++ '"' :: rest) = some (s, rest) := by
  unfold parseString
  apply parseStringAux_quoteBody hi s hs
  have := length_quoteBody hi s
  simp only [List.length_append, List.length_cons]
  omega

theorem skipWs_of_not_ws (c : Char) (cs : List Char) (h : isWs c = false) :
    skipWs (c :: cs) = c :: cs := by
  simp [skipWs, h]

theorem skipWs_space (cs : List Char) : skipWs (' ' :: cs) = skipWs cs := by
  simp [skipWs, isWs]

theorem parseValue_string (hi : Char → Bool) (s : List Char)
    (hs : ∀ c ∈ s, quotesAsJson hi c = true) (f : Nat) (cs rest : List Char)
    (hcs : skipWs cs = '"' :: (quoteBody hi s ++ '"' :: rest)) :
    parseValue (f + 1) cs = some (Json.str ⟨s⟩, rest) := by
  rw [parseValue, hcs]
  simp [parseString_quoteBody hi s hs]

theorem parseMembers_string (hi : Char → Bool) (k v : List Char)
    (hk : ∀ c ∈ k, quotesAsJson hi c = true) (hv : ∀ c ∈ v, quotesAsJson hi c = true)
    (f : Nat) (cs cs2 c3 : List Char)
    (hcs : skipWs cs = '"' :: (quoteBody hi k ++ '"' :: ':' :: cs2))
    (hcs2 : skipWs cs2 = '"' :: (quoteBody hi v ++ '"' :: c3)) :
    parseMembers (f + 2) cs =
      match skipWs c3 with
      | [] => none
      | c :: r4 =>
        if c = ',' then
          (parseMembers (f + 1) r4).map (fun p => ((⟨k⟩, Json.str ⟨v⟩) :: p.1, p.2))
        else if c = '\x7d' then some ([(⟨k⟩, Json.str ⟨v⟩)], r4)
        else none := by
  rw [parseMembers, hcs]
  simp only [parseString_quoteBody hi k hk]
  have hcolon : skipWs (':' :: cs2) = ':' :: cs2 := skipWs_of_not_ws _ _ (by decide)
  simp [hcolon, parseValue_string hi v hv f cs2 c3 hcs2]

theorem parseStringAux_plain_list (k : List Char)
    (hk : ∀ c ∈ k, c ≠ '"' ∧ c ≠ '\\' ∧ ¬ c.toNat < 0x20) :
    ∀ (n : Nat) (rest : List Char), k.length < n →
      parseStringAux n (k ++ '"' :: rest) = some (k, rest) := by
  induction k with
  | nil =>
    intro n rest hn
    obtain ⟨m, rfl⟩ : ∃ m, n = m + 1 := ⟨n - 1, by simp at hn; omega⟩
    simp [parseStringAux]
  | cons c k ih =>
    intro n rest hn
    obtain ⟨m, rfl⟩ : ∃ m, n = m + 1 := ⟨n - 1, by simp at hn; omega⟩
    obtain ⟨h1, h2, h3⟩ := hk c (List.mem_cons_self _ _)
    rw [List.cons_append, parseStringAux_plain m c _ h1 h2 h3,
      ih (fun d hd => hk d (List.mem_cons_of_mem _ hd)) m rest (by simp at hn; omega)]
    rfl

theorem parseMembers_memberText (hi : Char → Bool) (k v : List Char)
    (hk : ∀ c ∈ k, c ≠ '"' ∧ c ≠ '\\' ∧ ¬ c.toNat < 0x20)
    (hv : ∀ c ∈ v, quotesAsJson hi c = true) (f : Nat) (rest : List Char) :
    parseMembers (f + 2) (memberText hi k v ++ rest) =
      match skipWs rest with
      | [] => none
      | c :: r4 =>
        if c = ',' then
          (parseMembers (f + 1) r4).map (fun p => ((⟨k⟩, Json.str ⟨v⟩) :: p.1, p.2))
        else if c = '\x7d' then some ([(⟨k⟩, Json.str ⟨v⟩)], r4)
        else none := by
  have e : memberText hi k v ++ rest =
      ' ' :: '"' :: (k ++ '"' :: ':' :: ' ' :: '"' :: (quoteBody hi v ++ '"' :: rest)) := by
    simp [memberText]
  have h1 : skipWs (memberText hi k v ++ rest) =
      '"' :: (k ++ '"' :: ':' :: ' ' :: '"' :: (quoteBody hi v ++ '"' :: rest)) := by
    rw [e, skipWs_space]; exact skipWs_of_not_ws _ _ (by decide)
  have h2 : parseString (k ++ '"' :: ':' :: ' ' :: '"' :: (quoteBody hi v ++ '"' :: rest)) =
      some (k, ':' :: ' ' :: '"' :: (quoteBody hi v ++ '"' :: rest)) := by
    unfold parseString
    apply parseStringAux_plain_list k hk
    simp only [List.length_append, List.length_cons]
    omega
  have h3 : skipWs (':' :: ' ' :: '"' :: (quoteBody hi v ++ '"' :: rest)) =
      ':' :: ' ' :: '"' :: (quoteBody hi v ++ '"' :: rest) := skipWs_of_not_ws _ _ (by decide)
  have h4 : parseValue (f + 1) (' ' :: '"' :: (quoteBody hi v ++ '"' :: rest)) =
      some (Json.str ⟨v⟩, rest) :=
    parseValue_string hi v hv f _ rest (by rw [skipWs_space]; exact skipWs_of_not_ws _ _ (by decide))
  rw [parseMembers, h1]
  simp [h2, h3, h4]

theorem skipWs_idem (cs : List Char) : skipWs (skipWs cs) = skipWs cs := by
  induction cs with
  | nil => rfl
  | cons c cs ih =>
    by_cases h : isWs c = true
    · simpa [skipWs, h] using ih
    · simp [skipWs, h]

theorem parseMembers_skipWs (f : Nat) (cs : List Char) :
    parseMembers f (skipWs cs) = parseMembers f cs := by
  cases f with
  | zero => simp [parseMembers]
  | succ f => rw [parseMembers, parseMembers, skipWs_idem]

theorem parseValue_object (f : Nat) (cs cs3 : List Char) (c2 : Char) (rest2 : List Char)
    (hcs : skipWs cs = '\x7b' :: cs3) (hcs3 : skipWs cs3 = c2 :: rest2) (hc2 : c2 ≠ '\x7d') :
    parseValue (f + 1) cs = (parseMembers f cs3).map (fun p => (Json.obj p.1, p.2)) := by
  rw [parseValue, hcs]
  simp only [hcs3, hc2, if_false]
  rw [← hcs3, parseMembers_skipWs]
  simp

theorem parseMembers_objectMember (k : List Char)
    (hk : ∀ c ∈ k, c ≠ '"' ∧ c ≠ '\\' ∧ ¬ c.toNat < 0x20) (f : Nat)
    (cs3 : List Char) (c2 : Char) (rest2 : List Char)
    (hcs3 : skipWs cs3 = c2 :: rest2) (hc2 : c2 ≠ '\x7d') :
    parseMembers (f + 2) ('"' :: (k ++ '"' :: ':' :: ' ' :: '\x7b' :: cs3)) =
      match parseMembers f cs3 with
      | none => none
      | some (ms, r3) =>
        match skipWs r3 with
        | [] => none
        | c :: r4 =>
          if c = ',' then
            (parseMembers (f + 1) r4).map (fun p => ((⟨k⟩, Json.obj ms) :: p.1, p.2))
          else if c = '\x7d' then some ([(⟨k⟩, Json.obj ms)], r4)
          else none := by
  have h1 : skipWs ('"' :: (k ++ '"' :: ':' :: ' ' :: '\x7b' :: cs3)) =
      '"' :: (k ++ '"' :: ':' :: ' ' :: '\x7b' :: cs3) := skipWs_of_not_ws _ _ (by decide)
  have h2 : parseString (k ++ '"' :: ':' :: ' ' :: '\x7b' :: cs3) =
      some (k, ':' :: ' ' :: '\x7b' :: cs3) := by
    unfold parseString
    apply parseStringAux_plain_list k hk
    simp only [List.length_append, List.length_cons]
    omega
  have h3 : skipWs (':' :: ' ' :: '\x7b' :: cs3) = ':' :: ' ' :: '\x7b' :: cs3 :=
    skipWs_of_not_ws _ _ (by decide)
  have h4 : parseValue (f + 1) (' ' :: '\x7b' :: cs3) =
      (parseMembers f cs3).map (fun p => (Json.obj p.1, p.2)) :=
    parseValue_object f _ cs3 c2 rest2
      (by rw [skipWs_space]; exact skipWs_of_not_ws _ _ (by decide)) hcs3 hc2
  rw [parseMembers, h1]
  simp only [h2, h3, h4]
  cases parseMembers f cs3 with
  | none => simp
  | some p => obtain ⟨ms, r3⟩ := p; simp

theorem skipWs_memberText (hi : Char → Bool) (k v rest : List Char) :
    skipWs (memberText hi k v ++ rest) =
      '"' :: (k ++ '"' :: ':' :: ' ' :: '"' :: (quoteBody hi v ++ '"' :: rest)) := by
  have e : memberText hi k v ++ rest =
      ' ' :: '"' :: (k ++ '"' :: ':' :: ' ' :: '"' :: (quoteBody hi v ++ '"' :: rest)) := by
    simp [memberText]
  rw [e, skipWs_space]; exact skipWs_of_not_ws _ _ (by decide)

theorem jsonQuotable_OK (hi : Char → Bool) : jsonQuotable hi "OK" := by
  intro c hc
  have : c = 'O' ∨ c = 'K' := by simpa using hc
  rcases this with rfl | rfl <;> rfl

theorem build_response_data {J : Type} (X : Externals J) (sender state msg msg_key : String) :
    (build_response X sender state msg msg_key none).data =
      '\x7b' :: (memberText X.isPrintHi "sender".data sender.data ++ ',' ::
        (memberText X.isPrintHi "state".data (if state = "" then "OK" else state).data ++ ',' ::
          (memberText X.isPrintHi "msg".data msg.data ++ ',' ::
            (memberText X.isPrintHi "msg_key".data msg_key.data ++ [' ', '\x7d'])))) := by
  simp only [build_response, goQuote, memberText, String.data_append, List.append_assoc,
    List.cons_append, List.nil_append]

/-- What `build_response` returns without data is, for strings that `%q`
writes as JSON reads them, the JSON object with exactly the fields sender,
state, msg and msg_key, with the values given (state "OK" for the empty
state). -/
theorem build_response_is_json {J : Type} (X : Externals J)
    (sender state msg msg_key : String)
    (h1 : jsonQuotable X.isPrintHi sender) (h2 : jsonQuotable X.isPrintHi state)
    (h3 : jsonQuotable X.isPrintHi msg) (h4 : jsonQuotable X.isPrintHi msg_key) :
    parseJson (build_response X sender state msg msg_key none) =
      some (Json.obj [("sender", Json.str sender),
        ("state", Json.str (if state = "" then "OK" else state)),
        ("msg", Json.str msg), ("msg_key", Json.str msg_key)]) := by
  have h2b : jsonQuotable X.isPrintHi (if state = "" then "OK" else state) := by
    split
    · exact jsonQuotable_OK _
    · exact h2
  have hlen : 5 ≤ (build_response X sender state msg msg_key none).length := by
    show 5 ≤ (build_response X sender state msg msg_key none).data.length
    rw [build_response_data]
    simp [memberText]
  obtain ⟨n, hn⟩ : ∃ n, (build_response X sender state msg msg_key none).length + 1 = n + 6 :=
    ⟨(build_response X sender state msg msg_key none).length - 5, by omega⟩
  unfold parseJson
  rw [hn, build_response_data]
  rw [parseValue_object (n + 5) _ _ '"' _ (skipWs_of_not_ws _ _ (by decide))
    (skipWs_memberText _ _ _ _) (by decide)]
  rw [parseMembers_memberText _ _ _ (by decide) h1]
  simp only [skipWs_of_not_ws ',' _ (by decide : isWs ',' = false), if_true]
  rw [parseMembers_memberText _ _ _ (by decide) h2b]
  simp only [skipWs_of_not_ws ',' _ (by decide : isWs ',' = false), if_true]
  rw [parseMembers_memberText _ _ _ (by decide) h3]
  simp only [skipWs_of_not_ws ',' _ (by decide : isWs ',' = false), if_true]
  rw [parseMembers_memberText _ _ _ (by decide) h4]
  simp [skipWs, isWs]

theorem mk_vfd_request_data (hi : Char → Bool) (action : String) (fname data : Option String)
    (fifo key : String) :
    (mk_vfd_request hi action fname data fifo key).data =
      requestText hi action fname data fifo key ++ ['\n', '\n'] := by
  cases fname <;> cases data <;>
    simp only [mk_vfd_request, goQuote, memberText, paramsText, requestText,
      String.data_append, List.append_assoc, List.cons_append, List.nil_append]

theorem skipWs_paramsText (hi : Char → Bool) (fname data : Option String) (fifo key : String)
    (rest : List Char) :
    ∃ r, skipWs (paramsText hi fname data fifo key ++ rest) = '"' :: r := by
  cases fname <;> cases data <;>
    simp only [paramsText, List.append_assoc, List.nil_append, skipWs_memberText] <;>
    exact ⟨_, rfl⟩

theorem parseMembers_paramsText (hi : Char → Bool) (fname data : Option String)
    (fifo key : String)
    (hf : ∀ f, fname = some f → jsonQuotable hi f) (hd : ∀ d, data = some d → jsonQuotable hi d)
    (hfifo : jsonQuotable hi fifo) (hkey : jsonQuotable hi key) (g : Nat) (rest : List Char) :
    parseMembers (g + 5) (paramsText hi fname data fifo key ++ '\x7d' :: rest) =
      some (expectedParams fname data fifo key, rest) := by
  have tail : ∀ m, parseMembers (m + 3)
      (memberText hi "r_fifo".data fifo.data ++ ',' ::
        (memberText hi "vfd_rid".data key.data ++ '\x7d' :: rest)) =
      some ([("r_fifo", Json.str fifo), ("vfd_rid", Json.str key)], rest) := by
    intro m
    rw [parseMembers_memberText _ _ _ (by decide) hfifo]
    simp only [skipWs_of_not_ws ',' _ (by decide : isWs ',' = false), if_true]
    rw [parseMembers_memberText _ _ _ (by decide) hkey]
    simp only [skipWs_of_not_ws '\x7d' _ (by decide : isWs '\x7d' = false)]
    simp
  cases fname with
  | none =>
    cases data with
    | none =>
      simp only [paramsText, expectedParams, List.append_assoc, List.nil_append,
        List.cons_append]
      exact tail (g + 2)
    | some d =>
      simp only [paramsText, expectedParams, List.append_assoc, List.nil_append,
        List.cons_append]
      rw [parseMembers_memberText _ _ _ (by decide) (hd d rfl)]
      simp only [skipWs_of_not_ws ',' _ (by decide : isWs ',' = false), if_true]
      rw [tail (g + 1)]
      rfl
  | some f =>
    cases data with
    | none =>
      simp only [paramsText, expectedParams, List.append_assoc, List.nil_append,
        List.cons_append]
      rw [parseMembers_memberText _ _ _ (by decide) (hf f rfl)]
      simp only [skipWs_of_not_ws ',' _ (by decide : isWs ',' = false), if_true]
      rw [tail (g + 1)]
      rfl
    | some d =>
      simp only [paramsText, expectedParams, List.append_assoc, List.nil_append,
        List.cons_append]
      rw [parseMembers_memberText _ _ _ (by decide) (hf f rfl)]
      simp only [skipWs_of_not_ws ',' _ (by decide : isWs ',' = false), if_true]
      rw [parseMembers_memberText _ _ _ (by decide) (hd d rfl)]
      simp only [skipWs_of_not_ws ',' _ (by decide : isWs ',' = false), if_true]
      rw [tail g]
      rfl

theorem parseValue_request (hi : Char → Bool) (action : String) (fname data : Option String)
    (fifo key : String) (ha : jsonQuotable hi action)
    (hf : ∀ f, fname = some f → jsonQuotable hi f) (hd : ∀ d, data = some d → jsonQuotable hi d)
    (hfifo : jsonQuotable hi fifo) (hkey : jsonQuotable hi key) (g : Nat) :
    parseValue (g + 9) (requestText hi action fname data fifo key) =
      some (Json.obj [("action", Json.str action),
        ("params", Json.obj (expectedParams fname data fifo key))], []) := by
  obtain ⟨r, hr⟩ := skipWs_paramsText hi fname data fifo key ['\x7d', '\x7d']
  unfold requestText
  rw [parseValue_object (g + 8) _ _ '"' _ (skipWs_of_not_ws _ _ (by decide))
    (skipWs_memberText _ _ _ _) (by decide)]
  rw [parseMembers_memberText _ _ _ (by decide) ha]
  simp only [skipWs_of_not_ws ',' _ (by decide : isWs ',' = false), if_true]
  rw [parseMembers_objectMember _ (by decide) (g + 5) _ '"' r hr (by decide)]
  rw [parseMembers_paramsText hi fname data fifo key hf hd hfifo hkey]
  simp only [skipWs_of_not_ws '\x7d' _ (by decide : isWs '\x7d' = false)]
  simp

/-- What `mk_vfd_request` returns is, for strings that `%q` writes as JSON
reads them, a text that ends in two newlines and before them is the JSON
object with `action` as given and a `params` object that has `filename` and
`resource` exactly when they are given, and `r_fifo` and `vfd_rid` always. -/
theorem mk_vfd_request_is_json (hi : Char → Bool) (action : String)
    (fname data : Option String) (fifo key : String) (ha : jsonQuotable hi action)
    (hf : ∀ f, fname = some f → jsonQuotable hi f) (hd : ∀ d, data = some d → jsonQuotable hi d)
    (hfifo : jsonQuotable hi fifo) (hkey : jsonQuotable hi key) :
    ∃ body : String, mk_vfd_request hi action fname data fifo key = body ++ "\n\n" ∧
      parseJson body = some (Json.obj [("action", Json.str action),
        ("params", Json.obj (expectedParams fname data fifo key))]) := by
  refine ⟨String.mk (requestText hi action fname data fifo key), ?_, ?_⟩
  · apply String.ext
    rw [mk_vfd_request_data]
    simp [String.data_append]
  · unfold parseJson
    have hlen : ∃ g, (String.mk (requestText hi action fname data fifo key)).length + 1 =
        g + 9 := by
      refine ⟨(String.mk (requestText hi action fname data fifo key)).length - 8, ?_⟩
      have : 8 ≤ (String.mk (requestText hi action fname data fifo key)).length := by
        simp [String.length, requestText, memberText]
      omega
    obtain ⟨g, hg⟩ := hlen
    rw [hg]
    simp only []
    rw [parseValue_request hi action fname data fifo key ha hf hd hfifo hkey g]
    simp [skipWs]

theorem quoteBody_ERROR (hi : Char → Bool) : quoteBody hi "ERROR".data = "ERROR".data := rfl

theorem quoteBody_timeout (hi : Char → Bool) :
    quoteBody hi "timeout: no response from VFd".data = "timeout: no response from VFd".data :=
  rfl

theorem jsonQuotable_of_plain (hi : Char → Bool) (s : String)
    (hs : ∀ c ∈ s.data, 0x20 ≤ c.toNat ∧ c.toNat ≤ 0x7E ∧ c ≠ '"' ∧ c ≠ '\\') :
    jsonQuotable hi s := by
  intro c hc
  obtain ⟨h1, h2, h3, h4⟩ := hs c hc
  have hp : IsPrint hi c = true := by
    unfold IsPrint
    rw [if_pos (by omega), if_pos ⟨h1, h2⟩]
  simp [quotesAsJson, appendEscapedRune, h3, h4, hp]

theorem jsonQuotable_ERROR (hi : Char → Bool) : jsonQuotable hi "ERROR" :=
  jsonQuotable_of_plain hi "ERROR" (by decide)

theorem timeout_rdata_data (hi : Char → Bool) (sid msg_key : String) :
    (timeout_rdata hi sid msg_key).data =
      '\x7b' :: (memberText hi "sender".data sid.data ++ ',' ::
        (memberText hi "state".data "ERROR".data ++ ',' ::
          (memberText hi "msg_key".data msg_key.data ++ ',' ::
            (memberText hi "msg".data "timeout: no response from VFd".data ++
              [' ', '\x7d'])))) := by
  simp only [timeout_rdata, goQuote, memberText, String.data_append, List.append_assoc,
    List.cons_append, List.nil_append, quoteBody_ERROR, quoteBody_timeout]
  rfl

/-- The timeout envelope is, for a sender id and a `msg_key` that `%q` writes
as JSON reads them, the JSON object with the fields sender, state "ERROR",
msg_key as given, and the timeout message. -/
theorem timeout_rdata_is_json (hi : Char → Bool) (sid msg_key : String)
    (h1 : jsonQuotable hi sid) (h2 : jsonQuotable hi msg_key) :
    parseJson (timeout_rdata hi sid msg_key) =
      some (Json.obj [("sender", Json.str sid), ("state", Json.str "ERROR"),
        ("msg_key", Json.str msg_key), ("msg", Json.str "timeout: no response from VFd")]) := by
  have hlen : 5 ≤ (timeout_rdata hi sid msg_key).length := by
    show 5 ≤ (timeout_rdata hi sid msg_key).data.length
    rw [timeout_rdata_data]
    simp [memberText]
  obtain ⟨n, hn⟩ : ∃ n, (timeout_rdata hi sid msg_key).length + 1 = n + 6 :=
    ⟨(timeout_rdata hi sid msg_key).length - 5, by omega⟩
  unfold parseJson
  rw [hn, timeout_rdata_data]
  rw [parseValue_object (n + 5) _ _ '"' _ (skipWs_of_not_ws _ _ (by decide))
    (skipWs_memberText _ _ _ _) (by decide)]
  rw [parseMembers_memberText _ _ _ (by decide) h1]
  simp only [skipWs_of_not_ws ',' _ (by decide : isWs ',' = false), if_true]
  rw [parseMembers_memberText _ _ _ (by decide) (jsonQuotable_ERROR hi)]
  simp only [skipWs_of_not_ws ',' _ (by decide : isWs ',' = false), if_true]
  rw [parseMembers_memberText _ _ _ (by decide) h2]
  simp only [skipWs_of_not_ws ',' _ (by decide : isWs ',' = false), if_true]
  rw [parseMembers_memberText _ _ _ (by decide)
    (jsonQuotable_of_plain hi "timeout: no response from VFd" (by decide))]
  simp [skipWs, isWs]

/-! ## The collector: the request it queues -/

/-- C17: for every delivery whose body `Json2tree` reads, with the flag
`FL_forreal` set (no-exec off), the collector queues exactly one Request: its
`Exch_key` is the body's `exch_key` string if there is one and the delivery's
correlation id otherwise, its `Msg_key` the body's `msg_key` string if there
is one and "none-given" otherwise, its `Source` the name of the exchange, its
`Resp_ch` the channel of the broker writer. A body that does not parse, or
any delivery when the flag is off, queues nothing. -/
theorem collector_queues_one_request {J : Type} (X : Externals J) (ctx : context)
    (ch_name rid : String) (msg : Delivery) :
    (∀ jt, X.Json2tree msg.Body = some jt → ctx.forreal = true →
      collector X ctx ch_name rid msg =
        [{ Rid := rid, Exch_key := (X.Get_string jt "exch_key").getD msg.CorrelationId,
           Msg_key := (X.Get_string jt "msg_key").getD "none-given", Source := ch_name,
           Jtree := jt, Resp_ch := ctx.rmqw_ch, Single_use := false }]) ∧
    ((X.Json2tree msg.Body = none ∨ ctx.forreal = false) →
      collector X ctx ch_name rid msg = []) := by
  constructor
  · intro jt hj hf
    simp only [collector, hj, hf, if_true]
    cases X.Get_string jt "exch_key" <;> cases X.Get_string jt "msg_key" <;> rfl
  · rintro (h | h)
    · simp [collector, h]
    · cases hj : X.Json2tree msg.Body <;> simp [collector, hj, h]

/-- C17, at a delivery with a `msg_key` and no `exch_key`: the request takes
the correlation id as `Exch_key`. -/
theorem collector_queues_one_request_witness :
    (collector jsonExternals exampleCtx "tokay_req" "r-17" exampleDelivery).map
        (fun r => (r.Rid, r.Exch_key, r.Msg_key, r.Source, r.Resp_ch)) =
      [("r-17", "corr-17", "u17", "tokay_req", 7)] ∧
    collector jsonExternals { exampleCtx with forreal := false } "tokay_req" "r-17"
      exampleDelivery = [] := by
  have h := collector_queues_one_request jsonExternals exampleCtx "tokay_req" "r-17"
    exampleDelivery
  have h2 := collector_queues_one_request jsonExternals { exampleCtx with forreal := false }
    "tokay_req" "r-17" exampleDelivery
  refine ⟨?_, h2.2 (Or.inr rfl)⟩
  rw [h.1 (Json.obj [("action", Json.str "ping"), ("msg_key", Json.str "u17")]) rfl rfl]
  decide

/-! ## The serialiser: missing fields, `add`, and `response` -/

/-- C18 as stated fails: for the `mirror` request without `req_data`, the
message of the ERROR envelope is "request dropped: pf/vf/direction/target data
missing, or was not a string", in which the name `req_data` of the missing
field does not occur. -/
theorem mirror_message_does_not_name_req_data :
    (serialiser jsonExternals exampleCtx "tokay v1.0/18420" sysOk mirrorReq).resp_ch.map
        (fun r => (r.Wait, r.Rdata, occursIn "req_data" r.Rdata)) =
      [(false, "\x7b \"sender\": \"host_4242\", \"state\": \"ERROR\", \"msg\": " ++
        "\"request dropped: pf/vf/direction/target data missing, or was not a string\", " ++
        "\"msg_key\": \"u18\" \x7d", false)] := by
  decide

/-- C18 (amended): for every request that lacks a field its action requires,
the serialiser writes nothing to the request pipe and queues one block with
`Wait` false whose `Rdata` is the ERROR envelope with the message "request
dropped: " followed by "no target field in request" (add, del or delete
without `target`), by "no req_data field in request" (add with `target` and
without a `req_data` subtree), or by "pf/vf/direction/target data missing, or
was not a string" (mirror without a string `req_data`). -/
theorem missing_field_is_dropped {J : Type} (X : Externals J) (ctx : context)
    (version : String) (sys : SysCalls) (req : Request J) (a : String)
    (hs : X.Get_string req.Jtree "sender" ≠ some ctx.sid)
    (ha : X.Get_string req.Jtree "action" = some a)
    (hq : ctx.resp_ch = true) :
    ((a = "add" ∨ a = "del" ∨ a = "delete") → X.Get_string req.Jtree "target" = none →
      DroppedWith X ctx req (serialiser X ctx version sys req) "no target field in request") ∧
    (a = "add" → X.Get_string req.Jtree "target" ≠ none →
      X.Get_subtree req.Jtree "req_data" = none →
      DroppedWith X ctx req (serialiser X ctx version sys req)
        "no req_data field in request") ∧
    (a = "mirror" → X.Get_string req.Jtree "req_data" = none →
      DroppedWith X ctx req (serialiser X ctx version sys req)
        "pf/vf/direction/target data missing, or was not a string") := by
  refine ⟨?_, ?_, ?_⟩
  · rintro (rfl | rfl | rfl) ht <;>
      simp [DroppedWith, serialiser, hs, ha, hq, serialiser_switch, ht]
  · rintro rfl ht hd
    cases ht2 : X.Get_string req.Jtree "target" with
    | none => exact absurd ht2 ht
    | some t => simp [DroppedWith, serialiser, hs, ha, hq, serialiser_switch, ht2, hd]
  · rintro rfl hd
    simp [DroppedWith, serialiser, hs, ha, hq, serialiser_switch, hd]

/-- C18 (amended), at the `mirror` request without `req_data`. -/
theorem missing_field_is_dropped_witness :
    DroppedWith jsonExternals exampleCtx mirrorReq
      (serialiser jsonExternals exampleCtx "tokay v1.0/18420" sysOk mirrorReq)
      "pf/vf/direction/target data missing, or was not a string" :=
  (missing_field_is_dropped jsonExternals exampleCtx "tokay v1.0/18420" sysOk mirrorReq
    "mirror" (by decide) (by decide) rfl).2.2 rfl (by decide)

theorem mk_vfd_request_ne_empty (hi : Char → Bool) (action : String)
    (fname data : Option String) (fifo key : String) :
    mk_vfd_request hi action fname data fifo key ≠ "" := by
  intro e
  have h := congrArg String.data e
  rw [mk_vfd_request_data] at h
  simp at h

/-- C19: for every add request with target `t` and a `req_data` subtree, when
the file is created and written, the serialiser leaves the serialised subtree
in the file `<cdir>/<t>.json`, and the fifo buffer it builds is
`mk_vfd_request` of "add", that same path as filename, no resource, the
response fifo and the request's rid; when the write to the request pipe
succeeds too, that buffer is what reaches the pipe. -/
theorem add_stashes_config_and_names_the_file {J : Type} (X : Externals J) (ctx : context)
    (version : String) (sys : SysCalls) (req : Request J) (t : String) (data : J)
    (hs : X.Get_string req.Jtree "sender" ≠ some ctx.sid)
    (ha : X.Get_string req.Jtree "action" = some "add")
    (ht : X.Get_string req.Jtree "target" = some t)
    (hd : X.Get_subtree req.Jtree "req_data" = some data)
    (hc : sys.create = none) (hw : sys.file_write = IoResult.ok) :
    (serialiser X ctx version sys req).files =
      [(ctx.cdir ++ "/" ++ t ++ ".json", X.Frock data)] ∧
    (serialiser_switch X ctx version sys req "add" (some t)
        (build_response X ctx.sid "ERROR" "request timeout" req.Msg_key none)).fifo_buffer =
      mk_vfd_request X.isPrintHi "add" (some (ctx.cdir ++ "/" ++ t ++ ".json")) none
        ctx.resp_fifo req.Rid ∧
    (sys.fifo_write = IoResult.ok →
      (serialiser X ctx version sys req).fifo =
        mk_vfd_request X.isPrintHi "add" (some (ctx.cdir ++ "/" ++ t ++ ".json")) none
          ctx.resp_fifo req.Rid) := by
  have hst : stash_vf_cfg ctx sys t (X.Frock data) =
      (Except.ok (ctx.cdir ++ "/" ++ t ++ ".json"),
        [(ctx.cdir ++ "/" ++ t ++ ".json", X.Frock data)]) := by
    by_cases he : X.Frock data = ""
    · simp [stash_vf_cfg, hc, he]
    · simp [stash_vf_cfg, hc, hw, he]
  have hsw : serialiser_switch X ctx version sys req "add" (some t)
      (build_response X ctx.sid "ERROR" "request timeout" req.Msg_key none) =
      ⟨mk_vfd_request X.isPrintHi "add" (some (ctx.cdir ++ "/" ++ t ++ ".json")) none
        ctx.resp_fifo req.Rid, "", build_response X ctx.sid "ERROR" "request timeout"
          req.Msg_key none, [(ctx.cdir ++ "/" ++ t ++ ".json", X.Frock data)]⟩ := by
    simp [serialiser_switch, hd, hst]
  refine ⟨?_, by rw [hsw], ?_⟩
  · simp only [serialiser, hs, ha, ht, if_false, hsw]
  · intro hf
    simp only [serialiser, hs, ha, ht, if_false, hsw, hf]
    rw [if_pos (mk_vfd_request_ne_empty _ _ _ _ _ _)]

/-- C19, at the request of scenario 1: the file is `vfA.json` in the
configuration directory and holds the subtree; the pipe gets the add request
that names it. -/
theorem add_stashes_config_and_names_the_file_witness :
    (serialiser jsonExternals exampleCtx "tokay v1.0/18420" sysOk addReq).files =
      [("/var/lib/vfd/config/vfA.json", "\x7b\"x\":1\x7d")] ∧
    (serialiser jsonExternals exampleCtx "tokay v1.0/18420" sysOk addReq).fifo =
      mk_vfd_request jsonExternals.isPrintHi "add" (some "/var/lib/vfd/config/vfA.json") none
        "/var/lib/vfd/fifos/tokay.fifo" "r-1" := by
  have h := add_stashes_config_and_names_the_file jsonExternals exampleCtx "tokay v1.0/18420"
    sysOk addReq "vfA" (Json.obj [("x", Json.num "1")]) (by decide) (by decide) (by decide)
    rfl rfl rfl
  exact ⟨h.1.trans (by decide), (h.2.2 rfl).trans (by decide)⟩

/-- C20 (the code does otherwise): for every request whose action is
"response" and whose sender is not the bridge's own id, the serialiser writes
nothing to the request pipe, but it does not ignore the request: it queues a
block with `Wait` false whose `Rdata` is the ERROR envelope with the message
"request dropped: ", which the responder then sends. -/
theorem response_action_gets_error_reply {J : Type} (X : Externals J) (ctx : context)
    (version : String) (sys : SysCalls) (req : Request J)
    (hs : X.Get_string req.Jtree "sender" ≠ some ctx.sid)
    (ha : X.Get_string req.Jtree "action" = some "response")
    (hq : ctx.resp_ch = true) :
    (serialiser X ctx version sys req).fifo = "" ∧
    ∃ r, (serialiser X ctx version sys req).resp_ch = [r] ∧ r.Wait = false ∧
      r.Rdata = build_response X ctx.sid "ERROR" "request dropped: " req.Msg_key none ∧
      ∀ st now, responder X ctx st (Event.response now r) =
        Except.ok
          (⟨st.pending_resp,
              (match GoMap.get st.unmatched req.Rid with
                | some _ => GoMap.delete st.unmatched req.Rid
                | none => st.unmatched)⟩,
            ⟨[(req.Resp_ch,
                ⟨build_response X ctx.sid "ERROR" "request dropped: " req.Msg_key none,
                  req.Exch_key⟩)],
              (match GoMap.get st.unmatched req.Rid with
                | some b => [b]
                | none => [])⟩) := by
  refine ⟨by simp [serialiser, hs, ha, hq, serialiser_switch], ?_⟩
  refine ⟨_, by simp [serialiser, hs, ha, hq, serialiser_switch]; rfl, rfl, ?_, ?_⟩
  · simp
  · intro st now
    simp only [responder]
    cases GoMap.get st.unmatched req.Rid <;> simp

/-- C20, at a request with action "response": the reply that goes to the
broker has state "ERROR". -/
theorem response_action_gets_error_reply_witness :
    (serialiser jsonExternals exampleCtx "tokay v1.0/18420" sysOk responseReq).fifo = "" ∧
    (serialiser jsonExternals exampleCtx "tokay v1.0/18420" sysOk responseReq).resp_ch.map
        (fun r => (r.Wait, r.Rdata)) =
      [(false, "\x7b \"sender\": \"host_4242\", \"state\": \"ERROR\", " ++
        "\"msg\": \"request dropped: \", \"msg_key\": \"u20\" \x7d")] := by
  obtain ⟨h1, r, h2, h3, h4, -⟩ := response_action_gets_error_reply jsonExternals exampleCtx
    "tokay v1.0/18420" sysOk responseReq (by decide) (by decide) rfl
  refine ⟨h1, ?_⟩
  rw [h2]
  simp [h3, h4]
  decide

/-! ## The response reader -/

theorem line_ne_sentinel (l : String) (h : l ≠ "@eom@") : l ++ "\n" ≠ "@eom@\n" := by
  intro e
  apply h
  have h2 : l.data ++ ['\n'] = "@eom@".data ++ ['\n'] := by
    have := congrArg String.data e
    simpa [String.data_append] using this
  exact String.ext (List.append_cancel_right h2)

theorem resp_reader_lines (lines : List String) (hl : ∀ l ∈ lines, l ≠ "@eom@")
    (rest : List ReadResult) :
    ∀ acc : String, ∃ blob : String,
      resp_reader (lines.map (fun l => ReadResult.ok (l ++ "\n")) ++
        ReadResult.ok "@eom@\n" :: rest) acc = blob :: resp_reader rest "" ∧
      blob.data = acc.data ++ lines.flatMap (fun l => l.data ++ ['\n', '\n']) := by
  induction lines with
  | nil =>
    intro acc
    exact ⟨acc, by simp [resp_reader], by simp⟩
  | cons l lines ih =>
    intro acc
    have hne := line_ne_sentinel l (hl l (List.mem_cons_self _ _))
    have hlen : 0 < (l ++ "\n").length := by
      rw [String.length_append]
      exact Nat.lt_of_lt_of_le (by decide : 0 < "\n".length) (Nat.le_add_left _ _)
    obtain ⟨blob, h1, h2⟩ := ih (fun m hm => hl m (List.mem_cons_of_mem _ hm))
      (acc ++ (l ++ "\n" ++ "\n"))
    refine ⟨blob, ?_, ?_⟩
    · simp only [List.map_cons, List.cons_append, resp_reader, hne, if_false, hlen, if_true]
      exact h1
    · rw [h2]
      simp [String.data_append, List.append_assoc]

theorem linesOf_line (l : List Char) (hl : '\n' ∉ l) (rest : List Char) :
    linesOf (l ++ '\n' :: rest) = l :: linesOf rest := by
  induction l with
  | nil => simp [linesOf]
  | cons c l ih =>
    have hc : c ≠ '\n' := fun e => hl (by simp [e])
    have hl2 : '\n' ∉ l := fun h => hl (List.mem_cons_of_mem _ h)
    simp [linesOf, hc, ih hl2]

theorem linesOf_doubled (lines : List String) (hl : ∀ l ∈ lines, '\n' ∉ l.data) :
    linesOf (lines.flatMap (fun l => l.data ++ ['\n', '\n'])) =
      lines.flatMap (fun l => [l.data, []]) := by
  induction lines with
  | nil => simp [linesOf]
  | cons l lines ih =>
    have h1 := hl l (List.mem_cons_self _ _)
    have h2 := ih (fun m hm => hl m (List.mem_cons_of_mem _ hm))
    simp only [List.flatMap_cons, List.append_assoc, List.cons_append, List.nil_append]
    rw [linesOf_line l.data h1]
    have h3 := linesOf_line [] (by simp) (lines.flatMap (fun l => l.data ++ ['\n', '\n']))
    rw [List.nil_append] at h3
    rw [h3, h2]

theorem sublist_doubled (lines : List String) :
    List.Sublist (lines.map String.data) (lines.flatMap (fun l => [l.data, []])) := by
  induction lines with
  | nil => simp
  | cons l lines ih =>
    simp only [List.map_cons, List.flatMap_cons, List.cons_append, List.nil_append]
    exact List.Sublist.cons₂ _ (List.Sublist.cons _ ih)

/-- C15: for every sequence of lines, none of them "@eom@", each read with
its newline, followed by the line "@eom@", the response reader (starting a
blob) sends exactly one blob and goes on with an empty buffer for what is
read next; the lines of the blob contain those lines, blank ones too, in
order, and no line of the blob is the sentinel. -/
theorem reader_sends_one_blob_per_sentinel (lines : List String) (rest : List ReadResult)
    (hl : ∀ l ∈ lines, l ≠ "@eom@" ∧ '\n' ∉ l.data) :
    ∃ blob : String,
      resp_reader (lines.map (fun l => ReadResult.ok (l ++ "\n")) ++
        ReadResult.ok "@eom@\n" :: rest) "" = blob :: resp_reader rest "" ∧
      List.Sublist (lines.map String.data) (linesOf blob.data) ∧
      "@eom@".data ∉ linesOf blob.data := by
  obtain ⟨blob, h1, h2⟩ := resp_reader_lines lines (fun l h => (hl l h).1) rest ""
  have h3 : linesOf blob.data = lines.flatMap (fun l => [l.data, []]) := by
    rw [h2]
    simpa using linesOf_doubled lines (fun l h => (hl l h).2)
  refine ⟨blob, h1, ?_, ?_⟩
  · rw [h3]; exact sublist_doubled lines
  · rw [h3]
    intro hm
    obtain ⟨l, hlm, hx⟩ := List.mem_flatMap.mp hm
    simp only [List.mem_cons, List.mem_singleton, List.not_mem_nil, or_false] at hx
    rcases hx with hx | hx
    · exact (hl l hlm).1 (String.ext hx.symm)
    · exact absurd hx (by decide)

/-- C15, for a blob of three lines, the second blank, with more to read
after the sentinel. -/
theorem reader_sends_one_blob_per_sentinel_witness :
    (∀ l ∈ ["\x7b \"action\": \"response\",", "", " \"vfd_rid\": \"r-4\" \x7d"],
      l ≠ "@eom@" ∧ '\n' ∉ l.data) ∧
    ∃ blob : String,
      resp_reader ((["\x7b \"action\": \"response\",", "", " \"vfd_rid\": \"r-4\" \x7d"].map
        (fun l => ReadResult.ok (l ++ "\n"))) ++
          ReadResult.ok "@eom@\n" :: [ReadResult.ok "x\n"]) "" =
        blob :: resp_reader [ReadResult.ok "x\n"] "" ∧
      List.Sublist
        (["\x7b \"action\": \"response\",", "", " \"vfd_rid\": \"r-4\" \x7d"].map String.data)
        (linesOf blob.data) ∧
      "@eom@".data ∉ linesOf blob.data :=
  ⟨by decide, reader_sends_one_blob_per_sentinel _ _ (by decide)⟩

/-- C16 (the code does otherwise): after a read of the response pipe has
returned an error, the reader sends the blob it has and reads again; every
further read that returns the error makes it send one more (empty) blob. For
every `n`, `n` further failing reads are all performed and give `n` further
blobs: the reader does not end. -/
theorem reader_goes_on_after_read_error (n : Nat) (e jblob : String) :
    resp_reader (ReadResult.err e :: List.replicate n (ReadResult.err e)) jblob =
      jblob :: List.replicate n "" := by
  have h : ∀ m, resp_reader (List.replicate m (ReadResult.err e)) "" = List.replicate m "" := by
    intro m
    induction m with
    | zero => rfl
    | succ m ih => simp [List.replicate_succ, resp_reader, ih]
  simp [resp_reader, h]

/-! ## The responder: the timeout sweep -/

theorem GoMap.isSome_get_of_mem {V : Type} (m : GoMap V) (k : String) (v : V)
    (h : (k, v) ∈ m) : (GoMap.get m k).isSome = true := by
  induction m with
  | nil => simp at h
  | cons e es ih =>
    obtain ⟨a, b⟩ := e
    by_cases hk : k = a
    · subst hk; simp [GoMap.get, List.lookup_cons]
    · have h2 : (k == a) = false := by simpa using hk
      have h3 : (k, v) ∈ es := by
        rcases List.mem_cons.mp h with h | h
        · exact absurd (congrArg Prod.fst h) hk
        · exact h
      simpa [GoMap.get, List.lookup_cons, h2] using ih h3

theorem GoMap.delete_eq_self {V : Type} (m : GoMap V) (k : String)
    (h : k ∉ m.map Prod.fst) : GoMap.delete m k = m := by
  unfold GoMap.delete
  rw [List.filter_eq_self]
  intro e he
  have : e.1 ≠ k := fun h2 => h (h2 ▸ List.mem_map_of_mem Prod.fst he)
  simpa using this

theorem GoMap.get_eq_none {V : Type} (m : GoMap V) (k : String)
    (h : k ∉ m.map Prod.fst) : GoMap.get m k = none := by
  induction m with
  | nil => rfl
  | cons e es ih =>
    obtain ⟨a, b⟩ := e
    have h1 : k ≠ a := fun e => h (by simp [e])
    have h2 : (k == a) = false := by simpa using h1
    have h3 : k ∉ es.map Prod.fst := fun hm => h (by simp at hm ⊢; exact Or.inr hm)
    simpa [GoMap.get, List.lookup_cons, h2] using ih h3

theorem GoMap.get_of_mem_nodup {V : Type} (m : GoMap V) (k : String) (v : V)
    (hnd : (m.map Prod.fst).Nodup) (h : (k, v) ∈ m) : GoMap.get m k = some v := by
  induction m with
  | nil => simp at h
  | cons e es ih =>
    obtain ⟨a, b⟩ := e
    simp only [List.map_cons, List.nodup_cons] at hnd
    rcases List.mem_cons.mp h with h | h
    · cases h; simp [GoMap.get, List.lookup_cons]
    · have hk : k ≠ a := fun e => hnd.1 (e ▸ List.mem_map_of_mem Prod.fst h)
      have h2 : (k == a) = false := by simpa using hk
      simpa [GoMap.get, List.lookup_cons, h2] using ih hnd.2 h

theorem sweep_eq {J : Type} (hi : Char → Bool) (sid : String) (now : Int)
    (todo : List (String × Response J)) :
    ∀ (kept : List (String × Response J)) (sent : List (Nat × Mq_msg)),
      ((kept ++ todo).map Prod.fst).Nodup → (∀ e ∈ todo, e.1 = e.2.Rid) →
      sweep hi sid now todo (kept ++ todo) sent =
        (kept ++ todo.filter (fun e => ¬ e.2.Tstamp < now),
          sent ++ (todo.filter (fun e => e.2.Tstamp < now)).map
            (fun e => timeout_msg hi sid e.2)) := by
  induction todo with
  | nil => intro kept sent _ _; simp [sweep]
  | cons e todo ih =>
    intro kept sent hnd hk
    obtain ⟨k, r⟩ := e
    have hkr : k = r.Rid := hk (k, r) (List.mem_cons_self _ _)
    have hk2 : ∀ e ∈ todo, e.1 = e.2.Rid := fun e he => hk e (List.mem_cons_of_mem _ he)
    have hsome : (GoMap.get (kept ++ (k, r) :: todo) k).isSome = true :=
      GoMap.isSome_get_of_mem _ _ r (by simp)
    have hnd2 : ((kept ++ todo).map Prod.fst).Nodup := by
      simp only [List.map_append, List.map_cons] at hnd ⊢
      exact (List.nodup_cons.mp (List.nodup_middle.mp hnd)).2
    have hnotin : k ∉ (kept ++ todo).map Prod.fst := by
      simp only [List.map_append, List.map_cons] at hnd ⊢
      exact (List.nodup_cons.mp (List.nodup_middle.mp hnd)).1
    simp only [sweep, hsome, true_and]
    by_cases hexp : r.Tstamp < now
    · have hdel : GoMap.delete (kept ++ (k, r) :: todo) r.Rid = kept ++ todo := by
        rw [← hkr]
        have h1 := GoMap.delete_eq_self (kept ++ todo) k hnotin
        unfold GoMap.delete at h1 ⊢
        rw [List.filter_append] at h1 ⊢
        rw [List.filter_cons]
        simpa using h1
      rw [if_pos hexp, hdel, ih kept _ hnd2 hk2]
      simp [List.filter_cons, hexp, timeout_msg]
    · rw [if_neg hexp]
      have e1 : kept ++ (k, r) :: todo = (kept ++ [(k, r)]) ++ todo := by simp
      rw [e1, ih (kept ++ [(k, r)]) sent (by rw [← e1]; exact hnd) hk2]
      have hle : now ≤ r.Tstamp := not_lt.mp hexp
      simp [List.filter_cons, hexp, hle]

theorem keyedByRid_filter {J : Type} (m : GoMap (Response J)) (p : String × Response J → Bool)
    (h : KeyedByRid m) : KeyedByRid (m.filter p) :=
  ⟨(List.filter_sublist m).map Prod.fst |>.nodup h.1,
    fun e he => h.2 e (List.mem_filter.mp he).1⟩

theorem responder_keeps_keyedByRid {J : Type} (X : Externals J) (ctx : context)
    (st st1 : RespState J) (e : Event J) (out : RespOut)
    (inv : KeyedByRid st.pending_resp)
    (h : responder X ctx st e = Except.ok (st1, out)) : KeyedByRid st1.pending_resp := by
  cases e with
  | tickle now =>
    simp only [responder] at h
    have hs := sweep_eq X.isPrintHi ctx.sid now st.pending_resp [] [] (by simpa using inv.1)
      inv.2
    simp only [List.nil_append] at hs
    rw [hs] at h
    injection h with h; injection h with h1 h2
    subst h1
    exact keyedByRid_filter _ _ inv
  | blob msg =>
    simp only [responder] at h
    split at h
    · injection h with h; injection h with h1 h2; subst h1; exact inv
    · split at h
      · split_ifs at h with hact
        · split at h
          · split at h
            · exact Except.noConfusion h
            · injection h with h; injection h with h1 h2; subst h1
              exact keyedByRid_filter _ _ inv
          · injection h with h; injection h with h1 h2; subst h1; exact inv
        · injection h with h; injection h with h1 h2; subst h1; exact inv
      · injection h with h; injection h with h1 h2; subst h1; exact inv
  | response now msg =>
    simp only [responder] at h
    split_ifs at h with hw
    · injection h with h; injection h with h1 h2; subst h1
      have hd := keyedByRid_filter st.pending_resp (fun e => e.1 ≠ msg.Rid) inv
      refine ⟨?_, ?_⟩
      · simp only [GoMap.set, List.map_cons, List.nodup_cons]
        refine ⟨?_, hd.1⟩
        intro hm
        obtain ⟨e, he, hk⟩ := List.mem_map.mp hm
        have := (List.mem_filter.mp he).2
        simp [hk] at this
      · intro e he
        simp only [GoMap.set, List.mem_cons] at he
        rcases he with rfl | he
        · rfl
        · exact hd.2 e he
    · injection h with h; injection h with h1 h2; subst h1; exact inv
  | other =>
    simp only [responder] at h
    injection h with h; injection h with h1 h2; subst h1; exact inv

theorem responder_run_keyedByRid {J : Type} (X : Externals J) (ctx : context)
    (es : List (Event J)) :
    ∀ (st st1 : RespState J) (sent : List (Nat × Mq_msg)),
      KeyedByRid st.pending_resp → responder_run X ctx st es = Except.ok (st1, sent) →
      KeyedByRid st1.pending_resp := by
  induction es with
  | nil =>
    intro st st1 sent inv hrun
    simp only [responder_run] at hrun
    injection hrun with hrun; injection hrun with h1 h2; subst h1; exact inv
  | cons e es ih =>
    intro st st1 sent inv hrun
    simp only [responder_run] at hrun
    split at hrun
    · exact Except.noConfusion hrun
    · rename_i s1 o1 hstep
      split at hrun
      · exact Except.noConfusion hrun
      · rename_i s2 sent2 hrest
        injection hrun with hrun; injection hrun with h1 h2; subst h1
        exact ih s1 s2 sent2 (responder_keeps_keyedByRid X ctx st s1 e o1 inv hstep) hrest

theorem reachable_keyedByRid {J : Type} (X : Externals J) (ctx : context)
    (events : List (Event J)) (st : RespState J) (sent : List (Nat × Mq_msg))
    (h : responder_run X ctx (RespState.init J) events = Except.ok (st, sent)) :
    KeyedByRid st.pending_resp :=
  responder_run_keyedByRid X ctx events _ st sent
    ⟨by simp [RespState.init], by simp [RespState.init]⟩ h

/-- C12: in every state that the responder reaches, a tickle at time `now`
removes from `pending_resp` exactly the blocks whose `Tstamp` is less than
`now`, sends one broker message for each block removed (on the channel of its
Request, with its `Exch_key` as key), keeps every other block as it is, and
leaves `unmatched` as it is. The messages are listed in the order of the
map's entries; a Go range has no fixed order. -/
theorem sweep_removes_exactly_the_expired {J : Type} (X : Externals J) (ctx : context)
    (events : List (Event J)) (st : RespState J) (sent0 : List (Nat × Mq_msg)) (now : Int)
    (hreach : responder_run X ctx (RespState.init J) events = Except.ok (st, sent0)) :
    responder X ctx st (Event.tickle now) =
      Except.ok
        (⟨st.pending_resp.filter (fun e => ¬ e.2.Tstamp < now), st.unmatched⟩,
          ⟨(st.pending_resp.filter (fun e => e.2.Tstamp < now)).map
              (fun e => (e.2.Req.Resp_ch,
                ⟨timeout_rdata X.isPrintHi ctx.sid e.2.Msg_key, e.2.Exch_key⟩)),
            []⟩) := by
  have inv := reachable_keyedByRid X ctx events st sent0 hreach
  have hs := sweep_eq X.isPrintHi ctx.sid now st.pending_resp [] [] (by simpa using inv.1)
    inv.2
  simp only [List.nil_append] at hs
  simp only [responder, hs]
  rfl

/-- C12, with the block of `pingVfdReq` pending until 115 and a tickle at
120: the block is removed and its timeout goes out on channel 7 with key K4. -/
theorem sweep_removes_exactly_the_expired_witness :
    responder_run jsonExternals exampleCtx (RespState.init Json)
        [Event.response 100 pingVfdBlock] = Except.ok (waitingState, []) ∧
    responder jsonExternals exampleCtx waitingState (Event.tickle 120) =
      Except.ok
        (⟨[], []⟩,
          ⟨[(7, ⟨"\x7b \"sender\": \"host_4242\", \"state\": \"ERROR\", \"msg_key\": \"u4\", " ++
              "\"msg\": \"timeout: no response from VFd\" \x7d", "K4"⟩)], []⟩) :=
  ⟨rfl, (sweep_removes_exactly_the_expired jsonExternals exampleCtx
    [Event.response 100 pingVfdBlock] waitingState [] 120 rfl).trans rfl⟩

theorem timeout_rdata_ne_prebuilt {J : Type} (X : Externals J) (sid msg_key : String) :
    timeout_rdata X.isPrintHi sid msg_key ≠
      build_response X sid "ERROR" "request timeout" msg_key none := by
  intro e
  have h := congrArg String.data e
  rw [timeout_rdata_data, build_response_data] at h
  simp [memberText] at h

theorem serialiser_wait_rdata {J : Type} (X : Externals J) (ctx : context)
    (version : String) (sys : SysCalls) (req : Request J) (r : Response J)
    (hr : r ∈ (serialiser X ctx version sys req).resp_ch) (hw : r.Wait = true) :
    r.Rdata = build_response X ctx.sid "ERROR" "request timeout" req.Msg_key none ∧
    r.Msg_key = req.Msg_key := by
  by_cases hs : X.Get_string req.Jtree "sender" = some ctx.sid
  · simp [serialiser, hs] at hr
  cases ha : X.Get_string req.Jtree "action" with
  | none => simp [serialiser, hs, ha] at hr
  | some a =>
    simp only [serialiser, hs, ha, if_false] at hr
    by_cases hp : a = "Ping"
    · subst hp
      simp [serialiser_switch] at hr
      obtain ⟨-, rfl⟩ := hr
      simp at hw
    · have hsw : (serialiser_switch X ctx version sys req a (X.Get_string req.Jtree "target")
          (build_response X ctx.sid "ERROR" "request timeout" req.Msg_key none)).Rdata =
          build_response X ctx.sid "ERROR" "request timeout" req.Msg_key none := by
        unfold serialiser_switch
        simp only [hp, if_false]
        repeat' split
        all_goals rfl
      split_ifs at hr <;> cases hfw : sys.fifo_write <;> simp_all

/-- C13 as stated fails: with the block of `pingVfdReq` pending until 115, the
tickle at 120 sends the envelope with the message "timeout: no response from
VFd", which is not the block's `Rdata`, the envelope with the message
"request timeout" that the serialiser stored. -/
theorem timeout_envelope_is_not_the_stored_rdata :
    (serialiser jsonExternals exampleCtx "tokay v1.0/18420" sysOk pingVfdReq).resp_ch.map
        (fun r => r.Rdata) =
      ["\x7b \"sender\": \"host_4242\", \"state\": \"ERROR\", \"msg\": \"request timeout\", " ++
        "\"msg_key\": \"u4\" \x7d"] ∧
    waitingState.pending_resp.map (fun e => e.2.Rdata) =
      ["\x7b \"sender\": \"host_4242\", \"state\": \"ERROR\", \"msg\": \"request timeout\", " ++
        "\"msg_key\": \"u4\" \x7d"] ∧
    (match responder jsonExternals exampleCtx waitingState (Event.tickle 120) with
      | Except.ok (_, out) => out.sent.map (fun m => m.2.Data)
      | Except.error _ => []) =
      ["\x7b \"sender\": \"host_4242\", \"state\": \"ERROR\", \"msg_key\": \"u4\", " ++
        "\"msg\": \"timeout: no response from VFd\" \x7d"] := by
  refine ⟨by decide, by decide, by decide⟩

/-- C13 (amended): for every pending block that the tickle expires, the
envelope sent is built then, from the bridge's sender id and the block's
`Msg_key`, with state "ERROR" and the message "timeout: no response from
VFd"; the `Rdata` that the serialiser stored in a block that waits, the
envelope with the message "request timeout", is a different text and is not
sent. -/
theorem timeout_envelope_is_built_at_the_sweep {J : Type} (X : Externals J) (ctx : context)
    (events : List (Event J)) (st st1 : RespState J) (sent0 : List (Nat × Mq_msg))
    (now : Int) (out : RespOut)
    (hreach : responder_run X ctx (RespState.init J) events = Except.ok (st, sent0))
    (hstep : responder X ctx st (Event.tickle now) = Except.ok (st1, out)) :
    out.sent.map (fun m => m.2.Data) =
      (st.pending_resp.filter (fun e => e.2.Tstamp < now)).map
        (fun e => timeout_rdata X.isPrintHi ctx.sid e.2.Msg_key) ∧
    ∀ version sys req r, r ∈ (serialiser X ctx version sys req).resp_ch → r.Wait = true →
      r.Rdata = build_response X ctx.sid "ERROR" "request timeout" r.Msg_key none ∧
      timeout_rdata X.isPrintHi ctx.sid r.Msg_key ≠ r.Rdata := by
  have inv := reachable_keyedByRid X ctx events st sent0 hreach
  have hs := sweep_eq X.isPrintHi ctx.sid now st.pending_resp [] [] (by simpa using inv.1)
    inv.2
  simp only [List.nil_append] at hs
  simp only [responder, hs] at hstep
  injection hstep with hstep; injection hstep with h1 h2
  subst h2
  refine ⟨by simp [timeout_msg], ?_⟩
  intro version sys req r hr hw
  obtain ⟨h3, h4⟩ := serialiser_wait_rdata X ctx version sys req r hr hw
  rw [h4]
  exact ⟨h3, h3 ▸ timeout_rdata_ne_prebuilt X ctx.sid req.Msg_key⟩

/-- C13 (amended), with the block of `pingVfdReq` pending until 115 and a
tickle at 120. -/
theorem timeout_envelope_is_built_at_the_sweep_witness :
    responder_run jsonExternals exampleCtx (RespState.init Json)
        [Event.response 100 pingVfdBlock] = Except.ok (waitingState, []) ∧
    ∃ st1 out, responder jsonExternals exampleCtx waitingState (Event.tickle 120) =
        Except.ok (st1, out) ∧
      out.sent.map (fun m => m.2.Data) =
        (waitingState.pending_resp.filter (fun e => e.2.Tstamp < 120)).map
          (fun e => timeout_rdata jsonExternals.isPrintHi exampleCtx.sid e.2.Msg_key) :=
  ⟨rfl, _, _, rfl, (timeout_envelope_is_built_at_the_sweep jsonExternals exampleCtx
    [Event.response 100 pingVfdBlock] waitingState _ [] 120 _ rfl rfl).1⟩

/-! ## The responder: a blob that comes before its block -/

set_option maxRecDepth 100000 in
/-- C11 as stated fails: a blob for rid r-4 with the empty string as `state`
is handled, then the block of `pingVfdReq`, then the blob again. One message
is sent, on channel 7 with key K4, but the state in its envelope is "OK", not
the blob's state. -/
theorem early_blob_with_empty_state_is_answered_OK :
    (match responder_run jsonExternals exampleCtx (RespState.init Json)
        [Event.blob blobEmptyState, Event.response 100 pingVfdBlock,
          Event.blob blobEmptyState] with
      | Except.ok (_, sent) =>
        sent.map (fun m => (m.1, m.2.Key, m.2.Data,
          (parseJson m.2.Data).bind (fun j => j.getStr? "state")))
      | Except.error _ => []) =
      [(7, "K4", "\x7b \"sender\": \"host_4242\", \"state\": \"OK\", \"msg\": \"\", " ++
        "\"msg_key\": \"u4\", \"data\": " ++
        "\x7b\"action\":\"response\",\"vfd_rid\":\"r-4\",\"state\":\"\"\x7d \x7d", some "OK")] := by
  decide

/-- C11 (amended): from a state in which rid `r` is in neither map, when a
blob with action "response", `vfd_rid` `r` and state `s` is handled, then a
block with rid `r` that waits, then the blob that the block's handling sent
back on the queue, exactly one broker message is sent in all: on the channel
of the block's Request, with the block's `Exch_key` as key, and with the
envelope that `build_response` makes of state `s`, the blob's `msg` (or the
empty string), the block's `Msg_key` and the blob as data; in it the state is
`s`, or "OK" when `s` is empty. Afterwards `r` is in neither map. -/
theorem late_block_meets_its_blob {J : Type} (X : Externals J) (ctx : context)
    (st : RespState J) (b : String) (jt : J) (r s : String) (rec : Response J) (now : Int)
    (hp : GoMap.get st.pending_resp r = none) (hu : GoMap.get st.unmatched r = none)
    (hj : X.Json2tree b = some jt)
    (ha : X.Get_string jt "action" = some "response")
    (hv : X.Get_string jt "vfd_rid" = some r)
    (hs : X.Get_string jt "state" = some s)
    (hr : rec.Rid = r) (hw : rec.Wait = true) :
    ∃ st1 st2 st3,
      responder X ctx st (Event.blob b) = Except.ok (st1, ⟨[], []⟩) ∧
      responder X ctx st1 (Event.response now rec) = Except.ok (st2, ⟨[], [b]⟩) ∧
      responder X ctx st2 (Event.blob b) =
        Except.ok (st3,
          ⟨[(rec.Req.Resp_ch,
              ⟨build_response X ctx.sid s ((X.Get_string jt "msg").getD "") rec.Msg_key
                  (some jt), rec.Exch_key⟩)], []⟩) ∧
      build_response X ctx.sid s ((X.Get_string jt "msg").getD "") rec.Msg_key (some jt) =
        build_response X ctx.sid (if s = "" then "OK" else s)
          ((X.Get_string jt "msg").getD "") rec.Msg_key (some jt) ∧
      GoMap.get st3.pending_resp r = none ∧ GoMap.get st3.unmatched r = none := by
  subst hr
  have _hu := hu
  refine ⟨⟨st.pending_resp, GoMap.set st.unmatched rec.Rid b⟩,
    ⟨GoMap.set st.pending_resp rec.Rid { rec with Tstamp := now + 15 },
      GoMap.delete (GoMap.set st.unmatched rec.Rid b) rec.Rid⟩,
    ⟨GoMap.delete (GoMap.set st.pending_resp rec.Rid { rec with Tstamp := now + 15 }) rec.Rid,
      GoMap.delete (GoMap.set st.unmatched rec.Rid b) rec.Rid⟩, ?_, ?_, ?_, ?_, ?_, ?_⟩
  · simp [responder, hj, ha, hv, hp]
  · simp [responder, GoMap.get_set_self, hw]
  · simp only [responder, hj, ha, hv, hs, GoMap.get_set_self, if_true]
    cases X.Get_string jt "msg" <;> rfl
  · by_cases he : s = ""
    · subst he; simp [build_response]
    · simp [he]
  · exact GoMap.get_delete_self _ _
  · exact GoMap.get_delete_self _ _

/-- C11 (amended), with the blob `blobOk` for r-4 handled before the block of
`pingVfdReq`. -/
theorem late_block_meets_its_blob_witness :
    ∃ st1 st2 st3,
      responder jsonExternals exampleCtx (RespState.init Json) (Event.blob blobOk) =
        Except.ok (st1, ⟨[], []⟩) ∧
      responder jsonExternals exampleCtx st1 (Event.response 100 pingVfdBlock) =
        Except.ok (st2, ⟨[], [blobOk]⟩) ∧
      responder jsonExternals exampleCtx st2 (Event.blob blobOk) =
        Except.ok (st3,
          ⟨[(7, ⟨build_response jsonExternals "host_4242" "OK" "" "u4"
            (some (Json.obj [("action", Json.str "response"), ("vfd_rid", Json.str "r-4"),
              ("state", Json.str "OK")])), "K4"⟩)], []⟩) ∧
      GoMap.get st3.pending_resp "r-4" = none ∧ GoMap.get st3.unmatched "r-4" = none := by
  obtain ⟨st1, st2, st3, h1, h2, h3, -, h5, h6⟩ :=
    late_block_meets_its_blob jsonExternals exampleCtx (RespState.init Json) blobOk
      (Json.obj [("action", Json.str "response"), ("vfd_rid", Json.str "r-4"),
        ("state", Json.str "OK")]) "r-4" "OK" pingVfdBlock 100 rfl rfl rfl rfl rfl rfl rfl rfl
  exact ⟨st1, st2, st3, h1, h2, h3, h5, h6⟩

/-! ## The responder: one timeout reply and no more -/

theorem GoMap.ne_of_get_none {V : Type} (m : GoMap V) (k : String)
    (h : GoMap.get m k = none) : ∀ e ∈ m, e.1 ≠ k := by
  intro e he hk
  have := GoMap.isSome_get_of_mem m e.1 e.2 he
  rw [hk, h] at this
  simp at this

theorem GoMap.get_filter_none {V : Type} (m : GoMap V) (k : String) (p : String × V → Bool)
    (h : GoMap.get m k = none) : GoMap.get (m.filter p) k = none := by
  apply GoMap.get_eq_none
  intro hm
  obtain ⟨e, he, hk⟩ := List.mem_map.mp hm
  exact GoMap.ne_of_get_none m k h e (List.mem_filter.mp he).1 hk

theorem GoMap.filter_key {V : Type} (m : GoMap V) (k : String) (v : V) (q : V → Bool)
    (hnd : (m.map Prod.fst).Nodup) (h : GoMap.get m k = some v) :
    m.filter (fun e => decide (e.1 = k) && q e.2) = if q v = true then [(k, v)] else [] := by
  induction m with
  | nil => simp [GoMap.get] at h
  | cons e es ih =>
    obtain ⟨a, b⟩ := e
    simp only [List.map_cons, List.nodup_cons] at hnd
    by_cases hk : a = k
    · subst hk
      have hb : b = v := by simpa [GoMap.get, List.lookup_cons] using h
      subst hb
      have hes : es.filter (fun e => decide (e.1 = a) && q e.2) = [] := by
        rw [List.filter_eq_nil_iff]
        intro e he
        have : e.1 ≠ a := fun e2 => hnd.1 (e2 ▸ List.mem_map_of_mem Prod.fst he)
        simp [this]
      rw [List.filter_cons, hes]
      by_cases hq : q b = true <;> simp [hq]
    · have h2 : (k == a) = false := by simpa using fun e2 : k = a => hk e2.symm
      have h3 : GoMap.get es k = some v := by
        simpa [GoMap.get, List.lookup_cons, h2] using h
      rw [List.filter_cons]
      simp [hk, ih hnd.2 h3]

theorem responder_tickle {J : Type} (X : Externals J) (ctx : context) (st : RespState J)
    (now : Int) (inv : KeyedByRid st.pending_resp) :
    responder X ctx st (Event.tickle now) =
      Except.ok
        (⟨st.pending_resp.filter (fun e => ¬ e.2.Tstamp < now), st.unmatched⟩,
          ⟨(st.pending_resp.filter (fun e => e.2.Tstamp < now)).map
            (fun e => timeout_msg X.isPrintHi ctx.sid e.2), []⟩) := by
  have hs := sweep_eq X.isPrintHi ctx.sid now st.pending_resp [] [] (by simpa using inv.1)
    inv.2
  simp only [List.nil_append] at hs
  simp only [responder, hs]

theorem responder_run_append {J : Type} (X : Externals J) (ctx : context) :
    ∀ (a : List (Event J)) (st : RespState J) (b : List (Event J)) (st_end : RespState J)
      (sent : List (Nat × Mq_msg)),
      responder_run X ctx st (a ++ b) = Except.ok (st_end, sent) →
      ∃ s1 sa sb, responder_run X ctx st a = Except.ok (s1, sa) ∧
        responder_run X ctx s1 b = Except.ok (st_end, sb) ∧ sent = sa ++ sb := by
  intro a
  induction a with
  | nil =>
    intro st b st_end sent h
    exact ⟨st, [], sent, rfl, h, rfl⟩
  | cons e a ih =>
    intro st b st_end sent h
    simp only [List.cons_append, responder_run] at h
    split at h
    · exact Except.noConfusion h
    · rename_i s1 o1 hstep
      split at h
      · exact Except.noConfusion h
      · rename_i s2 sent2 hrest
        injection h with h; injection h with h1 h2
        subst h1 h2
        obtain ⟨s3, sa, sb, ha, hb, hs⟩ := ih s1 b s2 sent2 hrest
        refine ⟨s3, o1.sent ++ sa, sb, ?_, hb, ?_⟩
        · simp only [responder_run, hstep, ha]
        · rw [hs, List.append_assoc]

theorem responder_unmatched_free {J : Type} (X : Externals J) (ctx : context)
    (p : GoMap (Response J)) (u v : GoMap String) (e : Event J) :
    (responder X ctx ⟨p, u⟩ e).map (fun x => (x.1.pending_resp, x.2.sent)) =
      (responder X ctx ⟨p, v⟩ e).map (fun x => (x.1.pending_resp, x.2.sent)) := by
  cases e with
  | tickle now => rfl
  | blob msg =>
    simp only [responder]
    repeat' split
    all_goals rfl
  | response now m =>
    simp only [responder]
    split <;> rfl
  | other => rfl

/-- What an iteration sends, and what is pending after it, depends on what
is pending before it and not on the blobs kept in `unmatched`. -/
theorem responder_same_pending {J : Type} (X : Externals J) (ctx : context)
    (sw sb sw1 : RespState J) (e : Event J) (out : RespOut)
    (hp : sb.pending_resp = sw.pending_resp)
    (h : responder X ctx sw e = Except.ok (sw1, out)) :
    ∃ sb1 out1, responder X ctx sb e = Except.ok (sb1, out1) ∧ out1.sent = out.sent ∧
      sb1.pending_resp = sw1.pending_resp := by
  obtain ⟨p, u⟩ := sw
  obtain ⟨q, v⟩ := sb
  simp only at hp
  subst hp
  have hv := responder_unmatched_free X ctx q v u e
  rw [h] at hv
  cases hb : responder X ctx ⟨q, v⟩ e with
  | error x => rw [hb] at hv; exact Except.noConfusion hv
  | ok r =>
    rw [hb] at hv
    simp only [Except.map] at hv
    injection hv with hv
    injection hv with h1 h2
    exact ⟨r.1, r.2, rfl, h2, h1⟩

theorem responder_run_same_pending {J : Type} (X : Externals J) (ctx : context) :
    ∀ (es : List (Event J)) (sw sb sw1 : RespState J) (sent : List (Nat × Mq_msg)),
      sb.pending_resp = sw.pending_resp →
      responder_run X ctx sw es = Except.ok (sw1, sent) →
      ∃ sb1, responder_run X ctx sb es = Except.ok (sb1, sent) ∧
        sb1.pending_resp = sw1.pending_resp := by
  intro es
  induction es with
  | nil =>
    intro sw sb sw1 sent hp h
    simp only [responder_run] at h
    injection h with h; injection h with h1 h2
    subst h1 h2
    exact ⟨sb, rfl, hp⟩
  | cons e es ih =>
    intro sw sb sw1 sent hp h
    simp only [responder_run] at h
    split at h
    · exact Except.noConfusion h
    · rename_i s1 o1 hstep
      split at h
      · exact Except.noConfusion h
      · rename_i s2 sent2 hrest
        injection h with h; injection h with h1 h2
        subst h1 h2
        obtain ⟨b1, ob, hbs, hsent, hpb⟩ := responder_same_pending X ctx sw sb s1 e o1 hp hstep
        obtain ⟨b2, hb2, hp2⟩ := ih s1 b1 s2 sent2 hpb hrest
        refine ⟨b2, ?_, hp2⟩
        simp only [responder_run, hbs, hb2, hsent]

theorem GoMap.delete_comm {V : Type} (m : GoMap V) (a b : String) :
    GoMap.delete (GoMap.delete m a) b = GoMap.delete (GoMap.delete m b) a := by
  simp only [GoMap.delete]
  exact List.filter_comm _ _ _

theorem GoMap.delete_filter {V : Type} (m : GoMap V) (a : String) (q : String × V → Bool) :
    GoMap.delete (m.filter q) a = (GoMap.delete m a).filter q := by
  simp only [GoMap.delete]
  exact List.filter_comm _ _ _

theorem GoMap.delete_set_of_ne {V : Type} (m : GoMap V) (a k : String) (v : V) (h : k ≠ a) :
    GoMap.delete (GoMap.set m k v) a = GoMap.set (GoMap.delete m a) k v := by
  simp only [GoMap.set]
  rw [GoMap.delete_comm m a k]
  simp [GoMap.delete, List.filter_cons, h]

theorem GoMap.eq_of_mem_of_get {V : Type} (m : GoMap V) (k : String) (v w : V)
    (hnd : (m.map Prod.fst).Nodup) (hg : GoMap.get m k = some v) (hm : (k, w) ∈ m) : w = v := by
  have := GoMap.get_of_mem_nodup m k w hnd hm
  rw [hg] at this
  exact (Option.some.inj this).symm

/-- A tickle that comes no later than the deadline of the block pending
under `rid` sends what it would send with nothing pending under `rid`. -/
theorem filter_expired_delete {J : Type} (m : GoMap (Response J)) (rid : String)
    (p : Response J) (now : Int) (inv : KeyedByRid m) (hg : GoMap.get m rid = some p)
    (hle : now ≤ p.Tstamp) :
    (GoMap.delete m rid).filter (fun e => decide (e.2.Tstamp < now)) =
      m.filter (fun e => decide (e.2.Tstamp < now)) := by
  simp only [GoMap.delete, List.filter_filter]
  apply List.filter_congr
  intro e he
  by_cases hk : e.1 = rid
  · have hw : e.2 = p := by
      apply GoMap.eq_of_mem_of_get m rid p e.2 inv.1 hg
      rw [← hk]; exact he
    have : ¬ e.2.Tstamp < now := by rw [hw]; exact not_lt.mpr hle
    simp [this]
  · simp [hk]

/-- A step before the deadline of the block pending under `rid`, and that is
no blob and no block for `rid`: the block stays pending, and with nothing
pending under `rid` the step sends the same messages and leaves the same
blocks pending, that one apart. -/
theorem before_step {J : Type} (X : Externals J) (ctx : context) (sw sw1 : RespState J)
    (rid : String) (p : Response J) (e : Event J) (out : RespOut)
    (inv : KeyedByRid sw.pending_resp) (hg : GoMap.get sw.pending_resp rid = some p)
    (hb : Before X rid p.Tstamp e) (h : responder X ctx sw e = Except.ok (sw1, out)) :
    GoMap.get sw1.pending_resp rid = some p ∧
    ∃ sb1 out1, responder X ctx (sw.without rid) e = Except.ok (sb1, out1) ∧
      out1.sent = out.sent ∧ sb1.pending_resp = GoMap.delete sw1.pending_resp rid := by
  cases e with
  | tickle now =>
    have hle : now ≤ p.Tstamp := hb
    have invb : KeyedByRid (sw.without rid).pending_resp := keyedByRid_filter _ _ inv
    rw [responder_tickle X ctx sw now inv] at h
    injection h with h; injection h with h1 h2
    subst h1 h2
    refine ⟨?_, _, _, responder_tickle X ctx (sw.without rid) now invb, ?_, ?_⟩
    · apply GoMap.get_of_mem_nodup _ _ _ (keyedByRid_filter _ _ inv).1
      exact List.mem_filter.mpr ⟨GoMap.mem_of_get _ _ _ hg, by simpa using hle⟩
    · simp only [RespState.without]
      rw [filter_expired_delete sw.pending_resp rid p now inv hg hle]
    · simp only [RespState.without]
      exact (GoMap.delete_filter _ _ _).symm
  | blob msg =>
    cases hj : X.Json2tree msg with
    | none =>
      simp only [responder, hj] at h ⊢
      injection h with h; injection h with h1 h2
      subst h1 h2
      exact ⟨hg, _, _, rfl, rfl, rfl⟩
    | some jt =>
      have hne : X.Get_string jt "vfd_rid" ≠ some rid := hb jt hj
      cases hv : X.Get_string jt "vfd_rid" with
      | none =>
        simp only [responder, hj, hv] at h ⊢
        injection h with h; injection h with h1 h2
        subst h1 h2
        exact ⟨hg, _, _, rfl, rfl, rfl⟩
      | some v =>
        have hvr : v ≠ rid := fun e => hne (by rw [hv, e])
        have hrv : rid ≠ v := fun e => hvr e.symm
        have hgb : GoMap.get (sw.without rid).pending_resp v = GoMap.get sw.pending_resp v :=
          GoMap.get_delete_of_ne _ _ _ hvr
        cases ha : X.Get_string jt "action" with
        | none =>
          simp only [responder, hj, hv, ha] at h ⊢
          injection h with h; injection h with h1 h2
          subst h1 h2
          exact ⟨hg, _, _, rfl, rfl, rfl⟩
        | some a =>
          by_cases hact : a = "response"
          · cases hgv : GoMap.get sw.pending_resp v with
            | none =>
              simp only [responder, hj, hv, ha, hact, if_true, hgv, hgb] at h ⊢
              injection h with h; injection h with h1 h2
              subst h1 h2
              exact ⟨hg, _, _, rfl, rfl, rfl⟩
            | some resp =>
              cases hs : X.Get_string jt "state" with
              | none =>
                simp only [responder, hj, hv, ha, hact, if_true, hgv, hs] at h
                exact Except.noConfusion h
              | some s =>
                simp only [responder, hj, hv, ha, hact, if_true, hgv, hgb, hs] at h ⊢
                injection h with h; injection h with h1 h2
                subst h1 h2
                refine ⟨(GoMap.get_delete_of_ne _ _ _ hrv).trans hg, _, _, rfl, rfl, ?_⟩
                exact GoMap.delete_comm _ _ _
          · simp only [responder, hj, hv, ha, hact, if_false] at h ⊢
            injection h with h; injection h with h1 h2
            subst h1 h2
            exact ⟨hg, _, _, rfl, rfl, rfl⟩
  | response now m =>
    have hne : m.Rid ≠ rid := hb
    have hne2 : rid ≠ m.Rid := fun e => hne e.symm
    by_cases hw : m.Wait = true
    · simp only [responder, hw, if_true] at h ⊢
      injection h with h; injection h with h1 h2
      subst h1 h2
      refine ⟨(GoMap.get_set_of_ne _ _ _ _ hne2).trans hg, _, _, rfl, rfl, ?_⟩
      exact (GoMap.delete_set_of_ne _ _ _ _ hne).symm
    · simp only [responder, hw, if_false] at h ⊢
      injection h with h; injection h with h1 h2
      subst h1 h2
      exact ⟨hg, _, _, rfl, rfl, rfl⟩
  | other =>
    simp only [responder] at h ⊢
    injection h with h; injection h with h1 h2
    subst h1 h2
    exact ⟨hg, _, _, rfl, rfl, rfl⟩

theorem before_run {J : Type} (X : Externals J) (ctx : context) (rid : String)
    (p : Response J) (mid : List (Event J)) :
    ∀ sw sb : RespState J, KeyedByRid sw.pending_resp →
      GoMap.get sw.pending_resp rid = some p →
      sb.pending_resp = GoMap.delete sw.pending_resp rid →
      (∀ e ∈ mid, Before X rid p.Tstamp e) →
      ∀ (sw1 : RespState J) (sent : List (Nat × Mq_msg)),
        responder_run X ctx sw mid = Except.ok (sw1, sent) →
        KeyedByRid sw1.pending_resp ∧ GoMap.get sw1.pending_resp rid = some p ∧
        ∃ sb1, responder_run X ctx sb mid = Except.ok (sb1, sent) ∧
          sb1.pending_resp = GoMap.delete sw1.pending_resp rid := by
  induction mid with
  | nil =>
    intro sw sb inv hg hb _ sw1 sent hrun
    simp only [responder_run] at hrun
    injection hrun with hrun; injection hrun with h1 h2
    subst h1 h2
    exact ⟨inv, hg, sb, rfl, hb⟩
  | cons e mid ih =>
    intro sw sb inv hg hb hbef sw1 sent hrun
    simp only [responder_run] at hrun
    split at hrun
    · exact Except.noConfusion hrun
    · rename_i s1 o1 hstep
      split at hrun
      · exact Except.noConfusion hrun
      · rename_i s2 sent2 hrest
        injection hrun with hrun; injection hrun with h1 h2
        subst h1 h2
        obtain ⟨hg1, c1, oc, hc, hcs, hcp⟩ := before_step X ctx sw s1 rid p e o1 inv hg
          (hbef e (List.mem_cons_self _ _)) hstep
        obtain ⟨b1, ob, hbs, hbsent, hbp⟩ := responder_same_pending X ctx (sw.without rid) sb
          c1 e oc hb hc
        obtain ⟨inv2, hg2, b2, hb2, hp2⟩ := ih s1 b1
          (responder_keeps_keyedByRid X ctx sw s1 e o1 inv hstep) hg1 (hbp.trans hcp)
          (fun e2 he2 => hbef e2 (List.mem_cons_of_mem _ he2)) s2 sent2 hrest
        refine ⟨inv2, hg2, b2, ?_, hp2⟩
        simp only [responder_run, hbs, hb2, hbsent, hcs]

/-- The tickle that finds the block pending under `rid` past its deadline
sends the timeout of that block once, among the messages that it would send
with nothing pending under `rid`, and leaves nothing pending under `rid`. -/
theorem tickle_after_deadline {J : Type} (X : Externals J) (ctx : context)
    (sw sw1 : RespState J) (rid : String) (p : Response J) (now : Int) (out : RespOut)
    (inv : KeyedByRid sw.pending_resp) (hg : GoMap.get sw.pending_resp rid = some p)
    (hexp : p.Tstamp < now)
    (h : responder X ctx sw (Event.tickle now) = Except.ok (sw1, out)) :
    GoMap.get sw1.pending_resp rid = none ∧
    ∃ pre suf, out.sent = pre ++ timeout_msg X.isPrintHi ctx.sid p :: suf ∧
      ∃ sb1 out1, responder X ctx (sw.without rid) (Event.tickle now) = Except.ok (sb1, out1) ∧
        out1.sent = pre ++ suf ∧ sb1.pending_resp = sw1.pending_resp := by
  have invb : KeyedByRid (sw.without rid).pending_resp := keyedByRid_filter _ _ inv
  rw [responder_tickle X ctx sw now inv] at h
  injection h with h; injection h with h1 h2
  subst h1 h2
  obtain ⟨l1, l2, hl⟩ := List.append_of_mem (GoMap.mem_of_get _ _ _ hg)
  have hnd := inv.1
  rw [hl] at hnd
  simp only [List.map_append, List.map_cons] at hnd
  have hnot := (List.nodup_cons.mp (List.nodup_middle.mp hnd)).1
  simp only [List.mem_append, not_or] at hnot
  have hd : GoMap.delete sw.pending_resp rid = l1 ++ l2 := by
    have e1 : List.filter (fun e => decide (e.1 ≠ rid)) l1 = l1 :=
      GoMap.delete_eq_self l1 rid hnot.1
    have e2 : List.filter (fun e => decide (e.1 ≠ rid)) l2 = l2 :=
      GoMap.delete_eq_self l2 rid hnot.2
    show List.filter (fun e => decide (e.1 ≠ rid)) sw.pending_resp = l1 ++ l2
    rw [hl, List.filter_append, List.filter_cons, e1, e2]
    simp
  refine ⟨?_, (l1.filter (fun e => e.2.Tstamp < now)).map
      (fun e => timeout_msg X.isPrintHi ctx.sid e.2),
    (l2.filter (fun e => e.2.Tstamp < now)).map
      (fun e => timeout_msg X.isPrintHi ctx.sid e.2), ?_, _, _,
    responder_tickle X ctx (sw.without rid) now invb, ?_, ?_⟩
  · apply GoMap.get_eq_none
    intro hm
    obtain ⟨e, he, hk⟩ := List.mem_map.mp hm
    obtain ⟨he1, he2⟩ := List.mem_filter.mp he
    have hw : e.2 = p := by
      apply GoMap.eq_of_mem_of_get sw.pending_resp rid p e.2 inv.1 hg
      rw [← hk]; exact he1
    rw [hw] at he2
    simp [hexp] at he2
  · simp only [hl, List.filter_append, List.filter_cons, hexp, decide_True, if_true,
      List.map_append, List.map_cons]
  · simp only [RespState.without, hd, List.filter_append, List.map_append]
  · simp only [RespState.without]
    rw [hd, hl]
    simp [List.filter_append, List.filter_cons, hexp]

/-- A step that is no block for `rid`, taken when nothing is pending under
`rid`, leaves nothing pending under `rid`. -/
theorem absent_step {J : Type} (X : Externals J) (ctx : context) (st st1 : RespState J)
    (r : String) (e : Event J) (out : RespOut)
    (inv : KeyedByRid st.pending_resp) (hg : GoMap.get st.pending_resp r = none)
    (hb : NoBlockFor r e) (h : responder X ctx st e = Except.ok (st1, out)) :
    GoMap.get st1.pending_resp r = none := by
  cases e with
  | tickle now =>
    rw [responder_tickle X ctx st now inv] at h
    injection h with h; injection h with h1 h2
    subst h1
    exact GoMap.get_filter_none _ _ _ hg
  | blob msg =>
    have hdel : ∀ v, GoMap.get (GoMap.delete st.pending_resp v) r = none := by
      intro v
      cases hd : GoMap.get (GoMap.delete st.pending_resp v) r with
      | none => rfl
      | some x =>
        have := GoMap.isSome_of_delete st.pending_resp v r (by rw [hd]; rfl)
        rw [hg] at this
        simp at this
    simp only [responder] at h
    split at h
    · injection h with h; injection h with h1 h2; subst h1; exact hg
    · split at h
      · split_ifs at h with hact
        · split at h
          · split at h
            · exact Except.noConfusion h
            · injection h with h; injection h with h1 h2; subst h1
              exact hdel _
          · injection h with h; injection h with h1 h2; subst h1; exact hg
        · injection h with h; injection h with h1 h2; subst h1; exact hg
      · injection h with h; injection h with h1 h2; subst h1; exact hg
  | response now m =>
    have hne : m.Rid ≠ r := hb
    simp only [responder] at h
    have hne2 : r ≠ m.Rid := fun e => hne e.symm
    split_ifs at h with hw
    · injection h with h; injection h with h1 h2; subst h1
      exact (GoMap.get_set_of_ne _ _ _ _ hne2).trans hg
    · injection h with h; injection h with h1 h2; subst h1; exact hg
  | other =>
    simp only [responder] at h
    injection h with h; injection h with h1 h2; subst h1
    exact hg

theorem absent_run {J : Type} (X : Externals J) (ctx : context) (r : String)
    (es : List (Event J)) :
    ∀ st : RespState J, KeyedByRid st.pending_resp → GoMap.get st.pending_resp r = none →
      (∀ e ∈ es, NoBlockFor r e) →
      ∀ (st1 : RespState J) (sent : List (Nat × Mq_msg)),
        responder_run X ctx st es = Except.ok (st1, sent) →
        GoMap.get st1.pending_resp r = none := by
  induction es with
  | nil =>
    intro st _ hg _ st1 sent hrun
    simp only [responder_run] at hrun
    injection hrun with hrun; injection hrun with h1 h2
    subst h1
    exact hg
  | cons e es ih =>
    intro st inv hg hb st1 sent hrun
    simp only [responder_run] at hrun
    split at hrun
    · exact Except.noConfusion hrun
    · rename_i s1 o1 hstep
      split at hrun
      · exact Except.noConfusion hrun
      · rename_i s2 sent2 hrest
        injection hrun with hrun; injection hrun with h1 h2
        subst h1
        exact ih s1 (responder_keeps_keyedByRid X ctx st s1 e o1 inv hstep)
          (absent_step X ctx st s1 r e o1 inv hg (hb e (List.mem_cons_self _ _)) hstep)
          (fun e2 he2 => hb e2 (List.mem_cons_of_mem _ he2)) s2 sent2 hrest

/-- A blob whose `vfd_rid` has nothing pending sends nothing. -/
theorem blob_for_absent_rid {J : Type} (X : Externals J) (ctx : context)
    (st st1 : RespState J) (r msg : String) (jt : J) (out : RespOut)
    (hg : GoMap.get st.pending_resp r = none) (hj : X.Json2tree msg = some jt)
    (hv : X.Get_string jt "vfd_rid" = some r)
    (h : responder X ctx st (Event.blob msg) = Except.ok (st1, out)) : out.sent = [] := by
  simp only [responder, hj, hv] at h
  cases ha : X.Get_string jt "action" with
  | none =>
    simp only [ha] at h
    injection h with h; injection h with h1 h2; subst h2; rfl
  | some a =>
    simp only [ha, hg] at h
    split_ifs at h
    · injection h with h; injection h with h1 h2; subst h2; rfl
    · injection h with h; injection h with h1 h2; subst h2; rfl

theorem GoMap.delete_set_self {V : Type} (m : GoMap V) (k : String) (v : V) :
    GoMap.delete (GoMap.set m k v) k = GoMap.delete m k := by
  simp [GoMap.set, GoMap.delete, List.filter_cons, List.filter_filter]

theorem responder_run_cons {J : Type} (X : Externals J) (ctx : context) (st st_end : RespState J)
    (e : Event J) (es : List (Event J)) (sent : List (Nat × Mq_msg))
    (h : responder_run X ctx st (e :: es) = Except.ok (st_end, sent)) :
    ∃ s1 o1 sent1, responder X ctx st e = Except.ok (s1, o1) ∧
      responder_run X ctx s1 es = Except.ok (st_end, sent1) ∧ sent = o1.sent ++ sent1 := by
  simp only [responder_run] at h
  split at h
  · exact Except.noConfusion h
  · rename_i s1 o1 hstep
    split at h
    · exact Except.noConfusion h
    · rename_i s2 sent2 hrest
      injection h with h; injection h with h1 h2
      subst h1 h2
      exact ⟨s1, o1, sent2, hstep, hrest, rfl⟩

/-- C14: a block that waits is handled at time `t` in a state the responder
has reached, so its deadline is `t + 15`; until the first tickle later than
`t + 15` no blob with its rid and no other block with its rid is handled.
What the responder sends for the block is told by the run of the same
events with the block left out and nothing pending under its rid. Up to
that tickle the responder sends the same messages as without the block
(tickles at times up to `t + 15` send nothing for it). That tickle sends
what it sends without the block and, once, the envelope with state "ERROR"
and message "timeout: no response from VFd" on the channel and with the key
of the block; after it nothing is pending under the rid. Whatever is handled
afterwards sends the same messages as without the block, and a blob with
that rid, as long as no later block has the rid, sends nothing. -/
theorem one_timeout_reply_and_no_more {J : Type} (X : Externals J) (ctx : context)
    (events0 : List (Event J)) (st0 : RespState J) (sent0 : List (Nat × Mq_msg))
    (rec : Response J) (t now1 : Int) (mid post : List (Event J))
    (st_end : RespState J) (sent : List (Nat × Mq_msg))
    (hreach : responder_run X ctx (RespState.init J) events0 = Except.ok (st0, sent0))
    (hw : rec.Wait = true)
    (hmid : ∀ e ∈ mid, Before X rec.Rid (t + 15) e)
    (hnow : t + 15 < now1)
    (hrun : responder_run X ctx st0
      (Event.response t rec :: (mid ++ Event.tickle now1 :: post)) =
        Except.ok (st_end, sent)) :
    ∃ (st1 st2 : RespState J) (out : RespOut) (sent_mid pre suf sent_post : List (Nat × Mq_msg)),
      responder_run X ctx st0 (Event.response t rec :: mid) = Except.ok (st1, sent_mid) ∧
      responder X ctx st1 (Event.tickle now1) = Except.ok (st2, out) ∧
      responder_run X ctx st2 post = Except.ok (st_end, sent_post) ∧
      sent = sent_mid ++ out.sent ++ sent_post ∧
      out.sent = pre ++
        (rec.Req.Resp_ch, ⟨timeout_rdata X.isPrintHi ctx.sid rec.Msg_key, rec.Exch_key⟩) ::
          suf ∧
      GoMap.get st2.pending_resp rec.Rid = none ∧
      (∃ (b1 b2 b3 : RespState J) (out0 : RespOut),
        responder_run X ctx (st0.without rec.Rid) mid = Except.ok (b1, sent_mid) ∧
        responder X ctx b1 (Event.tickle now1) = Except.ok (b2, out0) ∧
        out0.sent = pre ++ suf ∧
        responder_run X ctx b2 post = Except.ok (b3, sent_post)) ∧
      (∀ (post1 post2 : List (Event J)) (msg : String) (jt : J),
        post = post1 ++ Event.blob msg :: post2 → (∀ e ∈ post1, NoBlockFor rec.Rid e) →
        X.Json2tree msg = some jt → X.Get_string jt "vfd_rid" = some rec.Rid →
        ∃ (s1 s2 : RespState J) (sent1 : List (Nat × Mq_msg)) (o : RespOut),
          responder_run X ctx st2 post1 = Except.ok (s1, sent1) ∧
          responder X ctx s1 (Event.blob msg) = Except.ok (s2, o) ∧ o.sent = []) := by
  have inv0 := reachable_keyedByRid X ctx events0 st0 sent0 hreach
  have hsplit : Event.response t rec :: (mid ++ Event.tickle now1 :: post) =
      (Event.response t rec :: mid) ++ (Event.tickle now1 :: post) := rfl
  rw [hsplit] at hrun
  obtain ⟨st1, sent_mid, sent_b, hA, hB, hsent⟩ := responder_run_append X ctx _ st0 _ _ _ hrun
  obtain ⟨st2, out, sent_post, hT, hP, hsb⟩ := responder_run_cons X ctx st1 st_end _ _ _ hB
  obtain ⟨s1, o1, smid, hstep, hM, hsm⟩ := responder_run_cons X ctx st0 st1 _ _ _ hA
  have inv1 := responder_keeps_keyedByRid X ctx st0 s1 _ o1 inv0 hstep
  simp only [responder] at hstep
  rw [if_pos hw] at hstep
  injection hstep with hstep; injection hstep with h1 h2
  have hg1 : GoMap.get s1.pending_resp rec.Rid = some { rec with Tstamp := t + 15 } := by
    rw [← h1]; exact GoMap.get_set_self _ _ _
  have ho1 : o1.sent = [] := by rw [← h2]
  have hb0 : (st0.without rec.Rid).pending_resp = GoMap.delete s1.pending_resp rec.Rid := by
    rw [← h1]
    exact (GoMap.delete_set_self _ _ _).symm
  obtain ⟨inv2, hg2, b1, hb1, hbp1⟩ := before_run X ctx rec.Rid { rec with Tstamp := t + 15 }
    mid s1 (st0.without rec.Rid) inv1 hg1 hb0 hmid st1 smid hM
  obtain ⟨hg3, pre, suf, hout, c2, oc, hc, hocs, hcp⟩ := tickle_after_deadline X ctx st1 st2
    rec.Rid { rec with Tstamp := t + 15 } now1 out inv2 hg2 hnow hT
  obtain ⟨b2, ob, hb2, hobs, hbp2⟩ := responder_same_pending X ctx (st1.without rec.Rid) b1 c2
    _ oc hbp1 hc
  obtain ⟨b3, hb3, -⟩ := responder_run_same_pending X ctx post st2 b2 st_end sent_post
    (hbp2.trans hcp) hP
  have inv3 := responder_keeps_keyedByRid X ctx st1 st2 _ out inv2 hT
  have hsm2 : sent_mid = smid := by rw [hsm, ho1, List.nil_append]
  refine ⟨st1, st2, out, sent_mid, pre, suf, sent_post, hA, hT, hP, ?_, hout, hg3,
    ⟨b1, b2, b3, ob, ?_, hb2, hobs.trans hocs, hb3⟩, ?_⟩
  · rw [hsent, hsb, List.append_assoc]
  · rw [hsm2]; exact hb1
  · intro post1 post2 msg jt hpost hno hj hv
    rw [hpost] at hP
    obtain ⟨s3, sent1, sent2, hP1, hP2, -⟩ := responder_run_append X ctx _ st2 _ _ _ hP
    obtain ⟨s4, o, sent3, hblob, -, -⟩ := responder_run_cons X ctx s3 st_end _ _ _ hP2
    have hg4 := absent_run X ctx rec.Rid post1 st2 inv3 hg3 hno s3 sent1 hP1
    exact ⟨s3, s4, sent1, o, hP1, hblob, blob_for_absent_rid X ctx s3 s4 rec.Rid msg jt o hg4
      hj hv hblob⟩

/-- C14, with the block of `pingVfdReq` handled at 100 by the responder as it
starts: a tickle at 110 and a blob for another rid come before the deadline
115, then the tickle at 116, then the blob for r-4 and a tickle at 130. The
whole run sends one message, the timeout envelope on channel 7 with key K4;
the tickle at 116 sends it and leaves nothing pending under r-4. -/
theorem one_timeout_reply_and_no_more_witness :
    responder_run jsonExternals exampleCtx (RespState.init Json)
        (Event.response 100 pingVfdBlock ::
          ([Event.tickle 110, Event.blob blobWithoutState9] ++
            Event.tickle 116 :: [Event.blob blobOk, Event.tickle 130])) =
      Except.ok (⟨[], [("r-4", blobOk), ("r-9", blobWithoutState9)]⟩,
        [(7, ⟨"\x7b \"sender\": \"host_4242\", \"state\": \"ERROR\", \"msg_key\": \"u4\", " ++
          "\"msg\": \"timeout: no response from VFd\" \x7d", "K4"⟩)]) ∧
    ∃ (st1 st2 : RespState Json) (out : RespOut) (pre suf : List (Nat × Mq_msg)),
      responder jsonExternals exampleCtx st1 (Event.tickle 116) = Except.ok (st2, out) ∧
      out.sent = pre ++
        (7, ⟨timeout_rdata jsonExternals.isPrintHi exampleCtx.sid "u4", "K4"⟩) :: suf ∧
      GoMap.get st2.pending_resp "r-4" = none := by
  have hmid : ∀ e ∈ [Event.tickle 110, Event.blob blobWithoutState9],
      Before jsonExternals pingVfdBlock.Rid (100 + 15) e := by
    intro e he
    simp only [List.mem_cons, List.mem_singleton, List.not_mem_nil, or_false] at he
    rcases he with rfl | rfl
    · show (110 : Int) ≤ 100 + 15
      decide
    · intro jt hj
      have h2 : jsonExternals.Json2tree blobWithoutState9 =
          some (Json.obj [("action", Json.str "response"), ("vfd_rid", Json.str "r-9")]) := rfl
      rw [h2] at hj
      cases hj
      decide
  have hrun : responder_run jsonExternals exampleCtx (RespState.init Json)
        (Event.response 100 pingVfdBlock ::
          ([Event.tickle 110, Event.blob blobWithoutState9] ++
            Event.tickle 116 :: [Event.blob blobOk, Event.tickle 130])) =
      Except.ok (⟨[], [("r-4", blobOk), ("r-9", blobWithoutState9)]⟩,
        [(7, ⟨"\x7b \"sender\": \"host_4242\", \"state\": \"ERROR\", \"msg_key\": \"u4\", " ++
          "\"msg\": \"timeout: no response from VFd\" \x7d", "K4"⟩)]) := rfl
  obtain ⟨st1, st2, out, -, pre, suf, -, -, hT, -, -, hout, hg, -, -⟩ :=
    one_timeout_reply_and_no_more jsonExternals exampleCtx [] (RespState.init Json) []
      pingVfdBlock 100 116 [Event.tickle 110, Event.blob blobWithoutState9]
      [Event.blob blobOk, Event.tickle 130] _ _ rfl rfl hmid (by decide) hrun
  exact ⟨hrun, st1, st2, out, pre, suf, hT, hout, hg⟩

/-! ## The request for VFd: its two newlines -/

theorem lowerhex_ne_newline (n : Nat) : lowerhex n ≠ '\n' := by
  have h : ∀ m, m < 16 → lowerhex m ≠ '\n' := by decide
  have h2 := h (n % 16) (Nat.mod_lt _ (by norm_num))
  simpa [lowerhex, Nat.mod_mod] using h2

theorem not_mem_ite {p : Prop} [Decidable p] {c : Char} {a b : List Char} (ha : p → c ∉ a)
    (hb : ¬ p → c ∉ b) : c ∉ (if p then a else b) := by
  split
  · exact ha ‹_›
  · exact hb ‹_›

theorem not_mem_ite2 {p : Prop} [Decidable p] {c : Char} {a b : List Char} (ha : c ∉ a)
    (hb : c ∉ b) : c ∉ (if p then a else b) := by
  split <;> assumption

theorem newline_not_mem_appendEscapedRune (hi : Char → Bool) (r : Char) :
    '\n' ∉ appendEscapedRune hi r := by
  unfold appendEscapedRune
  apply not_mem_ite
  · rintro (h | h) <;> subst h <;> decide
  intro _
  apply not_mem_ite
  · intro h
    have h2 := IsPrint_ge hi r h
    have h3 : r ≠ '\n' := by
      rintro rfl
      exact h2 (by decide)
    exact fun hm => h3 (List.mem_singleton.mp hm).symm
  intro _
  repeat' apply not_mem_ite2
  all_goals simp [(lowerhex_ne_newline _).symm]

theorem newline_not_mem_quoteBody (hi : Char → Bool) (s : List Char) :
    '\n' ∉ quoteBody hi s := by
  induction s with
  | nil => simp [quoteBody]
  | cons c s ih =>
    simp only [quoteBody, List.mem_append, not_or]
    exact ⟨newline_not_mem_appendEscapedRune hi c, ih⟩

theorem newline_not_mem_memberText (hi : Char → Bool) (k v : List Char) (hk : '\n' ∉ k) :
    '\n' ∉ memberText hi k v := by
  have h := newline_not_mem_quoteBody hi v
  simp [memberText, hk, h]

theorem newline_not_mem_requestText (hi : Char → Bool) (action : String)
    (fname data : Option String) (fifo key : String) :
    '\n' ∉ requestText hi action fname data fifo key := by
  have h1 := newline_not_mem_memberText hi "action".data action.data (by decide)
  have h2 := newline_not_mem_memberText hi "r_fifo".data fifo.data (by decide)
  have h3 := newline_not_mem_memberText hi "vfd_rid".data key.data (by decide)
  have h4 : ∀ f : String, '\n' ∉ memberText hi "filename".data f.data :=
    fun f => newline_not_mem_memberText hi "filename".data f.data (by decide)
  have h5 : ∀ d : String, '\n' ∉ memberText hi "resource".data d.data :=
    fun d => newline_not_mem_memberText hi "resource".data d.data (by decide)
  have h6 : '\n' ∉ "params".data := by decide
  cases fname <;> cases data <;>
    simp [requestText, paramsText, h1, h2, h3, h4, h5, h6]

/-- C22: for every action, filename (given or not), resource (given or not),
fifo path and rid, whatever characters they hold, the string that
`mk_vfd_request` returns has exactly two newline characters, they are its
last two characters, and the two newlines that end the frame occur nowhere
before its end. -/
theorem request_has_two_newlines_at_its_end (hi : Char → Bool) (action : String)
    (fname data : Option String) (fifo key : String) :
    (mk_vfd_request hi action fname data fifo key).data.count '\n' = 2 ∧
    (mk_vfd_request hi action fname data fifo key).data.drop
      ((mk_vfd_request hi action fname data fifo key).data.length - 2) = ['\n', '\n'] ∧
    ∀ pre post : List Char,
      (mk_vfd_request hi action fname data fifo key).data = pre ++ '\n' :: '\n' :: post →
        post = [] := by
  have hb := newline_not_mem_requestText hi action fname data fifo key
  rw [mk_vfd_request_data]
  refine ⟨?_, ?_, ?_⟩
  · rw [List.count_append, List.count_eq_zero_of_not_mem hb]
    rfl
  · simp
  · intro pre post h
    have hc := congrArg (List.count '\n') h
    rw [List.count_append, List.count_eq_zero_of_not_mem hb] at hc
    simp only [List.count_append, List.count_cons_self, List.count_nil] at hc
    have hpost : '\n' ∉ post := List.count_eq_zero.mp (by omega)
    rcases List.eq_nil_or_concat post with rfl | ⟨p, x, rfl⟩
    · rfl
    · exfalso
      have e1 : requestText hi action fname data fifo key ++ ['\n', '\n'] =
          (requestText hi action fname data fifo key ++ ['\n']) ++ ['\n'] := by simp
      have e2 : pre ++ '\n' :: '\n' :: (p ++ [x]) = (pre ++ '\n' :: '\n' :: p) ++ [x] := by
        simp
      rw [List.concat_eq_append] at h hpost
      rw [e1, e2] at h
      have hx := (List.append_inj' h rfl).2
      exact hpost (by simp [← List.singleton_inj.mp hx])

/-- The request for a show whose resource and fifo path hold newlines and a
double quote: `%q` writes them as `\n` and `\"`. -/
theorem mk_vfd_request_escapes_newlines :
    mk_vfd_request jsonExternals.isPrintHi "show" none (some "a\n\nb\"c") "/tmp/f\n" "r-22" =
      "\x7b \"action\": \"show\",\"params\": \x7b \"resource\": \"a\\n\\nb\\\"c\", \"r_fifo\": \"/tmp/f\\n\", \"vfd_rid\": \"r-22\"\x7d\x7d\n\n" := by
  decide

/-! ## The response reader: the blob, character by character -/

theorem resp_reader_records (recs : List String)
    (hl : ∀ r ∈ recs, r ≠ "@eom@\n" ∧ 0 < r.length) (rest : List ReadResult) :
    ∀ acc : String,
      resp_reader (recs.map ReadResult.ok ++ ReadResult.ok "@eom@\n" :: rest) acc =
        String.mk (acc.data ++ recs.flatMap (fun r => r.data ++ ['\n'])) ::
          resp_reader rest "" := by
  induction recs with
  | nil =>
    intro acc
    simp [resp_reader]
  | cons r recs ih =>
    intro acc
    obtain ⟨hne, hlen⟩ := hl r (List.mem_cons_self _ _)
    simp only [List.map_cons, List.cons_append, resp_reader, hne, if_false, hlen, if_true]
    refine (ih (fun m hm => hl m (List.mem_cons_of_mem _ hm)) (acc ++ (r ++ "\n"))).trans ?_
    simp [String.data_append, List.append_assoc]

theorem length_flatMap_newline (recs : List String) :
    (recs.flatMap (fun r => r.data ++ ['\n'])).length =
      (recs.flatMap String.data).length + recs.length := by
  induction recs with
  | nil => rfl
  | cons r recs ih =>
    simp only [List.flatMap_cons, List.length_append, List.length_cons, List.length_nil, ih]
    omega

/-- C23: for every sequence of records that `ReadString` returns without an
error, each ending in its newline and none of them the sentinel line,
followed by the sentinel line, the blob that the response reader (starting a
blob) sends is the concatenation of each record followed by one more
newline; it is longer than the bytes read before the sentinel by one
character for each record, so with at least one record it is not those
bytes. -/
theorem blob_is_each_record_and_one_more_newline (recs : List String)
    (rest : List ReadResult)
    (hl : ∀ r ∈ recs, r ≠ "@eom@\n" ∧ r.data.getLast? = some '\n') :
    resp_reader (recs.map ReadResult.ok ++ ReadResult.ok "@eom@\n" :: rest) "" =
      String.mk (recs.flatMap (fun r => r.data ++ ['\n'])) :: resp_reader rest "" ∧
    (recs.flatMap (fun r => r.data ++ ['\n'])).length =
      (recs.flatMap String.data).length + recs.length ∧
    (recs ≠ [] → recs.flatMap (fun r => r.data ++ ['\n']) ≠ recs.flatMap String.data) := by
  refine ⟨?_, length_flatMap_newline recs, ?_⟩
  · have h := resp_reader_records recs (fun r hr => ⟨(hl r hr).1, ?_⟩) rest ""
    · simpa using h
    · have h2 := (hl r hr).2
      cases hd : r.data with
      | nil => rw [hd] at h2; simp at h2
      | cons c cs =>
        have : r.length = (c :: cs).length := by rw [← hd]; rfl
        rw [this]; simp
  · intro hne e
    have h := length_flatMap_newline recs
    rw [e] at h
    have : recs.length = 0 := by omega
    exact hne (List.length_eq_zero.mp this)

/-- C23, for a blob of three records, the second a blank line: each newline
comes out twice. -/
theorem blob_is_each_record_and_one_more_newline_witness :
    (∀ r ∈ ["\x7b \"action\": \"response\",\n", "\n", " \"vfd_rid\": \"r-4\" \x7d\n"],
      r ≠ "@eom@\n" ∧ r.data.getLast? = some '\n') ∧
    resp_reader ((["\x7b \"action\": \"response\",\n", "\n",
        " \"vfd_rid\": \"r-4\" \x7d\n"].map ReadResult.ok) ++
          ReadResult.ok "@eom@\n" :: [ReadResult.ok "x\n"]) "" =
      ["\x7b \"action\": \"response\",\n\n\n\n \"vfd_rid\": \"r-4\" \x7d\n\n"] :=
  ⟨by decide,
    (blob_is_each_record_and_one_more_newline _ [ReadResult.ok "x\n"] (by decide)).1.trans
      (by decide)⟩

/-! ## The collectors and the serialiser, run together -/

theorem join_append (a b : List String) : String.join (a ++ b) = String.join a ++ String.join b := by
  apply String.ext
  simp [String.join_eq, String.data_append]

theorem join_singleton (s : String) : String.join [s] = s := by
  apply String.ext
  simp [String.join_eq]

theorem serialiser_fifo {J : Type} (X : Externals J) (ctx : context) (version : String)
    (sys : SysCalls) (req : Request J) (hw : sys.fifo_write = IoResult.ok) :
    (serialiser X ctx version sys req).fifo = fifo_buffer X ctx version sys req := by
  unfold serialiser fifo_buffer
  by_cases hs : X.Get_string req.Jtree "sender" = some ctx.sid
  · simp [hs]
  · simp only [hs, if_false]
    cases X.Get_string req.Jtree "action" with
    | none => rfl
    | some action =>
      simp only [hw]
      split_ifs with h
      · rfl
      · simp only [ne_eq, not_not] at h
        exact h.symm

theorem serialiser_switch_fifo_buffer {J : Type} (X : Externals J) (ctx : context)
    (version : String) (sys : SysCalls) (req : Request J) (action : String)
    (target : Option String) (rdata : String) :
    (serialiser_switch X ctx version sys req action target rdata).fifo_buffer = "" ∨
      ∃ (a : String) (fname data : Option String),
        (serialiser_switch X ctx version sys req action target rdata).fifo_buffer =
          mk_vfd_request X.isPrintHi a fname data ctx.resp_fifo req.Rid := by
  unfold serialiser_switch
  dsimp only
  by_cases h1 : action = "response"
  · rw [if_pos h1]; exact Or.inl rfl
  rw [if_neg h1]
  by_cases h2 : action = "ping" ∨ action = "dump"
  · rw [if_pos h2]; exact Or.inr ⟨action, none, none, rfl⟩
  rw [if_neg h2]
  by_cases h3 : action = "Ping"
  · rw [if_pos h3]; exact Or.inl rfl
  rw [if_neg h3]
  by_cases h4 : action = "add"
  · rw [if_pos h4]
    cases target with
    | none => exact Or.inl rfl
    | some t =>
      dsimp only
      cases X.Get_subtree req.Jtree "req_data" with
      | none => exact Or.inl rfl
      | some data =>
        dsimp only
        rcases stash_vf_cfg ctx sys t (X.Frock data) with ⟨(err | fname), files⟩
        · exact Or.inl rfl
        · exact Or.inr ⟨"add", some fname, none, rfl⟩
  rw [if_neg h4]
  by_cases h5 : action = "del" ∨ action = "delete"
  · rw [if_pos h5]
    cases target with
    | none => exact Or.inl rfl
    | some t =>
      dsimp only
      by_cases h : t ++ ".json" ≠ ""
      · rw [if_pos h]; exact Or.inr ⟨"delete", some (t ++ ".json"), none, rfl⟩
      · rw [if_neg h]; exact Or.inl rfl
  rw [if_neg h5]
  by_cases h6 : action = "mirror"
  · rw [if_pos h6]
    cases X.Get_string req.Jtree "req_data" with
    | none => exact Or.inl rfl
    | some data => exact Or.inr ⟨action, none, some data, rfl⟩
  rw [if_neg h6]
  by_cases h7 : action = "show"
  · rw [if_pos h7]; exact Or.inr ⟨action, none, target, rfl⟩
  rw [if_neg h7]
  exact Or.inl rfl

theorem fifo_buffer_cases {J : Type} (X : Externals J) (ctx : context) (version : String)
    (sys : SysCalls) (req : Request J) :
    fifo_buffer X ctx version sys req = "" ∨
      ∃ (action : String) (fname data : Option String),
        fifo_buffer X ctx version sys req =
          mk_vfd_request X.isPrintHi action fname data ctx.resp_fifo req.Rid := by
  unfold fifo_buffer
  split_ifs
  · exact Or.inl rfl
  · cases X.Get_string req.Jtree "action" with
    | none => exact Or.inl rfl
    | some action => exact serialiser_switch_fifo_buffer X ctx version sys req action _ _

theorem collector_turn_waiting {J : Type} (X : Externals J) (ctx : context) :
    ∀ (i : Nat) (cs cs2 : List CollectorState) (out : List (Request J)),
      collector_turn X ctx i cs = some (out, cs2) →
        List.Perm (waiting X ctx cs) (out ++ waiting X ctx cs2) := by
  intro i cs
  induction cs generalizing i with
  | nil => intro cs2 out h; simp [collector_turn] at h
  | cons c cs ih =>
    intro cs2 out h
    cases i with
    | zero =>
      simp only [collector_turn] at h
      cases hc : c.rh_ch with
      | nil => simp [hc] at h
      | cons d more =>
        simp only [hc, Option.some.injEq, Prod.mk.injEq] at h
        obtain ⟨rfl, rfl⟩ := h
        simp [waiting, hc]
    | succ i =>
      simp only [collector_turn] at h
      cases hr : collector_turn X ctx i cs with
      | none => simp [hr] at h
      | some p =>
        obtain ⟨out2, cs3⟩ := p
        simp only [hr, Option.some.injEq, Prod.mk.injEq] at h
        obtain ⟨rfl, rfl⟩ := h
        have h2 := ih i cs3 out2 hr
        simp only [waiting, List.flatMap_cons] at h2 ⊢
        exact (List.Perm.append_left _ h2).trans (List.perm_append_comm_assoc _ _ _)

theorem bridge_turn_invariant {J : Type} (X : Externals J) (ctx : context) (version : String)
    (b : Bridge J) (t : Turn) (hw : t.write_ok = true) :
    ∃ served : List (SysCalls × Request J),
      (Bridge.turn X ctx version b t).req_fifo =
        b.req_fifo ++ String.join (served.map (fun p => fifo_buffer X ctx version p.1 p.2)) ∧
      List.Perm
        (served.map Prod.snd ++ ((Bridge.turn X ctx version b t).synch_ch ++
          waiting X ctx (Bridge.turn X ctx version b t).collectors))
        (b.synch_ch ++ waiting X ctx b.collectors) := by
  have hnil : b.req_fifo = b.req_fifo ++ String.join
      (([] : List (SysCalls × Request J)).map (fun p => fifo_buffer X ctx version p.1 p.2)) := by
    simp [String.join]
  cases t with
  | collect i =>
    refine ⟨[], ?_, ?_⟩
    · simp only [Bridge.turn]
      split
      · split <;> exact hnil
      · exact hnil
    · simp only [Bridge.turn, List.map_nil, List.nil_append]
      split
      · rename_i out cs hc
        have hp := collector_turn_waiting X ctx i b.collectors cs out hc
        split
        · simp only [List.append_assoc]
          exact (List.Perm.append_left _ hp).symm
        · exact List.Perm.refl _
      · exact List.Perm.refl _
  | serialise sys =>
    have hok : sys.fifo_write = IoResult.ok := by
      cases h : sys.fifo_write with
      | ok => rfl
      | failed n e => simp [Turn.write_ok, h] at hw
    cases hq : b.synch_ch with
    | nil =>
      refine ⟨[], ?_, ?_⟩
      · simp only [Bridge.turn, hq]
        exact hnil
      · simp [Bridge.turn, hq]
    | cons req more =>
      refine ⟨[(sys, req)], ?_, ?_⟩
      · simp only [Bridge.turn, hq, List.map_cons, List.map_nil, join_singleton,
          serialiser_fifo X ctx version sys req hok]
      · simp [Bridge.turn, hq]

theorem bridge_run_invariant {J : Type} (X : Externals J) (ctx : context) (version : String)
    (turns : List Turn) (hw : ∀ t ∈ turns, t.write_ok = true) :
    ∀ b : Bridge J, ∃ served : List (SysCalls × Request J),
      (Bridge.run X ctx version b turns).req_fifo =
        b.req_fifo ++ String.join (served.map (fun p => fifo_buffer X ctx version p.1 p.2)) ∧
      List.Perm
        (served.map Prod.snd ++ ((Bridge.run X ctx version b turns).synch_ch ++
          waiting X ctx (Bridge.run X ctx version b turns).collectors))
        (b.synch_ch ++ waiting X ctx b.collectors) := by
  induction turns with
  | nil =>
    intro b
    exact ⟨[], by simp [Bridge.run, String.join], by simp [Bridge.run]⟩
  | cons t ts ih =>
    intro b
    obtain ⟨s1, h1, p1⟩ := bridge_turn_invariant X ctx version b t (hw t (List.mem_cons_self _ _))
    obtain ⟨s2, h2, p2⟩ := ih (fun u hu => hw u (List.mem_cons_of_mem _ hu))
      (Bridge.turn X ctx version b t)
    refine ⟨s1 ++ s2, ?_, ?_⟩
    · simp only [Bridge.run, h2, h1, List.map_append, join_append, String.append_assoc]
    · simp only [Bridge.run, List.map_append, List.append_assoc]
      exact (List.Perm.append_left _ p2).trans p1

theorem waiting_of_idle {J : Type} (X : Externals J) (ctx : context) (b : Bridge J)
    (h : b.idle = true) : b.synch_ch = [] ∧ waiting X ctx b.collectors = [] := by
  simp only [Bridge.idle, Bool.and_eq_true, List.isEmpty_iff, List.all_eq_true] at h
  refine ⟨h.1, ?_⟩
  simp only [waiting, List.flatMap_eq_nil_iff]
  intro c hc
  simp [h.2 c hc]

/-- C21: the collectors that `main` starts, one for each exchange, and the
one serialiser take their turns in any order; every write to the request
pipe returns no error. When every delivery has been collected and every
request received by the serialiser, the bytes written to the request pipe
are the fifo buffers of the requests, each whole and one after the other,
in the order in which the serialiser received them; that order is a
permutation of the requests that the collectors sent. Each fifo buffer is
empty (nothing is written for the request) or one request for VFd as
`mk_vfd_request` builds it. -/
theorem pipe_is_the_payloads_one_after_the_other {J : Type} (X : Externals J)
    (ctx : context) (version : String) (collectors : List CollectorState)
    (turns : List Turn) (hw : ∀ t ∈ turns, t.write_ok = true)
    (hidle : (Bridge.run X ctx version (Bridge.start J collectors) turns).idle = true) :
    ∃ served : List (SysCalls × Request J),
      List.Perm (served.map Prod.snd) (waiting X ctx collectors) ∧
      (Bridge.run X ctx version (Bridge.start J collectors) turns).req_fifo =
        String.join (served.map (fun p => fifo_buffer X ctx version p.1 p.2)) ∧
      ∀ p ∈ served, fifo_buffer X ctx version p.1 p.2 = "" ∨
        ∃ (action : String) (fname data : Option String),
          fifo_buffer X ctx version p.1 p.2 =
            mk_vfd_request X.isPrintHi action fname data ctx.resp_fifo p.2.Rid := by
  obtain ⟨served, h1, h2⟩ := bridge_run_invariant X ctx version turns hw (Bridge.start J collectors)
  obtain ⟨hq, hwt⟩ := waiting_of_idle X ctx _ hidle
  refine ⟨served, ?_, ?_, fun p _ => fifo_buffer_cases X ctx version p.1 p.2⟩
  · rw [hq, hwt] at h2
    simpa [Bridge.start] using h2
  · rw [h1]
    simp [Bridge.start]

/-- C21, for two collectors with three deliveries, the second collector
first: the pipe holds the show request and then the ping request, each
whole; nothing is written for the local Ping. -/
theorem pipe_is_the_payloads_one_after_the_other_witness :
    (∀ t ∈ exampleTurns, t.write_ok = true) ∧
    (Bridge.run jsonExternals exampleCtx "tokay v1.0/18420" (Bridge.start Json exampleCollectors)
      exampleTurns).idle = true ∧
    ∃ served : List (SysCalls × Request Json),
      List.Perm (served.map Prod.snd) (waiting jsonExternals exampleCtx exampleCollectors) ∧
      (Bridge.run jsonExternals exampleCtx "tokay v1.0/18420"
          (Bridge.start Json exampleCollectors) exampleTurns).req_fifo =
        String.join (served.map
          (fun p => fifo_buffer jsonExternals exampleCtx "tokay v1.0/18420" p.1 p.2)) ∧
      ∀ p ∈ served, fifo_buffer jsonExternals exampleCtx "tokay v1.0/18420" p.1 p.2 = "" ∨
        ∃ (action : String) (fname data : Option String),
          fifo_buffer jsonExternals exampleCtx "tokay v1.0/18420" p.1 p.2 =
            mk_vfd_request jsonExternals.isPrintHi action fname data exampleCtx.resp_fifo
              p.2.Rid :=
  ⟨by decide, by decide,
    pipe_is_the_payloads_one_after_the_other jsonExternals exampleCtx "tokay v1.0/18420"
      exampleCollectors exampleTurns (by decide) (by decide)⟩

set_option maxRecDepth 100000 in
/-- The run `exampleTurns` of `exampleCollectors`: the pipe holds the request
for the show and then the request for the ping. -/
theorem example_run_fills_the_pipe :
    (Bridge.run jsonExternals exampleCtx "tokay v1.0/18420" (Bridge.start Json exampleCollectors)
      exampleTurns).req_fifo =
    "\x7b \"action\": \"show\",\"params\": \x7b \"resource\": \"all\", \"r_fifo\": \"/var/lib/vfd/fifos/tokay.fifo\", \"vfd_rid\": \"r-2\"\x7d\x7d\n\n\x7b \"action\": \"ping\",\"params\": \x7b \"r_fifo\": \"/var/lib/vfd/fifos/tokay.fifo\", \"vfd_rid\": \"r-1\"\x7d\x7d\n\n" := by
  decide

end Tokay
